import Mathlib

/-!
# Trust-root parsing of sigstore-go

A shallow embedding of `pkg/root/trustroot.go`.

* Go pointers that the source tests against `nil`, or reads through the nil-safe protobuf
  getters, are `Option` values (`none` is `nil`).
* A Go slice whose nil-ness is observable (`[]byte` fields compared with `nil`, the slices a
  function returns) is an `Option (List _)`: `none` is the nil slice, `some []` the empty one.
* A Go multi-value return `(v, err)` is a tuple whose last component is `Option Error`
  (`none` is the nil error). A function that can dereference a nil pointer has an `Outcome`:
  the tuple it returns, or a run-time panic.
* `crypto/x509`, `crypto/ecdsa` and `sigstore/pkg/signature` are not part of the repository:
  their three entry points are the fields of `Lib`, and every theorem holds for all of them.
-/

set_option autoImplicit false

namespace Sigstore

/-! ## Go values -/

/-- One byte. -/
abbrev Byte := Fin 256

/-- A Go `[]byte`: `none` is the nil slice. -/
abbrev GoBytes := Option (List Byte)

/-- A Go slice `[]T`: `none` is the nil slice. -/
abbrev Slice (α : Type) := Option (List α)

/-- How a Go call ends: it returns its values, or a run-time panic (a nil pointer
dereference) unwinds it and nothing is returned. -/
inductive Outcome (α : Type) where
  | returns (values : α)
  | panics
  deriving DecidableEq, Repr

/-- The elements of a slice, as `range` and `len` see them (a nil slice has none). -/
def Slice.elems {α : Type} : Slice α → List α
  | none => []
  | some xs => xs

/-- Go `append(s, xs...)`: appending nothing to the nil slice leaves it nil. -/
def Slice.append {α : Type} (s : Slice α) (xs : List α) : Slice α :=
  match s, xs with
  | none, [] => none
  | s, xs => some (Slice.elems s ++ xs)

/-- A Go `map[string]V`, kept as its entries with pairwise distinct keys, newest first. -/
structure GoMap (V : Type) where
  entries : List (String × V)
  deriving DecidableEq, Repr

namespace GoMap

/-- Go `make(map[string]V)`. -/
def empty {V : Type} : GoMap V := ⟨[]⟩

/-- Go `m[k] = v`: an entry already stored under `k` is replaced. -/
def set {V : Type} (m : GoMap V) (k : String) (v : V) : GoMap V :=
  ⟨(k, v) :: m.entries.filter (fun p => p.1 != k)⟩

/-- Go `v, ok := m[k]`. -/
def get? {V : Type} (m : GoMap V) (k : String) : Option V :=
  m.entries.lookup k

/-- Go `len(m)`. -/
def len {V : Type} (m : GoMap V) : Nat := m.entries.length

/-- The keys of a map. -/
def keys {V : Type} (m : GoMap V) : List String := m.entries.map Prod.fst

end GoMap

/-! ## `encoding/hex` -/

namespace hex

/-- The digit table of `encoding/hex`. -/
def hextable : List Char := "0123456789abcdef".toList

/-- One hexadecimal digit, `hextable[n]`. -/
def hexDigit (n : Nat) : Char := hextable.getD n '0'

/-- The two digits of one byte: `hextable[v>>4]`, `hextable[v&0x0f]`. -/
def encodeByte (v : Byte) : List Char := [hexDigit (v.val / 16), hexDigit (v.val % 16)]

/-- Go `hex.EncodeToString`. -/
def EncodeToString (src : List Byte) : String := String.mk (src.flatMap encodeByte)

end hex

/-! ## Protobuf messages (`protobuf-specs`) -/

namespace protocommon

/-- The enum `HashAlgorithm`; `unrecognized n` is a number the enum does not declare (a
protobuf enum field holds any `int32`). -/
inductive HashAlgorithm where
  | HASH_ALGORITHM_UNSPECIFIED
  | SHA2_256
  | unrecognized (n : Int)
  deriving DecidableEq, Repr

/-- The enum `PublicKeyDetails`; `unrecognized n` is a number the enum does not declare. -/
inductive PublicKeyDetails where
  | PUBLIC_KEY_DETAILS_UNSPECIFIED
  | PKCS1_RSA_PKCS1V5
  | PKCS1_RSA_PSS
  | PKIX_RSA_PKCS1V5
  | PKIX_RSA_PSS
  | PKIX_ECDSA_P256_SHA_256
  | PKIX_ECDSA_P256_HMAC_SHA_256
  | PKIX_ED25519
  | unrecognized (n : Int)
  deriving DecidableEq, Repr

/-- The message `TimeRange` (seconds since the epoch). -/
structure TimeRange where
  Start : Option Int
  End : Option Int
  deriving DecidableEq, Repr

/-- The message `LogId`. -/
structure LogId where
  KeyId : GoBytes
  deriving DecidableEq, Repr

/-- The message `PublicKey`. -/
structure PublicKey where
  RawBytes : GoBytes
  KeyDetails : PublicKeyDetails
  ValidFor : Option TimeRange
  deriving DecidableEq, Repr

/-- The message `DistinguishedName`. -/
structure DistinguishedName where
  Organization : String
  CommonName : String
  deriving DecidableEq, Repr

/-- The message `X509Certificate`. -/
structure X509Certificate where
  RawBytes : GoBytes
  deriving DecidableEq, Repr

/-- The message `X509CertificateChain`; an element of `Certificates` is a pointer and may be
nil. -/
structure X509CertificateChain where
  Certificates : List (Option X509Certificate)
  deriving DecidableEq, Repr

/-- Getter `(*LogId).GetKeyId`, nil-safe. -/
def LogId.GetKeyId : Option LogId → GoBytes
  | some x => x.KeyId
  | none => none

/-- Getter `(*PublicKey).GetRawBytes`, nil-safe. -/
def PublicKey.GetRawBytes : Option PublicKey → GoBytes
  | some x => x.RawBytes
  | none => none

/-- Getter `(*PublicKey).GetKeyDetails`, nil-safe. -/
def PublicKey.GetKeyDetails : Option PublicKey → PublicKeyDetails
  | some x => x.KeyDetails
  | none => .PUBLIC_KEY_DETAILS_UNSPECIFIED

/-- Getter `(*X509CertificateChain).GetCertificates`, nil-safe. -/
def X509CertificateChain.GetCertificates :
    Option X509CertificateChain → List (Option X509Certificate)
  | some x => x.Certificates
  | none => []

end protocommon

namespace prototrustroot

open protocommon

/-- The message `TransparencyLogInstance`. -/
structure TransparencyLogInstance where
  BaseUrl : String
  HashAlgorithm : HashAlgorithm
  PublicKey : Option PublicKey
  LogId : Option LogId
  deriving DecidableEq, Repr

/-- The message `CertificateAuthority`. -/
structure CertificateAuthority where
  Subject : Option DistinguishedName
  Uri : String
  CertChain : Option X509CertificateChain
  ValidFor : Option TimeRange
  deriving DecidableEq, Repr

/-- The message `TrustedRoot`. -/
structure TrustedRoot where
  MediaType : String
  Tlogs : List (Option TransparencyLogInstance)
  CertificateAuthorities : List (Option CertificateAuthority)
  Ctlogs : List (Option TransparencyLogInstance)
  TimestampAuthorities : List (Option CertificateAuthority)
  deriving DecidableEq, Repr

/-- Getter `(*TransparencyLogInstance).GetHashAlgorithm`, nil-safe. -/
def TransparencyLogInstance.GetHashAlgorithm :
    Option TransparencyLogInstance → protocommon.HashAlgorithm
  | some x => x.HashAlgorithm
  | none => .HASH_ALGORITHM_UNSPECIFIED

/-- Getter `(*TransparencyLogInstance).GetLogId`, nil-safe. -/
def TransparencyLogInstance.GetLogId :
    Option TransparencyLogInstance → Option protocommon.LogId
  | some x => x.LogId
  | none => none

/-- Getter `(*TransparencyLogInstance).GetPublicKey`, nil-safe. -/
def TransparencyLogInstance.GetPublicKey :
    Option TransparencyLogInstance → Option protocommon.PublicKey
  | some x => x.PublicKey
  | none => none

/-- Getter `(*CertificateAuthority).GetCertChain`, nil-safe. -/
def CertificateAuthority.GetCertChain : Option CertificateAuthority → Option X509CertificateChain
  | some x => x.CertChain
  | none => none

/-- Getter `(*TrustedRoot).GetMediaType`, nil-safe. -/
def TrustedRoot.GetMediaType : Option TrustedRoot → String
  | some x => x.MediaType
  | none => ""

/-- Getter `(*TrustedRoot).GetTlogs`, nil-safe. -/
def TrustedRoot.GetTlogs : Option TrustedRoot → List (Option TransparencyLogInstance)
  | some x => x.Tlogs
  | none => []

/-- Getter `(*TrustedRoot).GetCertificateAuthorities`, nil-safe. -/
def TrustedRoot.GetCertificateAuthorities : Option TrustedRoot → List (Option CertificateAuthority)
  | some x => x.CertificateAuthorities
  | none => []

/-- Getter `(*TrustedRoot).GetTimestampAuthorities`, nil-safe. -/
def TrustedRoot.GetTimestampAuthorities : Option TrustedRoot → List (Option CertificateAuthority)
  | some x => x.TimestampAuthorities
  | none => []

end prototrustroot

/-! ## Library boundary -/

namespace crypto

/-- The hash identifiers of Go `crypto.Hash` that matter here. -/
inductive Hash where
  | SHA1
  | SHA256
  | SHA384
  | SHA512
  deriving DecidableEq, Repr

/-- The named elliptic curves of `crypto/elliptic`. -/
inductive Curve where
  | P224
  | P256
  | P384
  | P521
  deriving DecidableEq, Repr

/-- Go `ecdsa.PublicKey`: a curve and a point. -/
structure ECDSAPublicKey where
  Curve : Curve
  X : Nat
  Y : Nat
  deriving DecidableEq, Repr

/-- The dynamic type of the `any` that `x509.ParsePKIXPublicKey` returns. -/
inductive AnyPublicKey where
  | rsa (N : Nat) (E : Nat)
  | dsa (Y : Nat)
  | ecdsa (key : ECDSAPublicKey)
  | ed25519 (key : List Byte)
  | ecdh (key : List Byte)
  deriving DecidableEq, Repr

end crypto

/-- The errors of `trustroot.go`, one constructor per `fmt.Errorf`, and the errors handed on
from the libraries. -/
inductive Error where
  | unsupportedMediaType (mediaType : String)
  | unsupportedTlogHashAlgorithm (alg : protocommon.HashAlgorithm)
  | tlogMissingLogID
  | tlogMissingKeyID
  | tlogMissingPublicKey
  | tlogMissingRawBytes
  | tlogKeyNotECDSAP256
  | unsupportedTlogPublicKeyType (details : protocommon.PublicKeyDetails)
  | caNil
  | caMissingCertChain
  | caEmptyCertChain
  | library (msg : String)
  deriving DecidableEq, Repr

/-- The library functions `trustroot.go` calls: `x509.ParseCertificate`,
`x509.ParsePKIXPublicKey` and `signature.LoadECDSAVerifier`. They read the contents of a byte
slice only, so they take the byte list. -/
structure Lib (Certificate Verifier : Type) where
  ParseCertificate : List Byte → Except Error Certificate
  ParsePKIXPublicKey : List Byte → Except Error crypto.AnyPublicKey
  LoadECDSAVerifier : crypto.ECDSAPublicKey → crypto.Hash → Except Error Verifier

/-! ## `pkg/root/trustroot.go` -/

namespace root

open protocommon prototrustroot

/-- The constant `TrustedRootMediaType01`. -/
def TrustedRootMediaType01 : String :=
  "application/vnd.dev.sigstore.trustedroot+json;version=0.1"

/-- The struct `CertificateAuthority`; a `*x509.Certificate` is an `Option`. -/
structure CertificateAuthority (Certificate : Type) where
  Root : Option Certificate
  Intermediates : Slice (Option Certificate)
  Leaf : Option Certificate
  deriving DecidableEq, Repr

/-- The struct `TrustedRoot`. -/
structure TrustedRoot (Certificate Verifier : Type) where
  trustedRoot : Option prototrustroot.TrustedRoot
  tlogVerifiers : Option (GoMap Verifier)
  rootCerts : Slice (Option Certificate)
  intermediateCerts : Slice (Option Certificate)
  tsaCertAuthorities : Slice (CertificateAuthority Certificate)
  deriving DecidableEq, Repr

variable {Certificate Verifier : Type}

/-- Method `GetTSACertAuthorities`. -/
def TrustedRoot.GetTSACertAuthorities (tr : TrustedRoot Certificate Verifier) :
    Slice (CertificateAuthority Certificate) :=
  tr.tsaCertAuthorities

/-- Case `PKIX_ECDSA_P256_SHA_256` of the switch in `ParseTlogVerifiers`: the verifier built
from the raw key bytes, or the error the function returns with. -/
def ParseTlogVerifiers.ecdsaVerifier (lib : Lib Certificate Verifier) (rawBytes : List Byte) :
    Except Error Verifier :=
  match lib.ParsePKIXPublicKey rawBytes with
  | .error err => .error err
  | .ok key =>
    match key with
    | .ecdsa ecKey => lib.LoadECDSAVerifier ecKey crypto.Hash.SHA256
    | _ => .error .tlogKeyNotECDSAP256

/-- The body of the loop of `ParseTlogVerifiers` for one log: the error it returns with, or
the key and the verifier it stores in the map. (The source stores the result of
`LoadECDSAVerifier` before it tests the error; the map is local and `nil` is returned then.) -/
def ParseTlogVerifiers.body (lib : Lib Certificate Verifier)
    (tlog : Option TransparencyLogInstance) : Except Error (String × Verifier) :=
  if TransparencyLogInstance.GetHashAlgorithm tlog ≠ HashAlgorithm.SHA2_256 then
    .error (.unsupportedTlogHashAlgorithm (TransparencyLogInstance.GetHashAlgorithm tlog))
  else if (TransparencyLogInstance.GetLogId tlog).isNone then
    .error .tlogMissingLogID
  else if (LogId.GetKeyId (TransparencyLogInstance.GetLogId tlog)).isNone then
    .error .tlogMissingKeyID
  else
    let encodedKeyID :=
      hex.EncodeToString (Slice.elems (LogId.GetKeyId (TransparencyLogInstance.GetLogId tlog)))
    if (TransparencyLogInstance.GetPublicKey tlog).isNone then
      .error .tlogMissingPublicKey
    else if (PublicKey.GetRawBytes (TransparencyLogInstance.GetPublicKey tlog)).isNone then
      .error .tlogMissingRawBytes
    else
      match PublicKey.GetKeyDetails (TransparencyLogInstance.GetPublicKey tlog) with
      | .PKIX_ECDSA_P256_SHA_256 =>
        match ParseTlogVerifiers.ecdsaVerifier lib
            (Slice.elems (PublicKey.GetRawBytes (TransparencyLogInstance.GetPublicKey tlog))) with
        | .error err => .error err
        | .ok v => .ok (encodedKeyID, v)
      | details => .error (.unsupportedTlogPublicKeyType details)

/-- The loop of `ParseTlogVerifiers` over the logs still to visit. -/
def ParseTlogVerifiers.loop (lib : Lib Certificate Verifier) :
    List (Option TransparencyLogInstance) → GoMap Verifier →
      Option (GoMap Verifier) × Option Error
  | [], tlogVerifiers => (some tlogVerifiers, none)
  | tlog :: rest, tlogVerifiers =>
    match ParseTlogVerifiers.body lib tlog with
    | .error err => (none, some err)
    | .ok (encodedKeyID, v) => ParseTlogVerifiers.loop lib rest (tlogVerifiers.set encodedKeyID v)

/-- Function `ParseTlogVerifiers`. -/
def ParseTlogVerifiers (lib : Lib Certificate Verifier)
    (trustedRoot : Option prototrustroot.TrustedRoot) :
    Option (GoMap Verifier) × Option Error :=
  ParseTlogVerifiers.loop lib (TrustedRoot.GetTlogs trustedRoot) GoMap.empty

/-- The loop of `ParseCertificateAuthority`: `i` is the index of the next certificate, the
triple is `(root, intermediates, leaf)` so far. The source reads `cert.RawBytes` without a nil
test: on a nil element the loop panics. -/
def ParseCertificateAuthority.loop (lib : Lib Certificate Verifier) (chainLen : Nat) :
    Nat → List (Option X509Certificate) →
      Option Certificate × Slice (Option Certificate) × Option Certificate →
      Outcome
        (Option Certificate × Slice (Option Certificate) × Option Certificate × Option Error)
  | _, [], (root, intermediates, leaf) => .returns (root, intermediates, leaf, none)
  | _, none :: _, _ => .panics
  | i, some cert :: rest, (root, intermediates, leaf) =>
    match lib.ParseCertificate (Slice.elems cert.RawBytes) with
    | .error err => .returns (none, none, none, some err)
    | .ok parsedCert =>
      if i = 0 then
        ParseCertificateAuthority.loop lib chainLen (i + 1) rest
          (root, intermediates, some parsedCert)
      else if i < chainLen - 1 then
        ParseCertificateAuthority.loop lib chainLen (i + 1) rest
          (root, Slice.append intermediates [some parsedCert], leaf)
      else
        ParseCertificateAuthority.loop lib chainLen (i + 1) rest
          (some parsedCert, intermediates, leaf)

/-- Function `ParseCertificateAuthority`: returns `(root, intermediates, leaf, err)`, or
panics on a nil chain element. -/
def ParseCertificateAuthority (lib : Lib Certificate Verifier)
    (certAuthority : Option prototrustroot.CertificateAuthority) :
    Outcome
      (Option Certificate × Slice (Option Certificate) × Option Certificate × Option Error) :=
  if certAuthority.isNone then
    .returns (none, none, none, some .caNil)
  else
    let certChain := CertificateAuthority.GetCertChain certAuthority
    if certChain.isNone then
      .returns (none, none, none, some .caMissingCertChain)
    else
      let chainLen := (X509CertificateChain.GetCertificates certChain).length
      if chainLen < 1 then
        .returns (none, none, none, some .caEmptyCertChain)
      else
        ParseCertificateAuthority.loop lib chainLen 0
          (X509CertificateChain.GetCertificates certChain) (none, some [], none)

/-- The loop of `ParseCertificateAuthorities`; the triple is `(roots, intermediates, leafs)`
so far. A panic of `ParseCertificateAuthority` unwinds the loop. -/
def ParseCertificateAuthorities.loop (lib : Lib Certificate Verifier) :
    List (Option prototrustroot.CertificateAuthority) →
      Slice (Option Certificate) × Slice (Option Certificate) × Slice (Option Certificate) →
      Outcome
        (Slice (Option Certificate) × Slice (Option Certificate) × Slice (Option Certificate) ×
          Option Error)
  | [], (roots, intermediates, leafs) => .returns (roots, intermediates, leafs, none)
  | ca :: rest, (roots, intermediates, leafs) =>
    match ParseCertificateAuthority lib ca with
    | .panics => .panics
    | .returns (_, _, _, some err) => .returns (none, none, none, some err)
    | .returns (r, i, l, none) =>
      ParseCertificateAuthorities.loop lib rest
        (Slice.append roots [r], Slice.append intermediates (Slice.elems i),
          Slice.append leafs [l])

/-- Function `ParseCertificateAuthorities`: returns `(roots, intermediates, leafs, err)`, or
panics on a nil chain element. -/
def ParseCertificateAuthorities (lib : Lib Certificate Verifier)
    (certAuthorities : List (Option prototrustroot.CertificateAuthority)) :
    Outcome
      (Slice (Option Certificate) × Slice (Option Certificate) × Slice (Option Certificate) ×
        Option Error) :=
  ParseCertificateAuthorities.loop lib certAuthorities (some [], some [], some [])

/-- The loop of `NewTrustedRootFromProtobuf` over the timestamp authorities. -/
def NewTrustedRootFromProtobuf.loop (lib : Lib Certificate Verifier) :
    List (Option prototrustroot.CertificateAuthority) → TrustedRoot Certificate Verifier →
      Outcome (Option (TrustedRoot Certificate Verifier) × Option Error)
  | [], parsedTrustedRoot => .returns (some parsedTrustedRoot, none)
  | tsaCA :: rest, parsedTrustedRoot =>
    match ParseCertificateAuthority lib tsaCA with
    | .panics => .panics
    | .returns (_, _, _, some err) => .returns (none, some err)
    | .returns (tsaRootCert, tsaIntermediateCerts, tsaLeafCert, none) =>
      let ca : CertificateAuthority Certificate :=
        { Root := tsaRootCert, Intermediates := tsaIntermediateCerts, Leaf := tsaLeafCert }
      NewTrustedRootFromProtobuf.loop lib rest
        { parsedTrustedRoot with
          tsaCertAuthorities := Slice.append parsedTrustedRoot.tsaCertAuthorities [ca] }

/-- Function `NewTrustedRootFromProtobuf`: returns `(parsedTrustedRoot, err)`, or panics on a
nil chain element. -/
def NewTrustedRootFromProtobuf (lib : Lib Certificate Verifier)
    (trustedRoot : Option prototrustroot.TrustedRoot) :
    Outcome (Option (TrustedRoot Certificate Verifier) × Option Error) :=
  if TrustedRoot.GetMediaType trustedRoot ≠ TrustedRootMediaType01 then
    .returns (none, some (.unsupportedMediaType (TrustedRoot.GetMediaType trustedRoot)))
  else
    match ParseTlogVerifiers lib trustedRoot with
    | (_, some err) => .returns (none, some err)
    | (tlogVerifiers, none) =>
      match ParseCertificateAuthorities lib (TrustedRoot.GetCertificateAuthorities trustedRoot) with
      | .panics => .panics
      | .returns (_, _, _, some err) => .returns (none, some err)
      | .returns (roots, intermediates, leafs, none) =>
        NewTrustedRootFromProtobuf.loop lib (TrustedRoot.GetTimestampAuthorities trustedRoot)
          { trustedRoot := trustedRoot
            tlogVerifiers := tlogVerifiers
            rootCerts := roots
            intermediateCerts := Slice.append intermediates (Slice.elems leafs)
            tsaCertAuthorities := none }

/-! ### Vocabulary of the statements -/

/-- The parse results of the elements of a chain; `none` for a nil element. -/
def parseAll (lib : Lib Certificate Verifier) (certs : List (Option X509Certificate)) :
    List (Option (Except Error Certificate)) :=
  certs.map (Option.map (fun cert => lib.ParseCertificate (Slice.elems cert.RawBytes)))

/-- The chain elements all parse, to `parsed` in order (so none of them is nil). -/
def parsesTo (lib : Lib Certificate Verifier) (certs : List (Option X509Certificate))
    (parsed : List Certificate) : Prop :=
  parseAll lib certs = parsed.map (fun p => some (Except.ok p))

/-- The tuple `ParseCertificateAuthority` returns for an entry (zero values if it panics). -/
def resultOf (lib : Lib Certificate Verifier)
    (ca : Option prototrustroot.CertificateAuthority) :
    Option Certificate × Slice (Option Certificate) × Option Certificate × Option Error :=
  match ParseCertificateAuthority lib ca with
  | .returns r => r
  | .panics => (none, none, none, none)

/-- The hex-encoded key ID of a log: the `encodedKeyID` of `ParseTlogVerifiers`. -/
def encodedKeyID (tlog : Option TransparencyLogInstance) : String :=
  hex.EncodeToString (Slice.elems (LogId.GetKeyId (TransparencyLogInstance.GetLogId tlog)))

/-- The raw key bytes of a log, as `ParseTlogVerifiers` hands them to the key parser. -/
def rawKeyBytes (tlog : Option TransparencyLogInstance) : List Byte :=
  Slice.elems (PublicKey.GetRawBytes (TransparencyLogInstance.GetPublicKey tlog))

/-- The root `ParseCertificateAuthority` returns for an entry. -/
def rootOf (lib : Lib Certificate Verifier)
    (ca : Option prototrustroot.CertificateAuthority) : Option Certificate :=
  (resultOf lib ca).1

/-- The intermediates `ParseCertificateAuthority` returns for an entry. -/
def intermediatesOf (lib : Lib Certificate Verifier)
    (ca : Option prototrustroot.CertificateAuthority) : List (Option Certificate) :=
  Slice.elems (resultOf lib ca).2.1

/-- The leaf `ParseCertificateAuthority` returns for an entry. -/
def leafOf (lib : Lib Certificate Verifier)
    (ca : Option prototrustroot.CertificateAuthority) : Option Certificate :=
  (resultOf lib ca).2.2.1

end root

/-! ## A small instance of the library boundary

Used to evaluate the definitions on concrete documents: a certificate is its non-empty DER
bytes, the first byte of a key selects its kind, a verifier is the key with its hash. -/

namespace Example

/-- Certificates parse to their bytes; the empty input is malformed. -/
def parseCertificate (der : List Byte) : Except Error (List Byte) :=
  if der = [] then .error (.library "x509: malformed certificate") else .ok der

/-- Keys: first byte 0 is ECDSA P-256, 1 is ECDSA P-384, 2 is RSA, anything else fails. -/
def parsePKIXPublicKey (der : List Byte) : Except Error crypto.AnyPublicKey :=
  match der with
  | [] => .error (.library "asn1: syntax error")
  | b :: rest =>
    if b.val = 0 then .ok (.ecdsa ⟨.P256, rest.length, 1⟩)
    else if b.val = 1 then .ok (.ecdsa ⟨.P384, rest.length, 1⟩)
    else if b.val = 2 then .ok (.rsa rest.length 65537)
    else .error (.library "x509: unknown public key algorithm")

/-- The library instance. -/
def lib : Lib (List Byte) (crypto.ECDSAPublicKey × crypto.Hash) where
  ParseCertificate := parseCertificate
  ParsePKIXPublicKey := parsePKIXPublicKey
  LoadECDSAVerifier := fun key hashFunc => .ok (key, hashFunc)

/-- A certificate message with the given DER bytes. -/
def cert (der : List Byte) : protocommon.X509Certificate := ⟨some der⟩

/-- A certificate authority with the given chain. -/
def ca (chain : List (List Byte)) : Option prototrustroot.CertificateAuthority :=
  some { Subject := none, Uri := "", CertChain := some ⟨chain.map (fun der => some (cert der))⟩,
         ValidFor := none }

/-- A certificate authority whose chain is given element by element, `none` for a nil one. -/
def caOf (chain : List (Option (List Byte))) : Option prototrustroot.CertificateAuthority :=
  some { Subject := none, Uri := "", CertChain := some ⟨chain.map (Option.map cert)⟩,
         ValidFor := none }

/-- A log with the given key ID and raw key bytes, SHA2-256 and ECDSA P-256 declared. -/
def tlog (keyId : GoBytes) (rawBytes : List Byte) : Option prototrustroot.TransparencyLogInstance :=
  some { BaseUrl := "", HashAlgorithm := .SHA2_256,
         PublicKey := some ⟨some rawBytes, .PKIX_ECDSA_P256_SHA_256, none⟩,
         LogId := some ⟨keyId⟩ }

/-- A document with the given media type and entries. -/
def doc (mediaType : String) (tlogs : List (Option prototrustroot.TransparencyLogInstance))
    (cas tsas : List (Option prototrustroot.CertificateAuthority)) :
    Option prototrustroot.TrustedRoot :=
  some { MediaType := mediaType, Tlogs := tlogs, CertificateAuthorities := cas, Ctlogs := [],
         TimestampAuthorities := tsas }

end Example

/-! ## Further vocabulary for `trustroot.go` -/

namespace root

open protocommon prototrustroot

variable {Certificate Verifier : Type}

/-- The `CertificateAuthority` struct `NewTrustedRootFromProtobuf` builds from the result of
`ParseCertificateAuthority` on a timestamp-authority entry. -/
def tsaOf (lib : Lib Certificate Verifier)
    (ca : Option prototrustroot.CertificateAuthority) : CertificateAuthority Certificate :=
  { Root := (resultOf lib ca).1
    Intermediates := (resultOf lib ca).2.1
    Leaf := (resultOf lib ca).2.2.1 }

/-- A log entry with the `ValidFor` of its public key cleared. -/
def clearValidForTlog : Option TransparencyLogInstance → Option TransparencyLogInstance
  | none => none
  | some t => some { t with PublicKey := t.PublicKey.map (fun k => { k with ValidFor := none }) }

/-- An authority entry with its `ValidFor` cleared. -/
def clearValidForCA :
    Option prototrustroot.CertificateAuthority → Option prototrustroot.CertificateAuthority
  | none => none
  | some c => some { c with ValidFor := none }

/-- A document with every `ValidFor` of its logs, certificate authorities and timestamp
authorities cleared: two documents differ in those fields only when this maps them to the
same document. -/
def clearValidFor : Option prototrustroot.TrustedRoot → Option prototrustroot.TrustedRoot
  | none => none
  | some d =>
    some { d with
      Tlogs := d.Tlogs.map clearValidForTlog
      CertificateAuthorities := d.CertificateAuthorities.map clearValidForCA
      Ctlogs := d.Ctlogs.map clearValidForTlog
      TimestampAuthorities := d.TimestampAuthorities.map clearValidForCA }

/-- The parsed content of a result of `NewTrustedRootFromProtobuf`: the verifier map, the root
certificates, the pooled intermediates and the timestamp-authority chains, with the error. -/
def parsedParts (r : Outcome (Option (TrustedRoot Certificate Verifier) × Option Error)) :
    Outcome (Option (Option (GoMap Verifier) × Slice (Option Certificate) ×
      Slice (Option Certificate) × Slice (CertificateAuthority Certificate)) × Option Error) :=
  match r with
  | .panics => .panics
  | .returns (t, err) =>
    .returns (t.map (fun t =>
      (t.tlogVerifiers, t.rootCerts, t.intermediateCerts, t.tsaCertAuthorities)), err)

end root

/-! ## Verification options (`protobuf-specs`, package `verification/v1`) -/

namespace protoverification

/-- The message `ArtifactVerificationOptions.TlogOptions`. -/
structure ArtifactVerificationOptions_TlogOptions where
  Threshold : Int
  PerformOnlineVerification : Bool
  Disable : Bool
  deriving DecidableEq, Repr

/-- The message `ArtifactVerificationOptions.CtlogOptions`. -/
structure ArtifactVerificationOptions_CtlogOptions where
  Threshold : Int
  DetachedSct : Bool
  Disable : Bool
  deriving DecidableEq, Repr

/-- The message `ArtifactVerificationOptions.TimestampAuthorityOptions`. -/
structure ArtifactVerificationOptions_TimestampAuthorityOptions where
  Threshold : Int
  Disable : Bool
  deriving DecidableEq, Repr

/-- The oneof `signers` of `ArtifactVerificationOptions`: certificate identities (issuer and
subject alternative name) or public keys. The code here only writes its nil value. -/
inductive Signers where
  | CertificateIdentities (identities : List (String × String))
  | PublicKeys (keys : List (List Byte))
  deriving DecidableEq, Repr

/-- The message `ArtifactVerificationOptions`; its message fields are pointers. -/
structure ArtifactVerificationOptions where
  Signers : Option Signers
  TlogOptions : Option ArtifactVerificationOptions_TlogOptions
  CtlogOptions : Option ArtifactVerificationOptions_CtlogOptions
  TsaOptions : Option ArtifactVerificationOptions_TimestampAuthorityOptions
  deriving DecidableEq, Repr

end protoverification

/-! ## `GetDefaultOptions` of `trustroot.go`, with the objects it allocates -/

namespace root

open protoverification

/-- An address of an object. -/
abbrev Addr := Nat

/-- An allocated object: an options message, whose message fields are addresses, or one of
its three option messages. -/
inductive Object where
  | options (Signers : Option Signers) (TlogOptions CtlogOptions TsaOptions : Option Addr)
  | tlogOptions (v : ArtifactVerificationOptions_TlogOptions)
  | ctlogOptions (v : ArtifactVerificationOptions_CtlogOptions)
  | tsaOptions (v : ArtifactVerificationOptions_TimestampAuthorityOptions)
  deriving DecidableEq, Repr

/-- The allocated objects; the address of an object is its position. -/
structure Heap where
  cells : List Object
  deriving DecidableEq, Repr

/-- Go `&T{…}`: a new object, at an address not in use. -/
def Heap.new (h : Heap) (o : Object) : Addr × Heap := (h.cells.length, ⟨h.cells ++ [o]⟩)

/-- Reading through a pointer. -/
def Heap.get (h : Heap) (a : Addr) : Option Object := h.cells[a]?

/-- Writing through a pointer. -/
def Heap.put (h : Heap) (a : Addr) (o : Object) : Heap := ⟨h.cells.set a o⟩

/-- Function `GetDefaultOptions`: the pointer it returns and the objects after the call. -/
def GetDefaultOptions (h : Heap) : Addr × Heap :=
  let (tlog, h1) := h.new (.tlogOptions
    { Threshold := 1, PerformOnlineVerification := false, Disable := false })
  let (ctlog, h2) := h1.new (.ctlogOptions
    { Threshold := 1, DetachedSct := false, Disable := false })
  let (tsa, h3) := h2.new (.tsaOptions { Threshold := 0, Disable := true })
  h3.new (.options none (some tlog) (some ctlog) (some tsa))

/-- The transparency-log options a pointer field denotes (`some none` for nil). -/
def Heap.tlogOptionsAt (h : Heap) :
    Option Addr → Option (Option ArtifactVerificationOptions_TlogOptions)
  | none => some none
  | some a =>
    match h.get a with
    | some (.tlogOptions v) => some (some v)
    | _ => none

/-- The CT-log options a pointer field denotes. -/
def Heap.ctlogOptionsAt (h : Heap) :
    Option Addr → Option (Option ArtifactVerificationOptions_CtlogOptions)
  | none => some none
  | some a =>
    match h.get a with
    | some (.ctlogOptions v) => some (some v)
    | _ => none

/-- The timestamp-authority options a pointer field denotes. -/
def Heap.tsaOptionsAt (h : Heap) :
    Option Addr → Option (Option ArtifactVerificationOptions_TimestampAuthorityOptions)
  | none => some none
  | some a =>
    match h.get a with
    | some (.tsaOptions v) => some (some v)
    | _ => none

/-- The options message a pointer denotes: what a caller reads through it. -/
def Heap.optionsAt (h : Heap) (a : Addr) : Option ArtifactVerificationOptions :=
  match h.get a with
  | some (.options signers tlog ctlog tsa) =>
    match h.tlogOptionsAt tlog, h.ctlogOptionsAt ctlog, h.tsaOptionsAt tsa with
    | some t, some c, some s =>
      some { Signers := signers, TlogOptions := t, CtlogOptions := c, TsaOptions := s }
    | _, _, _ => none
  | _ => none

end root

/-! ## `cmd/sigstore-verifier/main.go`

The packages `bundle`, `tuf` and `verifier`, `root.NewTrustedRootFromJSON` and `os.ReadFile`
are not part of the files at hand: what `main` calls of them are the fields of `Env`. A run
is the sequence of calls and prints `main` makes, in order, and how the process ends. -/

namespace cmd

open protoverification

/-- The values of the command-line flags after `flag.Parse`. -/
structure Flags where
  expectedOIDC : String
  expectedSAN : String
  requireTSA : Bool
  requireTlog : Bool
  minBundleVersion : String
  onlineTlog : Bool
  trustedrootJSONpath : String
  tufRootURL : String
  tufDirectory : String
  deriving DecidableEq, Repr

/-- The default values `init` declares for the flags. -/
def Flags.defaults : Flags :=
  { expectedOIDC := "", expectedSAN := "", requireTSA := false, requireTlog := true,
    minBundleVersion := "", onlineTlog := false,
    trustedrootJSONpath := "examples/trusted-root-public-good.json", tufRootURL := "",
    tufDirectory := "tufdata" }

/-- What `main` calls outside the files at hand. -/
structure Env (Bundle TrustedRoot SignedEntityVerifier : Type) where
  /-- Function `bundle.LoadJSONFromPath`. -/
  LoadJSONFromPath : String → Except Error Bundle
  /-- Method `MinVersion` of the bundle. -/
  MinVersion : Bundle → String → Bool
  /-- Function `verifier.GetDefaultOptions`. -/
  GetDefaultOptions : ArtifactVerificationOptions
  /-- Function `verifier.SetExpectedOIDC`: the options after the call. -/
  SetExpectedOIDC : ArtifactVerificationOptions → String → ArtifactVerificationOptions
  /-- Function `verifier.SetExpectedSAN`: the options after the call. -/
  SetExpectedSAN : ArtifactVerificationOptions → String → ArtifactVerificationOptions
  /-- Function `tuf.GetTrustedrootJSON`. -/
  GetTrustedrootJSON : String → String → Except Error GoBytes
  /-- Function `os.ReadFile`. -/
  ReadFile : String → Except Error GoBytes
  /-- Function `root.NewTrustedRootFromJSON`. -/
  NewTrustedRootFromJSON : GoBytes → Except Error TrustedRoot
  /-- Function `verifier.NewVerifier`. -/
  NewVerifier : TrustedRoot → ArtifactVerificationOptions → SignedEntityVerifier
  /-- Method `Verify` of the verifier: the error it returns, if any. -/
  Verify : SignedEntityVerifier → Bundle → Option Error

/-- What the program prints. -/
inductive Output where
  | usage
  | error (err : Error)
  | notMinVersion (minBundleVersion : String)
  | success
  deriving DecidableEq, Repr

/-- One call or print of a run. -/
inductive Event (Bundle TrustedRoot : Type) where
  | LoadJSONFromPath (path : String)
  | MinVersion (b : Bundle) (version : String)
  | GetDefaultOptions
  | SetExpectedOIDC (issuer : String)
  | SetExpectedSAN (san : String)
  | GetTrustedrootJSON (tufRootURL tufDirectory : String)
  | ReadFile (path : String)
  | NewTrustedRootFromJSON (json : GoBytes)
  | NewVerifier (tr : TrustedRoot) (opts : ArtifactVerificationOptions)
  | Verify (b : Bundle)
  | Print (out : Output)
  deriving DecidableEq, Repr

/-- How the process ends: `os.Exit(code)`, a return from `main` being `exit 0`, or a run-time
panic (a write through a nil pointer). -/
inductive Status where
  | exit (code : Nat)
  | panic
  deriving DecidableEq, Repr

/-- A run of the program. -/
structure Run (Bundle TrustedRoot : Type) where
  trace : List (Event Bundle TrustedRoot)
  status : Status
  deriving DecidableEq, Repr

/-- The step of `main` an event belongs to: 1 loading the bundle, 2 the minimum-version gate,
3 building the options, 4 obtaining the trust-root bytes, 5 parsing the trust root, 6 the
verifier; 0 for a print. -/
def Event.step {Bundle TrustedRoot : Type} : Event Bundle TrustedRoot → Nat
  | .LoadJSONFromPath _ => 1
  | .MinVersion _ _ => 2
  | .GetDefaultOptions => 3
  | .SetExpectedOIDC _ => 3
  | .SetExpectedSAN _ => 3
  | .GetTrustedrootJSON _ _ => 4
  | .ReadFile _ => 4
  | .NewTrustedRootFromJSON _ => 5
  | .NewVerifier _ _ => 6
  | .Verify _ => 6
  | .Print _ => 0

variable {Bundle TrustedRoot SignedEntityVerifier : Type}

/-- Go `flag.Arg(i)`: the i-th remaining argument, or the empty string. -/
def Arg (args : List String) (i : Nat) : String := args.getD i ""

/-- Lines 60 to 69 of `main`: the options handed to the verifier, or `none` when a field is
written through a nil `TsaOptions` or `TlogOptions`. -/
def main.opts (env : Env Bundle TrustedRoot SignedEntityVerifier) (flags : Flags) :
    Option ArtifactVerificationOptions :=
  let opts := env.GetDefaultOptions
  match opts.TsaOptions with
  | none => none
  | some tsa =>
    let opts := { opts with TsaOptions := some { tsa with Disable := !flags.requireTSA } }
    match opts.TlogOptions with
    | none => none
    | some tlog =>
      let opts := { opts with TlogOptions := some { tlog with Disable := !flags.requireTlog } }
      let opts := { opts with
        TlogOptions := some
          { Threshold := tlog.Threshold, PerformOnlineVerification := flags.onlineTlog,
            Disable := !flags.requireTlog } }
      let opts :=
        if flags.expectedOIDC ≠ "" then env.SetExpectedOIDC opts flags.expectedOIDC else opts
      let opts :=
        if flags.expectedSAN ≠ "" then env.SetExpectedSAN opts flags.expectedSAN else opts
      some opts

/-- The calls of lines 60 to 69, in order. -/
def main.optsEvents (flags : Flags) : List (Event Bundle TrustedRoot) :=
  [Event.GetDefaultOptions]
    ++ (if flags.expectedOIDC ≠ "" then [Event.SetExpectedOIDC flags.expectedOIDC] else [])
    ++ (if flags.expectedSAN ≠ "" then [Event.SetExpectedSAN flags.expectedSAN] else [])

/-- Lines 74 to 86 of `main`: the call made to obtain the trust-root bytes, if any, and its
result; with neither flag set `trustedrootJSON` keeps its zero value, the nil slice. -/
def main.trustedrootJSON (env : Env Bundle TrustedRoot SignedEntityVerifier) (flags : Flags) :
    List (Event Bundle TrustedRoot) × Except Error GoBytes :=
  if flags.tufRootURL ≠ "" then
    ([Event.GetTrustedrootJSON flags.tufRootURL flags.tufDirectory],
      env.GetTrustedrootJSON flags.tufRootURL flags.tufDirectory)
  else if flags.trustedrootJSONpath ≠ "" then
    ([Event.ReadFile flags.trustedrootJSONpath], env.ReadFile flags.trustedrootJSONpath)
  else
    ([], .ok none)

/-- The call of the minimum-version gate, made when the flag is not empty. -/
def main.gateEvents (flags : Flags) (b : Bundle) : List (Event Bundle TrustedRoot) :=
  if flags.minBundleVersion ≠ "" then [Event.MinVersion b flags.minBundleVersion] else []

/-- Function `main`. -/
def main (env : Env Bundle TrustedRoot SignedEntityVerifier) (flags : Flags)
    (args : List String) : Run Bundle TrustedRoot :=
  match env.LoadJSONFromPath (Arg args 0) with
  | .error err =>
    ⟨[Event.LoadJSONFromPath (Arg args 0), Event.Print (.error err)], .exit 1⟩
  | .ok b =>
    if flags.minBundleVersion ≠ "" ∧ env.MinVersion b flags.minBundleVersion = false then
      ⟨[Event.LoadJSONFromPath (Arg args 0), Event.MinVersion b flags.minBundleVersion,
          Event.Print (.notMinVersion flags.minBundleVersion)], .exit 1⟩
    else
      match main.opts env flags with
      | none =>
        ⟨Event.LoadJSONFromPath (Arg args 0) :: main.gateEvents flags b
          ++ [Event.GetDefaultOptions], .panic⟩
      | some opts =>
        match main.trustedrootJSON env flags with
        | (source, .error err) =>
          ⟨Event.LoadJSONFromPath (Arg args 0) :: main.gateEvents flags b
            ++ main.optsEvents flags ++ source ++ [Event.Print (.error err)], .exit 1⟩
        | (source, .ok trustedrootJSON) =>
          match env.NewTrustedRootFromJSON trustedrootJSON with
          | .error err =>
            ⟨Event.LoadJSONFromPath (Arg args 0) :: main.gateEvents flags b
              ++ main.optsEvents flags ++ source
              ++ [Event.NewTrustedRootFromJSON trustedrootJSON, Event.Print (.error err)],
              .exit 1⟩
          | .ok tr =>
            match env.Verify (env.NewVerifier tr opts) b with
            | some err =>
              ⟨Event.LoadJSONFromPath (Arg args 0) :: main.gateEvents flags b
                ++ main.optsEvents flags ++ source
                ++ [Event.NewTrustedRootFromJSON trustedrootJSON, Event.NewVerifier tr opts,
                    Event.Verify b, Event.Print (.error err)], .exit 1⟩
            | none =>
              ⟨Event.LoadJSONFromPath (Arg args 0) :: main.gateEvents flags b
                ++ main.optsEvents flags ++ source
                ++ [Event.NewTrustedRootFromJSON trustedrootJSON, Event.NewVerifier tr opts,
                    Event.Verify b, Event.Print .success], .exit 0⟩

/-- Function `init` after `flag.Parse`: with no argument it prints the usage and exits with
code 1 (`some` run); otherwise `main` runs (`none`). -/
def init (args : List String) : Option (Run Bundle TrustedRoot) :=
  if args.length = 0 then some ⟨[Event.Print .usage], .exit 1⟩ else none

/-- The program: `init`, then `main`. -/
def program (env : Env Bundle TrustedRoot SignedEntityVerifier) (flags : Flags)
    (args : List String) : Run Bundle TrustedRoot :=
  match init args with
  | some run => run
  | none => main env flags args

end cmd

namespace Example

open protoverification

/-- The policy `GetDefaultOptions` of `trustroot.go` builds. -/
def defaultOptions : ArtifactVerificationOptions :=
  { Signers := none
    TlogOptions := some { Threshold := 1, PerformOnlineVerification := false, Disable := false }
    CtlogOptions := some { Threshold := 1, DetachedSct := false, Disable := false }
    TsaOptions := some { Threshold := 0, Disable := true } }

/-- A small environment for `main`: a bundle is its path and has version 0.1, the file
`missing.json` does not exist, the trust root is the first byte of its JSON, and verification
fails on `tampered.json`. -/
def env : cmd.Env String Nat (Nat × ArtifactVerificationOptions) where
  LoadJSONFromPath := fun path =>
    if path = "missing.json" then .error (.library "open missing.json: no such file")
    else .ok path
  MinVersion := fun _ version => version == "0.1"
  GetDefaultOptions := defaultOptions
  SetExpectedOIDC := fun opts issuer =>
    { opts with Signers := some (.CertificateIdentities [(issuer, "")]) }
  SetExpectedSAN := fun opts san =>
    { opts with Signers := some (.CertificateIdentities [("", san)]) }
  GetTrustedrootJSON := fun url _ =>
    if url = "https://tuf.example" then .ok (some [7]) else .error (.library "tuf: no such host")
  ReadFile := fun path =>
    if path = "examples/trusted-root-public-good.json" then .ok (some [9])
    else .error (.library "open: no such file")
  NewTrustedRootFromJSON := fun json =>
    match json with
    | some (b :: _) => .ok b.val
    | _ => .error (.library "unexpected end of JSON input")
  NewVerifier := fun tr opts => (tr, opts)
  Verify := fun _ b =>
    if b = "tampered.json" then some (.library "verification failed") else none

end Example

/-! # Theorems -/

open protocommon prototrustroot root

variable {Certificate Verifier : Type}

/-! ## Slices -/

theorem Slice.append_some {α : Type} (xs ys : List α) :
    Slice.append (some xs) ys = some (xs ++ ys) := by
  cases ys <;> rfl

theorem Slice.elems_some {α : Type} (xs : List α) : Slice.elems (some xs) = xs := rfl

/-! ## `ParseCertificateAuthority` -/

/-- From index 1 on, over a non-empty rest whose certificates all parse, the loop puts the
last certificate into `root` and the ones before it, in order, behind `intermediates`. -/
theorem ParseCertificateAuthority_loop_tail (lib : Lib Certificate Verifier) (chainLen : Nat) :
    ∀ (certs : List (Option X509Certificate)) (parsed : List Certificate) (i : Nat)
      (r l : Option Certificate) (xs : List (Option Certificate)),
      parsesTo lib certs parsed → certs ≠ [] → 1 ≤ i →
      i + certs.length = chainLen →
      ParseCertificateAuthority.loop lib chainLen i certs (r, some xs, l)
        = Outcome.returns (parsed.getLast?, some (xs ++ parsed.dropLast.map some), l, none) := by
  intro certs
  induction certs with
  | nil => intro parsed i r l xs _ hne; exact absurd rfl hne
  | cons cert rest ih =>
    intro parsed i r l xs hp _ hi hlen
    cases parsed with
    | nil => simp [parsesTo, parseAll] at hp
    | cons p ps =>
      simp only [parsesTo, parseAll, List.map_cons, List.cons.injEq] at hp
      obtain ⟨hp0, hps⟩ := hp
      cases cert with
      | none => simp at hp0
      | some c =>
        simp only [Option.map_some', Option.some.injEq] at hp0
        have hi0 : i ≠ 0 := by omega
        cases rest with
        | nil =>
          cases ps with
          | nil =>
            have hlt : ¬ i < chainLen - 1 := by simp at hlen; omega
            simp [ParseCertificateAuthority.loop, hp0, hi0, hlt]
          | cons q qs => simp at hps
        | cons c2 rest2 =>
          have hlt : i < chainLen - 1 := by simp at hlen; omega
          have hrec := ih ps (i + 1) r l (xs ++ [some p]) hps (by simp) (by omega)
            (by simp at hlen ⊢; omega)
          have hps_ne : ps ≠ [] := by
            intro h; subst h; simp at hps
          rw [ParseCertificateAuthority.loop]
          simp only [hp0, hi0, hlt, if_true, if_false, Slice.append_some]
          rw [hrec]
          cases ps with
          | nil => exact absurd rfl hps_ne
          | cons q qs => simp

/-- A chain of one certificate that parses: the only iteration has `i = 0`, so the certificate
goes to `leaf` and `root` keeps its zero value. -/
theorem ParseCertificateAuthority_single (lib : Lib Certificate Verifier)
    (ca : prototrustroot.CertificateAuthority) (chain : X509CertificateChain)
    (cert : X509Certificate) (p : Certificate)
    (hchain : ca.CertChain = some chain) (hone : chain.Certificates = [some cert])
    (hparse : lib.ParseCertificate (Slice.elems cert.RawBytes) = Except.ok p) :
    ParseCertificateAuthority lib (some ca)
      = Outcome.returns (none, some [], some p, none) := by
  simp [ParseCertificateAuthority, CertificateAuthority.GetCertChain, hchain,
    X509CertificateChain.GetCertificates, hone, ParseCertificateAuthority.loop, hparse]

/-- A chain of two or more certificates that all parse. -/
theorem ParseCertificateAuthority_chain (lib : Lib Certificate Verifier)
    (ca : prototrustroot.CertificateAuthority) (chain : X509CertificateChain)
    (parsed : List Certificate)
    (hchain : ca.CertChain = some chain) (hlen : 2 ≤ chain.Certificates.length)
    (hparse : parsesTo lib chain.Certificates parsed) :
    ParseCertificateAuthority lib (some ca)
      = Outcome.returns
          (parsed.getLast?, some (parsed.tail.dropLast.map some), parsed.head?, none) := by
  obtain ⟨certs⟩ := chain
  simp only at hlen hparse
  cases certs with
  | nil => simp at hlen
  | cons c0 rest =>
    cases parsed with
    | nil => simp [parsesTo, parseAll] at hparse
    | cons p0 ps =>
      simp only [parsesTo, parseAll, List.map_cons, List.cons.injEq] at hparse
      obtain ⟨hp0, hps⟩ := hparse
      cases c0 with
      | none => simp at hp0
      | some c =>
        simp only [Option.map_some', Option.some.injEq] at hp0
        have hrest : rest ≠ [] := by
          intro h; subst h; simp at hlen
        have hps_ne : ps ≠ [] := by
          intro h; subst h
          cases rest with
          | nil => exact hrest rfl
          | cons a b => simp at hps
        have hrec := ParseCertificateAuthority_loop_tail lib (some c :: rest).length rest ps 1
          none (some p0) [] hps hrest (le_refl 1) (by simp; omega)
        simp only [ParseCertificateAuthority, CertificateAuthority.GetCertChain, hchain,
          X509CertificateChain.GetCertificates, Option.isNone_some, Bool.false_eq_true,
          if_false]
        rw [if_neg (by simp), ParseCertificateAuthority.loop]
        simp only [hp0, if_true]
        rw [hrec]
        cases ps with
        | nil => exact absurd rfl hps_ne
        | cons q qs => simp

/-! ## Claims C1 to C3 -/

/-- C1: a document whose media type is not exactly `TrustedRootMediaType01` (another version,
the empty string, a nil document) is rejected by `NewTrustedRootFromProtobuf` with the
unsupported-media-type error and no trusted root, whatever its logs, certificate authorities
and timestamp authorities contain. -/
theorem C1_unsupported_media_type (lib : Lib Certificate Verifier)
    (trustedRoot : Option prototrustroot.TrustedRoot)
    (h : TrustedRoot.GetMediaType trustedRoot ≠ TrustedRootMediaType01) :
    NewTrustedRootFromProtobuf lib trustedRoot
      = Outcome.returns
          (none, some (Error.unsupportedMediaType (TrustedRoot.GetMediaType trustedRoot))) := by
  simp [NewTrustedRootFromProtobuf, h]

/-- C1 at a document of version 0.2 whose entries are all valid. -/
theorem C1_unsupported_media_type_witness :
    TrustedRoot.GetMediaType
        (Example.doc "application/vnd.dev.sigstore.trustedroot+json;version=0.2"
          [Example.tlog (some [1, 2]) [0]] [Example.ca [[1], [2]]] [Example.ca [[3], [4]]])
      ≠ TrustedRootMediaType01
    ∧ NewTrustedRootFromProtobuf Example.lib
        (Example.doc "application/vnd.dev.sigstore.trustedroot+json;version=0.2"
          [Example.tlog (some [1, 2]) [0]] [Example.ca [[1], [2]]] [Example.ca [[3], [4]]])
      = Outcome.returns (none, some (Error.unsupportedMediaType
          "application/vnd.dev.sigstore.trustedroot+json;version=0.2")) :=
  ⟨by decide, C1_unsupported_media_type Example.lib _ (by decide)⟩

/-- C2 (what the code does): for a certificate-authority entry whose chain holds exactly one
certificate, and that certificate parses, `ParseCertificateAuthority` succeeds with the parsed
certificate as leaf, an empty intermediates list, and a nil root: root and leaf differ. -/
theorem C2_single_certificate_root_is_nil (lib : Lib Certificate Verifier)
    (ca : prototrustroot.CertificateAuthority) (chain : X509CertificateChain)
    (cert : X509Certificate) (p : Certificate)
    (hchain : ca.CertChain = some chain) (hone : chain.Certificates = [some cert])
    (hparse : lib.ParseCertificate (Slice.elems cert.RawBytes) = Except.ok p) :
    ParseCertificateAuthority lib (some ca) = Outcome.returns (none, some [], some p, none)
    ∧ rootOf lib (some ca) = none
    ∧ leafOf lib (some ca) = some p
    ∧ rootOf lib (some ca) ≠ leafOf lib (some ca) := by
  have h := ParseCertificateAuthority_single lib ca chain cert p hchain hone hparse
  simp [rootOf, leafOf, resultOf, h]

/-- C2 at the chain of the one certificate with DER bytes `[1]`. -/
theorem C2_single_certificate_root_is_nil_witness :
    ParseCertificateAuthority Example.lib (Example.ca [[1]])
      = Outcome.returns (none, some [], some [1], none)
    ∧ rootOf Example.lib (Example.ca [[1]]) = none
    ∧ leafOf Example.lib (Example.ca [[1]]) = some [1]
    ∧ rootOf Example.lib (Example.ca [[1]]) ≠ leafOf Example.lib (Example.ca [[1]]) :=
  C2_single_certificate_root_is_nil Example.lib
    { Subject := none, Uri := "", CertChain := some ⟨[some (Example.cert [1])]⟩,
      ValidFor := none }
    ⟨[some (Example.cert [1])]⟩ (Example.cert [1]) [1] rfl rfl rfl

/-- C3: for a certificate-authority entry whose chain has `n ≥ 2` certificates that all parse
(to `parsed`), `ParseCertificateAuthority` succeeds with leaf `parsed[0]`, root
`parsed[n-1]` and intermediates `parsed[1], …, parsed[n-2]` in declared order, `n - 2` of
them. -/
theorem C3_chain_leaf_intermediates_root (lib : Lib Certificate Verifier)
    (ca : prototrustroot.CertificateAuthority) (chain : X509CertificateChain)
    (parsed : List Certificate)
    (hchain : ca.CertChain = some chain) (hlen : 2 ≤ chain.Certificates.length)
    (hparse : parsesTo lib chain.Certificates parsed) :
    ParseCertificateAuthority lib (some ca)
      = Outcome.returns
          (parsed[chain.Certificates.length - 1]?,
            some (((parsed.drop 1).take (chain.Certificates.length - 2)).map some),
            parsed[0]?, none)
    ∧ (parsed[chain.Certificates.length - 1]?).isSome
    ∧ (parsed[0]?).isSome
    ∧ ((parsed.drop 1).take (chain.Certificates.length - 2)).length
        = chain.Certificates.length - 2 := by
  have hl : parsed.length = chain.Certificates.length := by
    have := congrArg List.length hparse
    simpa [parseAll] using this.symm
  have h := ParseCertificateAuthority_chain lib ca chain parsed hchain hlen hparse
  refine ⟨?_, ?_, ?_, ?_⟩
  · rw [h, List.getLast?_eq_getElem?, List.head?_eq_getElem?, hl, List.dropLast_eq_take,
      List.length_tail, hl, ← List.drop_one]
    rfl
  · rw [Option.isSome_iff_exists]
    exact ⟨_, List.getElem?_eq_getElem (by omega)⟩
  · rw [Option.isSome_iff_exists]
    exact ⟨_, List.getElem?_eq_getElem (by omega)⟩
  · simp [hl]; omega

/-- C3 at a chain of four certificates. -/
theorem C3_chain_leaf_intermediates_root_witness :
    ParseCertificateAuthority Example.lib (Example.ca [[1], [2], [3], [4]])
      = Outcome.returns (some [4], some [some [2], some [3]], some [1], none) :=
  (C3_chain_leaf_intermediates_root Example.lib
    { Subject := none, Uri := "",
      CertChain := some ⟨[[1], [2], [3], [4]].map (fun der => some (Example.cert der))⟩,
      ValidFor := none }
    ⟨[[1], [2], [3], [4]].map (fun der => some (Example.cert der))⟩ [[1], [2], [3], [4]]
    rfl (by decide) rfl).1

/-! ## Failure is handed on -/

/-- A certificate of the rest that does not parse makes the loop return the error tuple,
unless a nil element is reached first, where it panics. -/
theorem ParseCertificateAuthority_loop_bad (lib : Lib Certificate Verifier) (chainLen : Nat) :
    ∀ (certs : List (Option X509Certificate)),
      (∃ cert, some cert ∈ certs
        ∧ ∃ e, lib.ParseCertificate (Slice.elems cert.RawBytes) = Except.error e) →
      ∀ (i : Nat) (st : Option Certificate × Slice (Option Certificate) × Option Certificate),
        ParseCertificateAuthority.loop lib chainLen i certs st = Outcome.panics
        ∨ ∃ e, ParseCertificateAuthority.loop lib chainLen i certs st
          = Outcome.returns (none, none, none, some e) := by
  intro certs
  induction certs with
  | nil => rintro ⟨cert, hmem, _⟩; simp at hmem
  | cons c rest ih =>
    rintro ⟨cert, hmem, e, he⟩ i ⟨r, xs, l⟩
    cases c with
    | none => exact Or.inl rfl
    | some c =>
      rw [ParseCertificateAuthority.loop]
      cases hc : lib.ParseCertificate (Slice.elems c.RawBytes) with
      | error e0 => exact Or.inr ⟨e0, rfl⟩
      | ok p =>
        have hrest : ∃ cert, some cert ∈ rest ∧ ∃ e,
            lib.ParseCertificate (Slice.elems cert.RawBytes) = Except.error e := by
          rcases List.mem_cons.mp hmem with h | h
          · cases h; rw [hc] at he; cases he
          · exact ⟨cert, h, e, he⟩
        simp only []
        split
        · exact ih hrest _ _
        · split
          · exact ih hrest _ _
          · exact ih hrest _ _

/-- Over a rest without nil element the loop returns. -/
theorem ParseCertificateAuthority_loop_returns (lib : Lib Certificate Verifier)
    (chainLen : Nat) :
    ∀ (certs : List (Option X509Certificate)), none ∉ certs →
      ∀ (i : Nat) (st : Option Certificate × Slice (Option Certificate) × Option Certificate),
        ∃ r, ParseCertificateAuthority.loop lib chainLen i certs st = Outcome.returns r := by
  intro certs
  induction certs with
  | nil => rintro _ i ⟨r, xs, l⟩; exact ⟨_, rfl⟩
  | cons c rest ih =>
    rintro hnil i ⟨r, xs, l⟩
    have hrest : none ∉ rest := fun h => hnil (List.mem_cons_of_mem _ h)
    cases c with
    | none => exact absurd (List.mem_cons_self _ _) hnil
    | some c =>
      rw [ParseCertificateAuthority.loop]
      cases hc : lib.ParseCertificate (Slice.elems c.RawBytes) with
      | error e0 => exact ⟨_, rfl⟩
      | ok p =>
        simp only []
        split
        · exact ih hrest _ _
        · split
          · exact ih hrest _ _
          · exact ih hrest _ _

/-- An entry that is nil, has no chain, or has an empty chain is refused. -/
theorem ParseCertificateAuthority_of_empty (lib : Lib Certificate Verifier)
    (ca : Option prototrustroot.CertificateAuthority)
    (h : X509CertificateChain.GetCertificates (CertificateAuthority.GetCertChain ca) = []) :
    ∃ e, ParseCertificateAuthority lib ca = Outcome.returns (none, none, none, some e) := by
  unfold ParseCertificateAuthority
  split
  · exact ⟨_, rfl⟩
  · simp only []
    split
    · exact ⟨_, rfl⟩
    · rw [if_pos (by simp [h])]
      exact ⟨_, rfl⟩

/-- An entry with a certificate that does not parse is refused, unless a nil element is
reached first, where the call panics. -/
theorem ParseCertificateAuthority_of_bad (lib : Lib Certificate Verifier)
    (ca : Option prototrustroot.CertificateAuthority)
    (h : ∃ cert, some cert
        ∈ X509CertificateChain.GetCertificates (CertificateAuthority.GetCertChain ca)
      ∧ ∃ e, lib.ParseCertificate (Slice.elems cert.RawBytes) = Except.error e) :
    ParseCertificateAuthority lib ca = Outcome.panics
    ∨ ∃ e, ParseCertificateAuthority lib ca = Outcome.returns (none, none, none, some e) := by
  unfold ParseCertificateAuthority
  split
  · exact Or.inr ⟨_, rfl⟩
  · simp only []
    split
    · exact Or.inr ⟨_, rfl⟩
    · split
      · exact Or.inr ⟨_, rfl⟩
      · exact ParseCertificateAuthority_loop_bad lib _ _ h _ _

/-- An entry whose chain has no nil element makes `ParseCertificateAuthority` return. -/
theorem ParseCertificateAuthority_returns (lib : Lib Certificate Verifier)
    (ca : Option prototrustroot.CertificateAuthority)
    (h : none ∉ X509CertificateChain.GetCertificates (CertificateAuthority.GetCertChain ca)) :
    ∃ r, ParseCertificateAuthority lib ca = Outcome.returns r := by
  unfold ParseCertificateAuthority
  split
  · exact ⟨_, rfl⟩
  · simp only []
    split
    · exact ⟨_, rfl⟩
    · split
      · exact ⟨_, rfl⟩
      · exact ParseCertificateAuthority_loop_returns lib _ _ h _ _

/-- The loop of `ParseCertificateAuthorities` returns the error tuple, or panics, as soon as
`ParseCertificateAuthority` does on one entry. -/
theorem ParseCertificateAuthorities_loop_err (lib : Lib Certificate Verifier) :
    ∀ (cas : List (Option prototrustroot.CertificateAuthority)),
      (∃ ca ∈ cas, ParseCertificateAuthority lib ca = Outcome.panics
        ∨ ∃ e, ParseCertificateAuthority lib ca = Outcome.returns (none, none, none, some e)) →
      ∀ (st : Slice (Option Certificate) × Slice (Option Certificate) ×
          Slice (Option Certificate)),
        ParseCertificateAuthorities.loop lib cas st = Outcome.panics
        ∨ ∃ e, ParseCertificateAuthorities.loop lib cas st
          = Outcome.returns (none, none, none, some e) := by
  intro cas
  induction cas with
  | nil => rintro ⟨ca, hmem, _⟩; simp at hmem
  | cons c rest ih =>
    rintro ⟨ca, hmem, he⟩ ⟨roots, ints, leafs⟩
    rw [ParseCertificateAuthorities.loop]
    rcases hc : ParseCertificateAuthority lib c with ⟨r, i, l, _ | e0⟩ | _
    · have hrest : ∃ ca ∈ rest, ParseCertificateAuthority lib ca = Outcome.panics
          ∨ ∃ e, ParseCertificateAuthority lib ca
            = Outcome.returns (none, none, none, some e) := by
        rcases List.mem_cons.mp hmem with h | h
        · subst h
          rw [hc] at he
          rcases he with he | ⟨e, he⟩
          · cases he
          · simp at he
        · exact ⟨ca, h, he⟩
      exact ih hrest _
    · exact Or.inr ⟨e0, rfl⟩
    · exact Or.inl rfl

/-- The loop of `ParseCertificateAuthorities` returns three lists and no error, or no list
and an error, or panics. -/
theorem ParseCertificateAuthorities_loop_cases (lib : Lib Certificate Verifier) :
    ∀ (cas : List (Option prototrustroot.CertificateAuthority))
      (R I L : List (Option Certificate)),
      (∃ R2 I2 L2, ParseCertificateAuthorities.loop lib cas (some R, some I, some L)
          = Outcome.returns (some R2, some I2, some L2, none))
      ∨ (∃ e, ParseCertificateAuthorities.loop lib cas (some R, some I, some L)
          = Outcome.returns (none, none, none, some e))
      ∨ ParseCertificateAuthorities.loop lib cas (some R, some I, some L)
          = Outcome.panics := by
  intro cas
  induction cas with
  | nil => intro R I L; exact Or.inl ⟨R, I, L, rfl⟩
  | cons c rest ih =>
    intro R I L
    rw [ParseCertificateAuthorities.loop]
    rcases hc : ParseCertificateAuthority lib c with ⟨r, i, l, _ | e0⟩ | _
    · simp only [Slice.append_some]
      exact ih _ _ _
    · exact Or.inr (Or.inl ⟨e0, rfl⟩)
    · exact Or.inr (Or.inr rfl)

/-- Over entries whose chains have no nil element the loop of `ParseCertificateAuthorities`
returns. -/
theorem ParseCertificateAuthorities_loop_returns (lib : Lib Certificate Verifier) :
    ∀ (cas : List (Option prototrustroot.CertificateAuthority)),
      (∀ ca ∈ cas,
        none ∉ X509CertificateChain.GetCertificates (CertificateAuthority.GetCertChain ca)) →
      ∀ (st : Slice (Option Certificate) × Slice (Option Certificate) ×
          Slice (Option Certificate)),
        ∃ r, ParseCertificateAuthorities.loop lib cas st = Outcome.returns r := by
  intro cas
  induction cas with
  | nil => rintro _ ⟨roots, ints, leafs⟩; exact ⟨_, rfl⟩
  | cons c rest ih =>
    rintro h ⟨roots, ints, leafs⟩
    obtain ⟨r, hr⟩ := ParseCertificateAuthority_returns lib c (h c (List.mem_cons_self _ _))
    obtain ⟨r1, r2, r3, _ | e0⟩ := r
    · rw [ParseCertificateAuthorities.loop, hr]
      exact ih (fun ca hca => h ca (List.mem_cons_of_mem _ hca)) _
    · rw [ParseCertificateAuthorities.loop, hr]
      exact ⟨_, rfl⟩

/-- The loop over the timestamp authorities returns no trusted root, or panics, as soon as
`ParseCertificateAuthority` returns an error or panics on one entry. -/
theorem NewTrustedRootFromProtobuf_loop_err (lib : Lib Certificate Verifier) :
    ∀ (tsas : List (Option prototrustroot.CertificateAuthority)),
      (∃ ca ∈ tsas, ParseCertificateAuthority lib ca = Outcome.panics
        ∨ ∃ e, ParseCertificateAuthority lib ca = Outcome.returns (none, none, none, some e)) →
      ∀ (st : root.TrustedRoot Certificate Verifier),
        NewTrustedRootFromProtobuf.loop lib tsas st = Outcome.panics
        ∨ ∃ e, NewTrustedRootFromProtobuf.loop lib tsas st
          = Outcome.returns (none, some e) := by
  intro tsas
  induction tsas with
  | nil => rintro ⟨ca, hmem, _⟩; simp at hmem
  | cons c rest ih =>
    rintro ⟨ca, hmem, he⟩ st
    rw [NewTrustedRootFromProtobuf.loop]
    rcases hc : ParseCertificateAuthority lib c with ⟨r, i, l, _ | e0⟩ | _
    · have hrest : ∃ ca ∈ rest, ParseCertificateAuthority lib ca = Outcome.panics
          ∨ ∃ e, ParseCertificateAuthority lib ca
            = Outcome.returns (none, none, none, some e) := by
        rcases List.mem_cons.mp hmem with h | h
        · subst h
          rw [hc] at he
          rcases he with he | ⟨e, he⟩
          · cases he
          · simp at he
        · exact ⟨ca, h, he⟩
      exact ih hrest _
    · exact Or.inr ⟨e0, rfl⟩
    · exact Or.inl rfl

/-- The loop over the timestamp authorities returns a trusted root and no error, or no
trusted root and an error, or panics. -/
theorem NewTrustedRootFromProtobuf_loop_cases (lib : Lib Certificate Verifier) :
    ∀ (tsas : List (Option prototrustroot.CertificateAuthority))
      (st : root.TrustedRoot Certificate Verifier),
      (∃ t, NewTrustedRootFromProtobuf.loop lib tsas st = Outcome.returns (some t, none))
      ∨ (∃ e, NewTrustedRootFromProtobuf.loop lib tsas st = Outcome.returns (none, some e))
      ∨ NewTrustedRootFromProtobuf.loop lib tsas st = Outcome.panics := by
  intro tsas
  induction tsas with
  | nil => intro st; exact Or.inl ⟨st, rfl⟩
  | cons c rest ih =>
    intro st
    rw [NewTrustedRootFromProtobuf.loop]
    rcases hc : ParseCertificateAuthority lib c with ⟨r, i, l, _ | e0⟩ | _
    · exact ih _
    · exact Or.inr (Or.inl ⟨e0, rfl⟩)
    · exact Or.inr (Or.inr rfl)

/-- Over entries whose chains have no nil element the loop over the timestamp authorities
returns. -/
theorem NewTrustedRootFromProtobuf_loop_returns (lib : Lib Certificate Verifier) :
    ∀ (tsas : List (Option prototrustroot.CertificateAuthority)),
      (∀ ca ∈ tsas,
        none ∉ X509CertificateChain.GetCertificates (CertificateAuthority.GetCertChain ca)) →
      ∀ (st : root.TrustedRoot Certificate Verifier),
        ∃ r, NewTrustedRootFromProtobuf.loop lib tsas st = Outcome.returns r := by
  intro tsas
  induction tsas with
  | nil => intro _ st; exact ⟨_, rfl⟩
  | cons c rest ih =>
    intro h st
    obtain ⟨r, hr⟩ := ParseCertificateAuthority_returns lib c (h c (List.mem_cons_self _ _))
    obtain ⟨r1, r2, r3, _ | e0⟩ := r
    · rw [NewTrustedRootFromProtobuf.loop, hr]
      exact ih (fun ca hca => h ca (List.mem_cons_of_mem _ hca)) _
    · rw [NewTrustedRootFromProtobuf.loop, hr]
      exact ⟨_, rfl⟩

/-- The loop of `ParseTlogVerifiers` returns a map and no error, or no map and an error. -/
theorem ParseTlogVerifiers_loop_cases (lib : Lib Certificate Verifier) :
    ∀ (tlogs : List (Option TransparencyLogInstance)) (m : GoMap Verifier),
      (∃ m2, ParseTlogVerifiers.loop lib tlogs m = (some m2, none))
      ∨ (∃ e, ParseTlogVerifiers.loop lib tlogs m = (none, some e)) := by
  intro tlogs
  induction tlogs with
  | nil => intro m; exact Or.inl ⟨m, rfl⟩
  | cons t rest ih =>
    intro m
    rw [ParseTlogVerifiers.loop]
    cases hb : ParseTlogVerifiers.body lib t with
    | error e => exact Or.inr ⟨e, rfl⟩
    | ok kv => exact ih _

/-- The loop of `ParseTlogVerifiers` returns no map as soon as the body fails on one log. -/
theorem ParseTlogVerifiers_loop_err (lib : Lib Certificate Verifier) :
    ∀ (tlogs : List (Option TransparencyLogInstance)),
      (∃ t ∈ tlogs, ∃ e, ParseTlogVerifiers.body lib t = Except.error e) →
      ∀ (m : GoMap Verifier), ∃ e, ParseTlogVerifiers.loop lib tlogs m = (none, some e) := by
  intro tlogs
  induction tlogs with
  | nil => rintro ⟨t, hmem, _⟩; simp at hmem
  | cons t0 rest ih =>
    rintro ⟨t, hmem, e, he⟩ m
    rw [ParseTlogVerifiers.loop]
    cases hb : ParseTlogVerifiers.body lib t0 with
    | error e0 => exact ⟨e0, rfl⟩
    | ok kv =>
      have hrest : ∃ t ∈ rest, ∃ e, ParseTlogVerifiers.body lib t = Except.error e := by
        rcases List.mem_cons.mp hmem with h | h
        · subst h; rw [hb] at he; cases he
        · exact ⟨t, h, e, he⟩
      exact ih hrest _

/-- The constructor returns a trusted root and no error, or no trusted root and an error, or
panics. -/
theorem NewTrustedRootFromProtobuf_cases (lib : Lib Certificate Verifier)
    (trustedRoot : Option prototrustroot.TrustedRoot) :
    (∃ t, NewTrustedRootFromProtobuf lib trustedRoot = Outcome.returns (some t, none))
    ∨ (∃ e, NewTrustedRootFromProtobuf lib trustedRoot = Outcome.returns (none, some e))
    ∨ NewTrustedRootFromProtobuf lib trustedRoot = Outcome.panics := by
  unfold NewTrustedRootFromProtobuf
  split
  · exact Or.inr (Or.inl ⟨_, rfl⟩)
  · rcases ht : ParseTlogVerifiers lib trustedRoot with ⟨m, _ | e⟩
    · rcases hc : ParseCertificateAuthorities lib
          (TrustedRoot.GetCertificateAuthorities trustedRoot) with ⟨r, i, l, _ | e⟩ | _
      · exact NewTrustedRootFromProtobuf_loop_cases lib _ _
      · exact Or.inr (Or.inl ⟨e, rfl⟩)
      · exact Or.inr (Or.inr rfl)
    · exact Or.inr (Or.inl ⟨e, rfl⟩)

/-- The constructor fails when `ParseTlogVerifiers` fails. -/
theorem NewTrustedRootFromProtobuf_of_tlogs_err (lib : Lib Certificate Verifier)
    (trustedRoot : Option prototrustroot.TrustedRoot)
    (h : ∃ e, ParseTlogVerifiers lib trustedRoot = (none, some e)) :
    ∃ e, NewTrustedRootFromProtobuf lib trustedRoot = Outcome.returns (none, some e) := by
  obtain ⟨e, he⟩ := h
  unfold NewTrustedRootFromProtobuf
  split
  · exact ⟨_, rfl⟩
  · rw [he]; exact ⟨e, rfl⟩

/-- The constructor returns no trusted root, or panics, when `ParseCertificateAuthorities`
returns an error or panics. -/
theorem NewTrustedRootFromProtobuf_of_cas_err (lib : Lib Certificate Verifier)
    (trustedRoot : Option prototrustroot.TrustedRoot)
    (h : ParseCertificateAuthorities lib
        (TrustedRoot.GetCertificateAuthorities trustedRoot) = Outcome.panics
      ∨ ∃ e, ParseCertificateAuthorities lib
        (TrustedRoot.GetCertificateAuthorities trustedRoot)
          = Outcome.returns (none, none, none, some e)) :
    NewTrustedRootFromProtobuf lib trustedRoot = Outcome.panics
    ∨ ∃ e, NewTrustedRootFromProtobuf lib trustedRoot = Outcome.returns (none, some e) := by
  unfold NewTrustedRootFromProtobuf
  split
  · exact Or.inr ⟨_, rfl⟩
  · rcases ht : ParseTlogVerifiers lib trustedRoot with ⟨m, _ | e2⟩
    · rcases h with he | ⟨e, he⟩
      · rw [he]; exact Or.inl rfl
      · rw [he]; exact Or.inr ⟨e, rfl⟩
    · exact Or.inr ⟨e2, rfl⟩

/-- The constructor returns no trusted root, or panics, when `ParseCertificateAuthority`
returns an error or panics on a timestamp-authority entry. -/
theorem NewTrustedRootFromProtobuf_of_tsa_err (lib : Lib Certificate Verifier)
    (trustedRoot : Option prototrustroot.TrustedRoot)
    (h : ∃ ca ∈ TrustedRoot.GetTimestampAuthorities trustedRoot,
      ParseCertificateAuthority lib ca = Outcome.panics
      ∨ ∃ e, ParseCertificateAuthority lib ca = Outcome.returns (none, none, none, some e)) :
    NewTrustedRootFromProtobuf lib trustedRoot = Outcome.panics
    ∨ ∃ e, NewTrustedRootFromProtobuf lib trustedRoot = Outcome.returns (none, some e) := by
  unfold NewTrustedRootFromProtobuf
  split
  · exact Or.inr ⟨_, rfl⟩
  · rcases ht : ParseTlogVerifiers lib trustedRoot with ⟨m, _ | e2⟩
    · rcases hc : ParseCertificateAuthorities lib
          (TrustedRoot.GetCertificateAuthorities trustedRoot) with ⟨r, i, l, _ | e3⟩ | _
      · exact NewTrustedRootFromProtobuf_loop_err lib _ h _
      · exact Or.inr ⟨e3, rfl⟩
      · exact Or.inl rfl
    · exact Or.inr ⟨e2, rfl⟩

/-- The constructor returns no trusted root, or panics, when `ParseCertificateAuthority`
returns an error or panics on an entry of either authority list. -/
theorem NewTrustedRootFromProtobuf_of_authority_err (lib : Lib Certificate Verifier)
    (trustedRoot : Option prototrustroot.TrustedRoot)
    (ca : Option prototrustroot.CertificateAuthority)
    (hmem : ca ∈ TrustedRoot.GetCertificateAuthorities trustedRoot
      ∨ ca ∈ TrustedRoot.GetTimestampAuthorities trustedRoot)
    (h : ParseCertificateAuthority lib ca = Outcome.panics
      ∨ ∃ e, ParseCertificateAuthority lib ca = Outcome.returns (none, none, none, some e)) :
    NewTrustedRootFromProtobuf lib trustedRoot = Outcome.panics
    ∨ ∃ e, NewTrustedRootFromProtobuf lib trustedRoot = Outcome.returns (none, some e) := by
  rcases hmem with hm | hm
  · exact NewTrustedRootFromProtobuf_of_cas_err lib trustedRoot
      (ParseCertificateAuthorities_loop_err lib _ ⟨ca, hm, h⟩ _)
  · exact NewTrustedRootFromProtobuf_of_tsa_err lib trustedRoot ⟨ca, hm, h⟩

/-- The constructor returns when no chain of either authority list has a nil element. -/
theorem NewTrustedRootFromProtobuf_returns (lib : Lib Certificate Verifier)
    (trustedRoot : Option prototrustroot.TrustedRoot)
    (h : ∀ ca, (ca ∈ TrustedRoot.GetCertificateAuthorities trustedRoot
        ∨ ca ∈ TrustedRoot.GetTimestampAuthorities trustedRoot) →
      none ∉ X509CertificateChain.GetCertificates (CertificateAuthority.GetCertChain ca)) :
    ∃ r, NewTrustedRootFromProtobuf lib trustedRoot = Outcome.returns r := by
  unfold NewTrustedRootFromProtobuf
  split
  · exact ⟨_, rfl⟩
  · rcases ht : ParseTlogVerifiers lib trustedRoot with ⟨m, _ | e2⟩
    · obtain ⟨r, hr⟩ := ParseCertificateAuthorities_loop_returns lib
        (TrustedRoot.GetCertificateAuthorities trustedRoot) (fun ca hca => h ca (Or.inl hca))
        (some [], some [], some [])
      have hr2 : ParseCertificateAuthorities lib
          (TrustedRoot.GetCertificateAuthorities trustedRoot) = Outcome.returns r := hr
      rw [hr2]
      obtain ⟨r1, r2, r3, _ | e0⟩ := r
      · exact NewTrustedRootFromProtobuf_loop_returns lib _
          (fun ca hca => h ca (Or.inr hca)) _
      · exact ⟨_, rfl⟩
    · exact ⟨_, rfl⟩

/-- A returned outcome that is a panic or an error is an error. -/
theorem returns_error_of_refused {α : Type} (o : Outcome (Option α × Option Error))
    (h : o = Outcome.panics ∨ ∃ e, o = Outcome.returns (none, some e))
    (hr : ∃ r, o = Outcome.returns r) : ∃ e, o = Outcome.returns (none, some e) := by
  rcases h with h | h
  · obtain ⟨r, hr⟩ := hr
    rw [h] at hr; cases hr
  · exact h

/-- The body of the log loop fails on a log whose hash algorithm is not SHA2-256 or whose key
details are not `PKIX_ECDSA_P256_SHA_256`. -/
theorem ParseTlogVerifiers_body_unsupported (lib : Lib Certificate Verifier)
    (tlog : Option TransparencyLogInstance)
    (h : TransparencyLogInstance.GetHashAlgorithm tlog ≠ HashAlgorithm.SHA2_256
      ∨ PublicKey.GetKeyDetails (TransparencyLogInstance.GetPublicKey tlog)
          ≠ PublicKeyDetails.PKIX_ECDSA_P256_SHA_256) :
    ∃ e, ParseTlogVerifiers.body lib tlog = Except.error e := by
  unfold ParseTlogVerifiers.body
  split
  · exact ⟨_, rfl⟩
  · split
    · exact ⟨_, rfl⟩
    · split
      · exact ⟨_, rfl⟩
      · simp only []
        split
        · exact ⟨_, rfl⟩
        · split
          · exact ⟨_, rfl⟩
          · split
            · rename_i hd
              rcases h with h | h
              · contradiction
              · exact absurd hd h
            · exact ⟨_, rfl⟩

/-- The body of the log loop fails on a log without a log ID or without a key ID. -/
theorem ParseTlogVerifiers_body_missing_key (lib : Lib Certificate Verifier)
    (tlog : Option TransparencyLogInstance)
    (h : LogId.GetKeyId (TransparencyLogInstance.GetLogId tlog) = none) :
    ∃ e, ParseTlogVerifiers.body lib tlog = Except.error e := by
  unfold ParseTlogVerifiers.body
  split
  · exact ⟨_, rfl⟩
  · split
    · exact ⟨_, rfl⟩
    · rw [if_pos (by simp [h])]
      exact ⟨_, rfl⟩

/-! ## Claims C4 to C6 and C8 -/

/-- C4: when some certificate, at any position of any chain of the certificate authorities
or of the timestamp authorities, fails X.509 parsing, `NewTrustedRootFromProtobuf` never
returns a trusted root: it returns no trusted root and an error, or, when a nil chain element
is reached before, it panics. With no nil chain element in the document it returns no
trusted root and an error. The entry is not skipped and nothing else is returned. -/
theorem C4_malformed_certificate_rejects_document (lib : Lib Certificate Verifier)
    (trustedRoot : Option prototrustroot.TrustedRoot)
    (ca : Option prototrustroot.CertificateAuthority) (cert : X509Certificate) (e : Error)
    (hca : ca ∈ TrustedRoot.GetCertificateAuthorities trustedRoot
      ∨ ca ∈ TrustedRoot.GetTimestampAuthorities trustedRoot)
    (hcert : some cert
      ∈ X509CertificateChain.GetCertificates (CertificateAuthority.GetCertChain ca))
    (hbad : lib.ParseCertificate (Slice.elems cert.RawBytes) = Except.error e) :
    (NewTrustedRootFromProtobuf lib trustedRoot = Outcome.panics
      ∨ ∃ err, NewTrustedRootFromProtobuf lib trustedRoot = Outcome.returns (none, some err))
    ∧ (∀ t err, NewTrustedRootFromProtobuf lib trustedRoot ≠ Outcome.returns (some t, err))
    ∧ ((∀ ca2 ∈ TrustedRoot.GetCertificateAuthorities trustedRoot
          ++ TrustedRoot.GetTimestampAuthorities trustedRoot,
        none ∉ X509CertificateChain.GetCertificates (CertificateAuthority.GetCertChain ca2)) →
      ∃ err, NewTrustedRootFromProtobuf lib trustedRoot
        = Outcome.returns (none, some err)) := by
  have h := NewTrustedRootFromProtobuf_of_authority_err lib trustedRoot ca hca
    (ParseCertificateAuthority_of_bad lib ca ⟨cert, hcert, e, hbad⟩)
  refine ⟨h, ?_, ?_⟩
  · intro t err heq
    rcases h with h | ⟨e2, h⟩ <;> rw [h] at heq <;> cases heq
  · intro hnil
    exact returns_error_of_refused _ h (NewTrustedRootFromProtobuf_returns lib trustedRoot
      (fun ca2 hmem => hnil ca2 (List.mem_append.mpr hmem)))

/-- C4 at a document whose second timestamp authority has a malformed last certificate. -/
theorem C4_malformed_certificate_rejects_document_witness :
    ∃ err, NewTrustedRootFromProtobuf Example.lib
      (Example.doc TrustedRootMediaType01 [Example.tlog (some [1]) [0]] [Example.ca [[1], [2]]]
        [Example.ca [[3]], Example.ca [[4], [5], []]]) = Outcome.returns (none, some err) :=
  (C4_malformed_certificate_rejects_document Example.lib
    (Example.doc TrustedRootMediaType01 [Example.tlog (some [1]) [0]] [Example.ca [[1], [2]]]
      [Example.ca [[3]], Example.ca [[4], [5], []]]) (Example.ca [[4], [5], []])
    (Example.cert []) (Error.library "x509: malformed certificate")
    (Or.inr (by decide)) (by decide) rfl).2.2 (by decide)

/-- C5: when some log has a hash algorithm other than SHA2-256 or key details other than
`PKIX_ECDSA_P256_SHA_256`, `ParseTlogVerifiers` returns no map and an error, and
`NewTrustedRootFromProtobuf` returns no trusted root and an error, whatever the other logs
are. -/
theorem C5_unsupported_log_rejects_document (lib : Lib Certificate Verifier)
    (trustedRoot : Option prototrustroot.TrustedRoot)
    (tlog : Option TransparencyLogInstance)
    (hmem : tlog ∈ TrustedRoot.GetTlogs trustedRoot)
    (h : TransparencyLogInstance.GetHashAlgorithm tlog ≠ HashAlgorithm.SHA2_256
      ∨ PublicKey.GetKeyDetails (TransparencyLogInstance.GetPublicKey tlog)
          ≠ PublicKeyDetails.PKIX_ECDSA_P256_SHA_256) :
    (∃ err, ParseTlogVerifiers lib trustedRoot = (none, some err))
    ∧ (∃ err, NewTrustedRootFromProtobuf lib trustedRoot
        = Outcome.returns (none, some err)) := by
  have ht : ∃ err, ParseTlogVerifiers lib trustedRoot = (none, some err) :=
    ParseTlogVerifiers_loop_err lib _
      ⟨tlog, hmem, ParseTlogVerifiers_body_unsupported lib tlog h⟩ _
  exact ⟨ht, NewTrustedRootFromProtobuf_of_tlogs_err lib trustedRoot ht⟩

/-- C5 at a document whose second log declares Ed25519 key details after a valid log. -/
theorem C5_unsupported_log_rejects_document_witness :
    (∃ err, ParseTlogVerifiers Example.lib
      (Example.doc TrustedRootMediaType01
        [Example.tlog (some [1]) [0],
         some { BaseUrl := "", HashAlgorithm := HashAlgorithm.SHA2_256,
                PublicKey := some ⟨some [0], PublicKeyDetails.PKIX_ED25519, none⟩,
                LogId := some ⟨some [2]⟩ }] [] []) = (none, some err))
    ∧ (∃ err, NewTrustedRootFromProtobuf Example.lib
      (Example.doc TrustedRootMediaType01
        [Example.tlog (some [1]) [0],
         some { BaseUrl := "", HashAlgorithm := HashAlgorithm.SHA2_256,
                PublicKey := some ⟨some [0], PublicKeyDetails.PKIX_ED25519, none⟩,
                LogId := some ⟨some [2]⟩ }] [] []) = Outcome.returns (none, some err)) :=
  C5_unsupported_log_rejects_document Example.lib _
    (some { BaseUrl := "", HashAlgorithm := HashAlgorithm.SHA2_256,
            PublicKey := some ⟨some [0], PublicKeyDetails.PKIX_ED25519, none⟩,
            LogId := some ⟨some [2]⟩ })
    (by decide) (Or.inr (by decide))

/-- C6: a certificate-authority or timestamp-authority entry that is nil, has no certificate
chain, or has a chain of zero certificates is refused by `ParseCertificateAuthority` with an
error, and `NewTrustedRootFromProtobuf` never returns a trusted root for a document holding
such an entry in either list: it returns no trusted root and an error, or, when a nil chain
element of another entry is reached before, it panics. With no nil chain element in the
document it returns no trusted root and an error. -/
theorem C6_empty_chain_rejected (lib : Lib Certificate Verifier)
    (ca : Option prototrustroot.CertificateAuthority)
    (h : ca = none ∨ CertificateAuthority.GetCertChain ca = none
      ∨ X509CertificateChain.GetCertificates (CertificateAuthority.GetCertChain ca) = []) :
    (∃ err, ParseCertificateAuthority lib ca = Outcome.returns (none, none, none, some err))
    ∧ ∀ trustedRoot : Option prototrustroot.TrustedRoot,
        (ca ∈ TrustedRoot.GetCertificateAuthorities trustedRoot
          ∨ ca ∈ TrustedRoot.GetTimestampAuthorities trustedRoot) →
        (NewTrustedRootFromProtobuf lib trustedRoot = Outcome.panics
          ∨ ∃ err, NewTrustedRootFromProtobuf lib trustedRoot
            = Outcome.returns (none, some err))
        ∧ (∀ t err, NewTrustedRootFromProtobuf lib trustedRoot
            ≠ Outcome.returns (some t, err))
        ∧ ((∀ ca2 ∈ TrustedRoot.GetCertificateAuthorities trustedRoot
              ++ TrustedRoot.GetTimestampAuthorities trustedRoot,
            none ∉ X509CertificateChain.GetCertificates
              (CertificateAuthority.GetCertChain ca2)) →
          ∃ err, NewTrustedRootFromProtobuf lib trustedRoot
            = Outcome.returns (none, some err)) := by
  have hempty :
      X509CertificateChain.GetCertificates (CertificateAuthority.GetCertChain ca) = [] := by
    rcases h with h | h | h
    · subst h; rfl
    · rw [h]; rfl
    · exact h
  have hpca := ParseCertificateAuthority_of_empty lib ca hempty
  refine ⟨hpca, fun trustedRoot hmem => ?_⟩
  have hn := NewTrustedRootFromProtobuf_of_authority_err lib trustedRoot ca hmem (Or.inr hpca)
  refine ⟨hn, ?_, ?_⟩
  · intro t err heq
    rcases hn with hn | ⟨e2, hn⟩ <;> rw [hn] at heq <;> cases heq
  · intro hnil
    exact returns_error_of_refused _ hn (NewTrustedRootFromProtobuf_returns lib trustedRoot
      (fun ca2 hm => hnil ca2 (List.mem_append.mpr hm)))

/-- C6 at an entry with a present chain of zero certificates, listed after a valid entry. -/
theorem C6_empty_chain_rejected_witness :
    (∃ err, ParseCertificateAuthority Example.lib (Example.ca [])
      = Outcome.returns (none, none, none, some err))
    ∧ ∃ err, NewTrustedRootFromProtobuf Example.lib
        (Example.doc TrustedRootMediaType01 [] [Example.ca [[1], [2]], Example.ca []] [])
          = Outcome.returns (none, some err) :=
  ⟨(C6_empty_chain_rejected Example.lib (Example.ca []) (Or.inr (Or.inr rfl))).1,
    ((C6_empty_chain_rejected Example.lib (Example.ca []) (Or.inr (Or.inr rfl))).2
      (Example.doc TrustedRootMediaType01 [] [Example.ca [[1], [2]], Example.ca []] [])
      (Or.inl (by decide))).2.2 (by decide)⟩

/-- C8 (what the code does): on a document whose certificate authority has a chain with a
nil element, `ParseCertificateAuthorities` and `NewTrustedRootFromProtobuf` panic at
`cert.RawBytes`: they return neither a value nor an error. For every document
`NewTrustedRootFromProtobuf` returns a trusted root with a nil error, or a nil trusted root
with an error, or panics, and it returns whenever no chain of the document has a nil element;
`ParseCertificateAuthorities` returns three lists with a nil error, or three nil lists with an
error, or panics; `ParseTlogVerifiers` returns a map with a nil error or a nil map with an
error. -/
theorem C8_nil_chain_element_panics (lib : Lib Certificate Verifier) :
    ParseCertificateAuthorities lib
        [some { Subject := none, Uri := "", CertChain := some ⟨[none]⟩, ValidFor := none }]
      = Outcome.panics
    ∧ NewTrustedRootFromProtobuf lib
        (some { MediaType := TrustedRootMediaType01, Tlogs := [],
                CertificateAuthorities :=
                  [some { Subject := none, Uri := "", CertChain := some ⟨[none]⟩,
                          ValidFor := none }],
                Ctlogs := [], TimestampAuthorities := [] })
      = Outcome.panics
    ∧ (∀ trustedRoot : Option prototrustroot.TrustedRoot,
      (∃ t, NewTrustedRootFromProtobuf lib trustedRoot = Outcome.returns (some t, none))
      ∨ (∃ err, NewTrustedRootFromProtobuf lib trustedRoot = Outcome.returns (none, some err))
      ∨ NewTrustedRootFromProtobuf lib trustedRoot = Outcome.panics)
    ∧ (∀ trustedRoot : Option prototrustroot.TrustedRoot,
      (∀ ca ∈ TrustedRoot.GetCertificateAuthorities trustedRoot
          ++ TrustedRoot.GetTimestampAuthorities trustedRoot,
        none ∉ X509CertificateChain.GetCertificates (CertificateAuthority.GetCertChain ca)) →
      (∃ t, NewTrustedRootFromProtobuf lib trustedRoot = Outcome.returns (some t, none))
      ∨ (∃ err, NewTrustedRootFromProtobuf lib trustedRoot
          = Outcome.returns (none, some err)))
    ∧ (∀ trustedRoot : Option prototrustroot.TrustedRoot,
      (∃ m, ParseTlogVerifiers lib trustedRoot = (some m, none))
      ∨ (∃ err, ParseTlogVerifiers lib trustedRoot = (none, some err)))
    ∧ (∀ certAuthorities : List (Option prototrustroot.CertificateAuthority),
      (∃ roots intermediates leafs, ParseCertificateAuthorities lib certAuthorities
          = Outcome.returns (some roots, some intermediates, some leafs, none))
      ∨ (∃ err, ParseCertificateAuthorities lib certAuthorities
          = Outcome.returns (none, none, none, some err))
      ∨ ParseCertificateAuthorities lib certAuthorities = Outcome.panics) := by
  refine ⟨rfl, rfl, fun trustedRoot => NewTrustedRootFromProtobuf_cases lib trustedRoot, ?_,
    fun _ => ParseTlogVerifiers_loop_cases lib _ _,
    fun certAuthorities => ParseCertificateAuthorities_loop_cases lib certAuthorities [] [] []⟩
  intro trustedRoot hnil
  obtain ⟨r, hr⟩ := NewTrustedRootFromProtobuf_returns lib trustedRoot
    (fun ca hm => hnil ca (List.mem_append.mpr hm))
  rcases NewTrustedRootFromProtobuf_cases lib trustedRoot with h | h | h
  · exact Or.inl h
  · exact Or.inr h
  · rw [h] at hr; cases hr

/-! ## Maps -/

namespace GoMap

variable {V : Type}

theorem lookup_filter_ne (l : List (String × V)) (k k2 : String) (h : k2 ≠ k) :
    (l.filter (fun p => p.1 != k)).lookup k2 = l.lookup k2 := by
  induction l with
  | nil => rfl
  | cons p rest ih =>
    obtain ⟨a, b⟩ := p
    by_cases hak : a = k
    · subst hak
      have hne : (k2 == a) = false := by simpa using h
      simp [List.filter_cons, List.lookup_cons, hne, ih]
    · have hf : ((a, b).1 != k) = true := by simpa using hak
      rw [List.filter_cons, if_pos hf]
      simp only [List.lookup_cons]
      rw [ih]

theorem get?_set_self (m : GoMap V) (k : String) (v : V) : (m.set k v).get? k = some v := by
  simp [set, get?, List.lookup_cons]

theorem get?_set_ne (m : GoMap V) (k k2 : String) (v : V) (h : k2 ≠ k) :
    (m.set k v).get? k2 = m.get? k2 := by
  have hne : (k2 == k) = false := by simpa using h
  simp [set, get?, List.lookup_cons, hne, lookup_filter_ne _ _ _ h]

theorem len_set_le (m : GoMap V) (k : String) (v : V) : (m.set k v).len ≤ m.len + 1 := by
  simp only [set, len, List.length_cons]
  exact Nat.succ_le_succ (List.length_filter_le _ _)

theorem len_set_new (m : GoMap V) (k : String) (v : V) (h : k ∉ m.keys) :
    (m.set k v).len = m.len + 1 := by
  simp only [set, len, List.length_cons]
  congr 1
  rw [List.filter_eq_self.mpr]
  intro p hp
  have : p.1 ≠ k := by
    intro hk; apply h; rw [← hk]; exact List.mem_map_of_mem Prod.fst hp
  simpa using this

theorem mem_keys_set (m : GoMap V) (k k2 : String) (v : V) (h : k2 ∈ (m.set k v).keys) :
    k2 = k ∨ k2 ∈ m.keys := by
  simp only [set, keys, List.map_cons, List.mem_cons, List.mem_map, List.mem_filter] at h ⊢
  rcases h with h | ⟨p, ⟨hp, _⟩, hk⟩
  · exact Or.inl h
  · exact Or.inr ⟨p, hp, hk⟩

end GoMap

/-! ## `hex.EncodeToString` is injective -/

namespace hex

theorem hexDigit_inj : ∀ a b : Fin 16, hexDigit a.val = hexDigit b.val → a = b := by
  decide

theorem encodeByte_inj (a b : Byte) (h : encodeByte a = encodeByte b) : a = b := by
  simp only [encodeByte, List.cons.injEq, and_true] at h
  obtain ⟨h1, h2⟩ := h
  have ha := a.isLt
  have hb := b.isLt
  have e1 := hexDigit_inj ⟨a.val / 16, by omega⟩ ⟨b.val / 16, by omega⟩ h1
  have e2 := hexDigit_inj ⟨a.val % 16, by omega⟩ ⟨b.val % 16, by omega⟩ h2
  simp only [Fin.mk.injEq] at e1 e2
  apply Fin.ext
  omega

theorem flatMap_encodeByte_inj :
    ∀ xs ys : List Byte, xs.flatMap encodeByte = ys.flatMap encodeByte → xs = ys := by
  intro xs
  induction xs with
  | nil =>
    intro ys h
    cases ys with
    | nil => rfl
    | cons y ys => simp [List.flatMap_cons, encodeByte] at h
  | cons x xs ih =>
    intro ys h
    cases ys with
    | nil => simp [List.flatMap_cons, encodeByte] at h
    | cons y ys =>
      simp only [List.flatMap_cons, encodeByte, List.cons_append, List.nil_append,
        List.cons.injEq] at h
      obtain ⟨h1, h2, h3⟩ := h
      have hxy : x = y := encodeByte_inj x y (by simp [encodeByte, h1, h2])
      rw [hxy, ih ys h3]

theorem EncodeToString_inj (xs ys : List Byte) (h : EncodeToString xs = EncodeToString ys) :
    xs = ys := by
  exact flatMap_encodeByte_inj xs ys (congrArg String.data h)

theorem EncodeToString_eq_empty (xs : List Byte) (h : EncodeToString xs = "") : xs = [] :=
  EncodeToString_inj xs [] h

end hex

/-! ## `ParseTlogVerifiers` -/

/-- When the body succeeds, it stores the verifier built from the raw key bytes under the
hex-encoded key ID, and the key ID is present. -/
theorem ParseTlogVerifiers_body_ok (lib : Lib Certificate Verifier)
    (tlog : Option TransparencyLogInstance) (k : String) (v : Verifier)
    (h : ParseTlogVerifiers.body lib tlog = Except.ok (k, v)) :
    k = encodedKeyID tlog
    ∧ ParseTlogVerifiers.ecdsaVerifier lib (rawKeyBytes tlog) = Except.ok v
    ∧ LogId.GetKeyId (TransparencyLogInstance.GetLogId tlog) ≠ none := by
  unfold ParseTlogVerifiers.body at h
  split at h
  · cases h
  · split at h
    · cases h
    · split at h
      · cases h
      · rename_i hkey
        simp only [] at h
        split at h
        · cases h
        · split at h
          · cases h
          · split at h
            · split at h
              · cases h
              · rename_i v2 hv
                simp only [Except.ok.injEq, Prod.mk.injEq] at h
                obtain ⟨hk, hvv⟩ := h
                subst hvv
                refine ⟨hk.symm, hv, ?_⟩
                intro hn
                simp [hn] at hkey
            · cases h

/-- A key that no remaining log encodes to keeps the entry it had. -/
theorem ParseTlogVerifiers_loop_get?_other (lib : Lib Certificate Verifier) (k : String) :
    ∀ (tlogs : List (Option TransparencyLogInstance)) (m m2 : GoMap Verifier),
      ParseTlogVerifiers.loop lib tlogs m = (some m2, none) →
      (∀ t ∈ tlogs, encodedKeyID t ≠ k) → m2.get? k = m.get? k := by
  intro tlogs
  induction tlogs with
  | nil =>
    intro m m2 h _
    simp only [ParseTlogVerifiers.loop, Prod.mk.injEq, Option.some.injEq, and_true] at h
    rw [h]
  | cons t0 rest ih =>
    intro m m2 h hk
    rw [ParseTlogVerifiers.loop] at h
    cases hb : ParseTlogVerifiers.body lib t0 with
    | error e => rw [hb] at h; simp at h
    | ok kv =>
      obtain ⟨k0, v0⟩ := kv
      rw [hb] at h
      have hk0 := (ParseTlogVerifiers_body_ok lib t0 k0 v0 hb).1
      have hne : k ≠ k0 := by
        rw [hk0]; exact fun hh => hk t0 (List.mem_cons_self _ _) hh.symm
      rw [ih _ _ h (fun t ht => hk t (List.mem_cons_of_mem _ ht)),
        GoMap.get?_set_ne _ _ _ _ hne]

/-- The last log with a given key ID decides the entry under its hex encoding. -/
theorem ParseTlogVerifiers_loop_last (lib : Lib Certificate Verifier) :
    ∀ (tlogs : List (Option TransparencyLogInstance)) (m m2 : GoMap Verifier),
      ParseTlogVerifiers.loop lib tlogs m = (some m2, none) →
      ∀ (pre : List (Option TransparencyLogInstance)) (t : Option TransparencyLogInstance)
        (post : List (Option TransparencyLogInstance)),
        tlogs = pre ++ t :: post → (∀ u ∈ post, encodedKeyID u ≠ encodedKeyID t) →
        ∃ v, ParseTlogVerifiers.ecdsaVerifier lib (rawKeyBytes t) = Except.ok v
          ∧ m2.get? (encodedKeyID t) = some v := by
  intro tlogs
  induction tlogs with
  | nil => intro m m2 _ pre t post hsplit; simp at hsplit
  | cons t0 rest ih =>
    intro m m2 h pre t post hsplit hpost
    rw [ParseTlogVerifiers.loop] at h
    cases hb : ParseTlogVerifiers.body lib t0 with
    | error e => rw [hb] at h; simp at h
    | ok kv =>
      obtain ⟨k0, v0⟩ := kv
      rw [hb] at h
      obtain ⟨hk0, hv0, _⟩ := ParseTlogVerifiers_body_ok lib t0 k0 v0 hb
      cases pre with
      | nil =>
        simp only [List.nil_append, List.cons.injEq] at hsplit
        obtain ⟨ht, hrest⟩ := hsplit
        subst ht hrest
        refine ⟨v0, hv0, ?_⟩
        rw [ParseTlogVerifiers_loop_get?_other lib _ _ _ _ h hpost, hk0,
          GoMap.get?_set_self]
      | cons p pre2 =>
        simp only [List.cons_append, List.cons.injEq] at hsplit
        exact ih _ _ h pre2 t post hsplit.2 hpost

/-- The keys with an entry are the old ones and the encodings of the logs visited. -/
theorem ParseTlogVerifiers_loop_isSome (lib : Lib Certificate Verifier) (k : String) :
    ∀ (tlogs : List (Option TransparencyLogInstance)) (m m2 : GoMap Verifier),
      ParseTlogVerifiers.loop lib tlogs m = (some m2, none) →
      ((m2.get? k).isSome ↔ (m.get? k).isSome ∨ ∃ t ∈ tlogs, encodedKeyID t = k) := by
  intro tlogs
  induction tlogs with
  | nil =>
    intro m m2 h
    simp only [ParseTlogVerifiers.loop, Prod.mk.injEq, Option.some.injEq, and_true] at h
    simp [h]
  | cons t0 rest ih =>
    intro m m2 h
    rw [ParseTlogVerifiers.loop] at h
    cases hb : ParseTlogVerifiers.body lib t0 with
    | error e => rw [hb] at h; simp at h
    | ok kv =>
      obtain ⟨k0, v0⟩ := kv
      rw [hb] at h
      have hk0 := (ParseTlogVerifiers_body_ok lib t0 k0 v0 hb).1
      rw [ih _ _ h]
      by_cases hkk : k = k0
      · subst hkk
        simp [GoMap.get?_set_self, hk0.symm]
      · rw [GoMap.get?_set_ne _ _ _ _ hkk]
        have hne : encodedKeyID t0 ≠ k := by rw [← hk0]; exact fun hh => hkk hh.symm
        simp [hne]

/-- The map grows by at most one entry per log. -/
theorem ParseTlogVerifiers_loop_len_le (lib : Lib Certificate Verifier) :
    ∀ (tlogs : List (Option TransparencyLogInstance)) (m m2 : GoMap Verifier),
      ParseTlogVerifiers.loop lib tlogs m = (some m2, none) →
      m2.len ≤ m.len + tlogs.length := by
  intro tlogs
  induction tlogs with
  | nil =>
    intro m m2 h
    simp only [ParseTlogVerifiers.loop, Prod.mk.injEq, Option.some.injEq, and_true] at h
    simp [h]
  | cons t0 rest ih =>
    intro m m2 h
    rw [ParseTlogVerifiers.loop] at h
    cases hb : ParseTlogVerifiers.body lib t0 with
    | error e => rw [hb] at h; simp at h
    | ok kv =>
      obtain ⟨k0, v0⟩ := kv
      rw [hb] at h
      have h1 := ih _ _ h
      have h2 := GoMap.len_set_le m k0 v0
      simp only [List.length_cons]
      omega

/-- The map grows by exactly one entry per log when the encodings are new and distinct. -/
theorem ParseTlogVerifiers_loop_len_eq (lib : Lib Certificate Verifier) :
    ∀ (tlogs : List (Option TransparencyLogInstance)) (m m2 : GoMap Verifier),
      ParseTlogVerifiers.loop lib tlogs m = (some m2, none) →
      (tlogs.map encodedKeyID).Nodup → (∀ t ∈ tlogs, encodedKeyID t ∉ m.keys) →
      m2.len = m.len + tlogs.length := by
  intro tlogs
  induction tlogs with
  | nil =>
    intro m m2 h _ _
    simp only [ParseTlogVerifiers.loop, Prod.mk.injEq, Option.some.injEq, and_true] at h
    simp [h]
  | cons t0 rest ih =>
    intro m m2 h hnd hnew
    rw [ParseTlogVerifiers.loop] at h
    cases hb : ParseTlogVerifiers.body lib t0 with
    | error e => rw [hb] at h; simp at h
    | ok kv =>
      obtain ⟨k0, v0⟩ := kv
      rw [hb] at h
      have hk0 := (ParseTlogVerifiers_body_ok lib t0 k0 v0 hb).1
      simp only [List.map_cons, List.nodup_cons, List.mem_map, not_exists, not_and] at hnd
      obtain ⟨hfresh, hnd2⟩ := hnd
      have hlen : (m.set k0 v0).len = m.len + 1 :=
        GoMap.len_set_new m k0 v0 (by rw [hk0]; exact hnew t0 (List.mem_cons_self _ _))
      have hrec := ih _ _ h hnd2 (by
        intro t ht hmem
        rcases GoMap.mem_keys_set m k0 _ v0 hmem with hh | hh
        · exact hfresh t ht (by rw [hh, hk0])
        · exact hnew t (List.mem_cons_of_mem _ ht) hh)
      simp only [List.length_cons]
      omega

/-- Every log of an accepted list has a present key ID. -/
theorem ParseTlogVerifiers_loop_key_present (lib : Lib Certificate Verifier) :
    ∀ (tlogs : List (Option TransparencyLogInstance)) (m m2 : GoMap Verifier),
      ParseTlogVerifiers.loop lib tlogs m = (some m2, none) →
      ∀ t ∈ tlogs, LogId.GetKeyId (TransparencyLogInstance.GetLogId t) ≠ none := by
  intro tlogs
  induction tlogs with
  | nil => intro m m2 _ t ht; simp at ht
  | cons t0 rest ih =>
    intro m m2 h t ht
    rw [ParseTlogVerifiers.loop] at h
    cases hb : ParseTlogVerifiers.body lib t0 with
    | error e => rw [hb] at h; simp at h
    | ok kv =>
      obtain ⟨k0, v0⟩ := kv
      rw [hb] at h
      rcases List.mem_cons.mp ht with hh | hh
      · subst hh; exact (ParseTlogVerifiers_body_ok lib t k0 v0 hb).2.2
      · exact ih _ _ h t hh

/-! ## What an accepted document yields -/

/-- On success the loop of `ParseCertificateAuthorities` has appended, entry by entry, the
root, the intermediates and the leaf. -/
theorem ParseCertificateAuthorities_loop_ok (lib : Lib Certificate Verifier) :
    ∀ (cas : List (Option prototrustroot.CertificateAuthority))
      (R I L : List (Option Certificate)) (a b c : Slice (Option Certificate)),
      ParseCertificateAuthorities.loop lib cas (some R, some I, some L)
        = Outcome.returns (a, b, c, none) →
      a = some (R ++ cas.map (rootOf lib))
      ∧ b = some (I ++ cas.flatMap (intermediatesOf lib))
      ∧ c = some (L ++ cas.map (leafOf lib)) := by
  intro cas
  induction cas with
  | nil =>
    intro R I L a b c h
    simp only [ParseCertificateAuthorities.loop, Outcome.returns.injEq, Prod.mk.injEq,
      and_true] at h
    obtain ⟨h1, h2, h3⟩ := h
    subst h1 h2 h3
    simp
  | cons ca rest ih =>
    intro R I L a b c h
    rw [ParseCertificateAuthorities.loop] at h
    rcases hc : ParseCertificateAuthority lib ca with ⟨r, i, l, _ | e⟩ | _
    · rw [hc] at h
      simp only [Slice.append_some] at h
      obtain ⟨h1, h2, h3⟩ := ih _ _ _ _ _ _ h
      subst h1 h2 h3
      simp [rootOf, intermediatesOf, leafOf, resultOf, hc, List.flatMap_cons]
    · rw [hc] at h; simp at h
    · rw [hc] at h; simp at h

/-- When the loop of `ParseCertificateAuthorities` returns without error,
`ParseCertificateAuthority` has returned without error on every entry. -/
theorem ParseCertificateAuthorities_loop_all_return (lib : Lib Certificate Verifier) :
    ∀ (cas : List (Option prototrustroot.CertificateAuthority))
      (st : Slice (Option Certificate) × Slice (Option Certificate) ×
        Slice (Option Certificate)) (a b c : Slice (Option Certificate)),
      ParseCertificateAuthorities.loop lib cas st = Outcome.returns (a, b, c, none) →
      ∀ ca ∈ cas, ∃ r xs l,
        ParseCertificateAuthority lib ca = Outcome.returns (r, xs, l, none) := by
  intro cas
  induction cas with
  | nil => intro _ _ _ _ _ ca hmem; simp at hmem
  | cons c0 rest ih =>
    rintro ⟨R, I, L⟩ a b c h ca hmem
    rw [ParseCertificateAuthorities.loop] at h
    rcases hc : ParseCertificateAuthority lib c0 with ⟨r, i, l, _ | e⟩ | _
    · rw [hc] at h
      rcases List.mem_cons.mp hmem with hh | hh
      · subst hh; exact ⟨r, i, l, hc⟩
      · exact ih _ _ _ _ h ca hh
    · rw [hc] at h; simp at h
    · rw [hc] at h; simp at h

/-- The loop over the timestamp authorities changes `tsaCertAuthorities` only. -/
theorem NewTrustedRootFromProtobuf_loop_keeps (lib : Lib Certificate Verifier) :
    ∀ (tsas : List (Option prototrustroot.CertificateAuthority))
      (st t : root.TrustedRoot Certificate Verifier),
      NewTrustedRootFromProtobuf.loop lib tsas st = Outcome.returns (some t, none) →
      t.trustedRoot = st.trustedRoot ∧ t.tlogVerifiers = st.tlogVerifiers
      ∧ t.rootCerts = st.rootCerts ∧ t.intermediateCerts = st.intermediateCerts := by
  intro tsas
  induction tsas with
  | nil =>
    intro st t h
    simp only [NewTrustedRootFromProtobuf.loop, Outcome.returns.injEq, Prod.mk.injEq,
      Option.some.injEq, and_true] at h
    subst h
    exact ⟨rfl, rfl, rfl, rfl⟩
  | cons ca rest ih =>
    intro st t h
    rw [NewTrustedRootFromProtobuf.loop] at h
    rcases hc : ParseCertificateAuthority lib ca with ⟨r, i, l, _ | e⟩ | _
    · rw [hc] at h
      obtain ⟨h1, h2, h3, h4⟩ := ih _ _ h
      exact ⟨h1, h2, h3, h4⟩
    · rw [hc] at h; simp at h
    · rw [hc] at h; simp at h

/-- An accepted document has passed the media-type test, `ParseTlogVerifiers`,
`ParseCertificateAuthorities` and the loop over the timestamp authorities. -/
theorem NewTrustedRootFromProtobuf_ok_steps (lib : Lib Certificate Verifier)
    (trustedRoot : Option prototrustroot.TrustedRoot)
    (t : root.TrustedRoot Certificate Verifier)
    (h : NewTrustedRootFromProtobuf lib trustedRoot = Outcome.returns (some t, none)) :
    TrustedRoot.GetMediaType trustedRoot = TrustedRootMediaType01
    ∧ ∃ tlogVerifiers roots intermediates leafs,
        ParseTlogVerifiers lib trustedRoot = (tlogVerifiers, none)
        ∧ ParseCertificateAuthorities lib (TrustedRoot.GetCertificateAuthorities trustedRoot)
            = Outcome.returns (roots, intermediates, leafs, none)
        ∧ NewTrustedRootFromProtobuf.loop lib
            (TrustedRoot.GetTimestampAuthorities trustedRoot)
            { trustedRoot := trustedRoot
              tlogVerifiers := tlogVerifiers
              rootCerts := roots
              intermediateCerts := Slice.append intermediates (Slice.elems leafs)
              tsaCertAuthorities := none } = Outcome.returns (some t, none) := by
  unfold NewTrustedRootFromProtobuf at h
  split at h
  · simp at h
  · rename_i hm
    refine ⟨not_not.mp hm, ?_⟩
    rcases ht : ParseTlogVerifiers lib trustedRoot with ⟨m, _ | e⟩
    · rw [ht] at h
      rcases hc : ParseCertificateAuthorities lib
          (TrustedRoot.GetCertificateAuthorities trustedRoot) with ⟨r, i, l, _ | e⟩ | _
      · rw [hc] at h
        exact ⟨m, r, i, l, rfl, rfl, h⟩
      · rw [hc] at h; simp at h
      · rw [hc] at h; simp at h
    · rw [ht] at h; simp at h

/-! ## Claims C9 and C10 -/

/-- A document with a log whose log ID or key ID is absent (nil) is refused by
`ParseTlogVerifiers`; and when no log of the document has a present key ID of length 0, a
map that `ParseTlogVerifiers` returns has no entry under the empty hex key. -/
theorem ParseTlogVerifiers_absent_key_id (lib : Lib Certificate Verifier)
    (trustedRoot : Option prototrustroot.TrustedRoot) :
    (∀ tlog ∈ TrustedRoot.GetTlogs trustedRoot,
      (TransparencyLogInstance.GetLogId tlog = none
        ∨ LogId.GetKeyId (TransparencyLogInstance.GetLogId tlog) = none) →
      ∃ err, ParseTlogVerifiers lib trustedRoot = (none, some err))
    ∧ ((∀ tlog ∈ TrustedRoot.GetTlogs trustedRoot,
        LogId.GetKeyId (TransparencyLogInstance.GetLogId tlog) ≠ some []) →
      ∀ m, ParseTlogVerifiers lib trustedRoot = (some m, none) → m.get? "" = none) := by
  constructor
  · intro tlog hmem h
    have hkey : LogId.GetKeyId (TransparencyLogInstance.GetLogId tlog) = none := by
      rcases h with h | h
      · rw [h]; rfl
      · exact h
    exact ParseTlogVerifiers_loop_err lib _
      ⟨tlog, hmem, ParseTlogVerifiers_body_missing_key lib tlog hkey⟩ _
  · intro hne m hm
    have hpresent := ParseTlogVerifiers_loop_key_present lib _ _ _ hm
    have hother := ParseTlogVerifiers_loop_get?_other lib "" _ _ _ hm (by
      intro t ht henc
      have hnil := hex.EncodeToString_eq_empty _ henc
      cases hk : LogId.GetKeyId (TransparencyLogInstance.GetLogId t) with
      | none => exact hpresent t ht hk
      | some bs =>
        rw [hk] at hnil
        simp only [Slice.elems] at hnil
        subst hnil
        exact hne t ht hk)
    rw [hother]
    rfl

/-- C9: for an accepted document with certificate authorities `CA_1..CA_k`, `rootCerts` is
`[root(CA_1), …, root(CA_k)]` and `intermediateCerts` is
`intermediates(CA_1) ++ … ++ intermediates(CA_k)` followed by `[leaf(CA_1), …, leaf(CA_k)]`;
both are determined by the certificate authorities alone, so no certificate of a timestamp
authority enters either list. Here root, intermediates and leaf of `CA_i` are what
`ParseCertificateAuthority` returned for it, without error. -/
theorem C9_roots_and_pooled_intermediates (lib : Lib Certificate Verifier)
    (trustedRoot : Option prototrustroot.TrustedRoot)
    (t : root.TrustedRoot Certificate Verifier)
    (h : NewTrustedRootFromProtobuf lib trustedRoot = Outcome.returns (some t, none)) :
    t.rootCerts
      = some ((TrustedRoot.GetCertificateAuthorities trustedRoot).map (rootOf lib))
    ∧ t.intermediateCerts
      = some ((TrustedRoot.GetCertificateAuthorities trustedRoot).flatMap (intermediatesOf lib)
          ++ (TrustedRoot.GetCertificateAuthorities trustedRoot).map (leafOf lib))
    ∧ ∀ ca ∈ TrustedRoot.GetCertificateAuthorities trustedRoot,
        ParseCertificateAuthority lib ca = Outcome.returns (resultOf lib ca)
        ∧ (resultOf lib ca).2.2.2 = none := by
  obtain ⟨_, m, r, i, l, _, hc, hloop⟩ :=
    NewTrustedRootFromProtobuf_ok_steps lib trustedRoot t h
  obtain ⟨_, _, hr, hi⟩ := NewTrustedRootFromProtobuf_loop_keeps lib _ _ _ hloop
  have hall := ParseCertificateAuthorities_loop_all_return lib _ _ _ _ _ hc
  obtain ⟨h1, h2, h3⟩ := ParseCertificateAuthorities_loop_ok lib _ [] [] [] _ _ _ hc
  subst h1 h2 h3
  simp only [Slice.append_some, Slice.elems, List.nil_append] at hr hi
  refine ⟨hr, hi, ?_⟩
  intro ca hmem
  obtain ⟨r0, xs0, l0, h0⟩ := hall ca hmem
  simp [resultOf, h0]

/-- C9 at a document with two certificate authorities and one timestamp authority. -/
theorem C9_roots_and_pooled_intermediates_witness :
    ∃ t, NewTrustedRootFromProtobuf Example.lib
        (Example.doc TrustedRootMediaType01 [] [Example.ca [[1], [2], [3]], Example.ca [[4], [5]]]
          [Example.ca [[6], [7], [8]]]) = Outcome.returns (some t, none)
      ∧ t.rootCerts = some [some [3], some [5]]
      ∧ t.intermediateCerts = some [some [2], some [1], some [4]] :=
  ⟨_, rfl, (C9_roots_and_pooled_intermediates Example.lib
    (Example.doc TrustedRootMediaType01 [] [Example.ca [[1], [2], [3]], Example.ca [[4], [5]]]
      [Example.ca [[6], [7], [8]]]) _ rfl).1,
    (C9_roots_and_pooled_intermediates Example.lib
    (Example.doc TrustedRootMediaType01 [] [Example.ca [[1], [2], [3]], Example.ca [[4], [5]]]
      [Example.ca [[6], [7], [8]]]) _ rfl).2.1⟩

/-- C10: for a log list that `ParseTlogVerifiers` accepts, the returned map has an entry for
a string `k` exactly when some log's key ID hex-encodes to `k`; the entry under the encoding
of a log that no later log shares its encoding with is the verifier built from that log's
public key (last wins); the map has at most as many entries as there are logs, and exactly as
many when the key IDs are pairwise distinct. -/
theorem C10_verifier_map (lib : Lib Certificate Verifier)
    (trustedRoot : Option prototrustroot.TrustedRoot) (m : GoMap Verifier)
    (h : ParseTlogVerifiers lib trustedRoot = (some m, none)) :
    (∀ k : String, (m.get? k).isSome
      ↔ ∃ tlog ∈ TrustedRoot.GetTlogs trustedRoot, encodedKeyID tlog = k)
    ∧ (∀ (pre : List (Option TransparencyLogInstance)) (tlog : Option TransparencyLogInstance)
        (post : List (Option TransparencyLogInstance)),
        TrustedRoot.GetTlogs trustedRoot = pre ++ tlog :: post →
        (∀ u ∈ post, encodedKeyID u ≠ encodedKeyID tlog) →
        ∃ v, ParseTlogVerifiers.ecdsaVerifier lib (rawKeyBytes tlog) = Except.ok v
          ∧ m.get? (encodedKeyID tlog) = some v)
    ∧ m.len ≤ (TrustedRoot.GetTlogs trustedRoot).length
    ∧ (((TrustedRoot.GetTlogs trustedRoot).map
          (fun tlog => Slice.elems (LogId.GetKeyId (TransparencyLogInstance.GetLogId tlog)))).Nodup →
        m.len = (TrustedRoot.GetTlogs trustedRoot).length) := by
  refine ⟨?_, ?_, ?_, ?_⟩
  · intro k
    have := ParseTlogVerifiers_loop_isSome lib k _ _ _ h
    simpa [GoMap.empty, GoMap.get?] using this
  · exact ParseTlogVerifiers_loop_last lib _ _ _ h
  · have := ParseTlogVerifiers_loop_len_le lib _ _ _ h
    simpa [GoMap.empty, GoMap.len] using this
  · intro hnd
    have hnd2 : ((TrustedRoot.GetTlogs trustedRoot).map encodedKeyID).Nodup := by
      have := List.Nodup.map (f := hex.EncodeToString)
        (fun a b hab => hex.EncodeToString_inj a b hab) hnd
      simpa [List.map_map, Function.comp, encodedKeyID] using this
    have := ParseTlogVerifiers_loop_len_eq lib _ _ _ h hnd2 (by
      intro t _ hmem
      simp [GoMap.empty, GoMap.keys] at hmem)
    simpa [GoMap.empty, GoMap.len] using this

/-- C10 at three logs of which the first and the last share the key ID `ab01`. -/
theorem C10_verifier_map_witness :
    ∃ m, ParseTlogVerifiers Example.lib
        (Example.doc TrustedRootMediaType01
          [Example.tlog (some [0xab, 0x01]) [0], Example.tlog (some [0x02]) [0, 7],
           Example.tlog (some [0xab, 0x01]) [0, 7, 7]] [] []) = (some m, none)
      ∧ m.get? "ab01" = some (⟨crypto.Curve.P256, 2, 1⟩, crypto.Hash.SHA256)
      ∧ m.len ≤ 3 :=
  ⟨_, rfl,
    by
      obtain ⟨v, hv, hget⟩ := (C10_verifier_map Example.lib
        (Example.doc TrustedRootMediaType01
          [Example.tlog (some [0xab, 0x01]) [0], Example.tlog (some [0x02]) [0, 7],
           Example.tlog (some [0xab, 0x01]) [0, 7, 7]] [] []) _ rfl).2.1
        [Example.tlog (some [0xab, 0x01]) [0], Example.tlog (some [0x02]) [0, 7]]
        (Example.tlog (some [0xab, 0x01]) [0, 7, 7]) [] rfl (by simp)
      have hv2 : (Except.ok (⟨crypto.Curve.P256, 2, 1⟩, crypto.Hash.SHA256) :
          Except Error (crypto.ECDSAPublicKey × crypto.Hash)) = Except.ok v := hv
      cases hv2
      exact hget,
    (C10_verifier_map Example.lib
        (Example.doc TrustedRootMediaType01
          [Example.tlog (some [0xab, 0x01]) [0], Example.tlog (some [0x02]) [0, 7],
           Example.tlog (some [0xab, 0x01]) [0, 7, 7]] [] []) _ rfl).2.2.1⟩

/-! ## Timestamp authorities of an accepted document -/

theorem Slice.elems_append {α : Type} (s : Slice α) (xs : List α) :
    Slice.elems (Slice.append s xs) = Slice.elems s ++ xs := by
  cases s with
  | none => cases xs <;> rfl
  | some ys => cases xs <;> rfl

/-- The loop over the timestamp authorities appends one struct per entry, in order, and
`ParseCertificateAuthority` has returned without error on every entry. -/
theorem NewTrustedRootFromProtobuf_loop_tsa (lib : Lib Certificate Verifier) :
    ∀ (tsas : List (Option prototrustroot.CertificateAuthority))
      (st t : root.TrustedRoot Certificate Verifier),
      NewTrustedRootFromProtobuf.loop lib tsas st = Outcome.returns (some t, none) →
      Slice.elems t.tsaCertAuthorities
        = Slice.elems st.tsaCertAuthorities ++ tsas.map (tsaOf lib)
      ∧ ∀ ca ∈ tsas, ∃ r xs l,
          ParseCertificateAuthority lib ca = Outcome.returns (r, xs, l, none) := by
  intro tsas
  induction tsas with
  | nil =>
    intro st t h
    simp only [NewTrustedRootFromProtobuf.loop, Outcome.returns.injEq, Prod.mk.injEq,
      Option.some.injEq, and_true] at h
    subst h
    simp
  | cons ca rest ih =>
    intro st t h
    rw [NewTrustedRootFromProtobuf.loop] at h
    rcases hc : ParseCertificateAuthority lib ca with ⟨r, i, l, _ | e⟩ | _
    · rw [hc] at h
      obtain ⟨h1, h2⟩ := ih _ _ h
      constructor
      · rw [h1]
        simp [Slice.elems_append, tsaOf, resultOf, hc]
      · intro ca2 hmem
        rcases List.mem_cons.mp hmem with hh | hh
        · subst hh; exact ⟨r, i, l, hc⟩
        · exact h2 ca2 hh
    · rw [hc] at h; simp at h
    · rw [hc] at h; simp at h

/-- With no timestamp authority the loop leaves `tsaCertAuthorities` as it was. -/
theorem NewTrustedRootFromProtobuf_loop_nil (lib : Lib Certificate Verifier)
    (st t : root.TrustedRoot Certificate Verifier)
    (h : NewTrustedRootFromProtobuf.loop lib [] st = Outcome.returns (some t, none)) :
    t = st := by
  simp only [NewTrustedRootFromProtobuf.loop, Outcome.returns.injEq, Prod.mk.injEq,
    Option.some.injEq, and_true] at h
  exact h.symm

/-- C11: for an accepted document `GetTSACertAuthorities` returns one `CertificateAuthority`
per `timestampAuthorities` entry, in declared order, the i-th being the root, intermediates
and leaf that `ParseCertificateAuthority` returns for the i-th entry; with no timestamp
authority the list is empty (the nil slice). -/
theorem C11_tsa_cert_authorities (lib : Lib Certificate Verifier)
    (trustedRoot : Option prototrustroot.TrustedRoot)
    (t : root.TrustedRoot Certificate Verifier)
    (h : NewTrustedRootFromProtobuf lib trustedRoot = Outcome.returns (some t, none)) :
    Slice.elems t.GetTSACertAuthorities
      = (TrustedRoot.GetTimestampAuthorities trustedRoot).map (tsaOf lib)
    ∧ (Slice.elems t.GetTSACertAuthorities).length
      = (TrustedRoot.GetTimestampAuthorities trustedRoot).length
    ∧ (∀ (i : Nat) (ca : Option prototrustroot.CertificateAuthority),
        (TrustedRoot.GetTimestampAuthorities trustedRoot)[i]? = some ca →
        ∃ r xs l, ParseCertificateAuthority lib ca = Outcome.returns (r, xs, l, none)
          ∧ (Slice.elems t.GetTSACertAuthorities)[i]?
            = some { Root := r, Intermediates := xs, Leaf := l })
    ∧ (TrustedRoot.GetTimestampAuthorities trustedRoot = [] →
        t.GetTSACertAuthorities = none) := by
  obtain ⟨_, m, r, i, l, _, _, hloop⟩ :=
    NewTrustedRootFromProtobuf_ok_steps lib trustedRoot t h
  obtain ⟨hmap0, hall⟩ := NewTrustedRootFromProtobuf_loop_tsa lib _ _ _ hloop
  have hmap : Slice.elems t.tsaCertAuthorities
      = (TrustedRoot.GetTimestampAuthorities trustedRoot).map (tsaOf lib) := hmap0
  refine ⟨hmap, ?_, ?_, ?_⟩
  · simp [root.TrustedRoot.GetTSACertAuthorities, hmap]
  · intro i ca hi
    obtain ⟨r2, xs2, l2, hca⟩ := hall ca (List.getElem?_mem hi)
    refine ⟨r2, xs2, l2, hca, ?_⟩
    simp only [root.TrustedRoot.GetTSACertAuthorities]
    rw [hmap, List.getElem?_map, hi]
    simp [tsaOf, resultOf, hca]
  · intro hnil
    rw [hnil] at hloop
    have := NewTrustedRootFromProtobuf_loop_nil lib _ _ hloop
    rw [this]
    rfl

/-- C11 at a document with two timestamp authorities. -/
theorem C11_tsa_cert_authorities_witness :
    ∃ t, NewTrustedRootFromProtobuf Example.lib
        (Example.doc TrustedRootMediaType01 [] [Example.ca [[1], [2]]]
          [Example.ca [[3], [4], [5]], Example.ca [[6], [7]]]) = Outcome.returns (some t, none)
      ∧ Slice.elems t.GetTSACertAuthorities
        = [{ Root := some [5], Intermediates := some [some [4]], Leaf := some [3] },
           { Root := some [7], Intermediates := some [], Leaf := some [6] }] :=
  ⟨_, rfl, (C11_tsa_cert_authorities Example.lib
    (Example.doc TrustedRootMediaType01 [] [Example.ca [[1], [2]]]
      [Example.ca [[3], [4], [5]], Example.ca [[6], [7]]]) _ rfl).1⟩

/-! ## The `ValidFor` fields are not read -/

theorem body_clearValidForTlog (lib : Lib Certificate Verifier)
    (tlog : Option TransparencyLogInstance) :
    ParseTlogVerifiers.body lib (clearValidForTlog tlog) = ParseTlogVerifiers.body lib tlog := by
  cases tlog with
  | none => rfl
  | some t =>
    obtain ⟨url, alg, pk, lid⟩ := t
    cases pk with
    | none => rfl
    | some k => rfl

theorem ParseTlogVerifiers_loop_clearValidFor (lib : Lib Certificate Verifier) :
    ∀ (tlogs : List (Option TransparencyLogInstance)) (m : GoMap Verifier),
      ParseTlogVerifiers.loop lib (tlogs.map clearValidForTlog) m
        = ParseTlogVerifiers.loop lib tlogs m := by
  intro tlogs
  induction tlogs with
  | nil => intro m; rfl
  | cons t rest ih =>
    intro m
    simp only [List.map_cons, ParseTlogVerifiers.loop, body_clearValidForTlog]
    cases ParseTlogVerifiers.body lib t with
    | error e => rfl
    | ok kv => exact ih _

theorem ParseCertificateAuthority_clearValidForCA (lib : Lib Certificate Verifier)
    (ca : Option prototrustroot.CertificateAuthority) :
    ParseCertificateAuthority lib (clearValidForCA ca) = ParseCertificateAuthority lib ca := by
  cases ca with
  | none => rfl
  | some c => rfl

theorem ParseCertificateAuthorities_loop_clearValidFor (lib : Lib Certificate Verifier) :
    ∀ (cas : List (Option prototrustroot.CertificateAuthority))
      (st : Slice (Option Certificate) × Slice (Option Certificate) ×
        Slice (Option Certificate)),
      ParseCertificateAuthorities.loop lib (cas.map clearValidForCA) st
        = ParseCertificateAuthorities.loop lib cas st := by
  intro cas
  induction cas with
  | nil => intro st; rfl
  | cons c rest ih =>
    rintro ⟨roots, ints, leafs⟩
    simp only [List.map_cons, ParseCertificateAuthorities.loop,
      ParseCertificateAuthority_clearValidForCA]
    rcases ParseCertificateAuthority lib c with ⟨r, i, l, _ | e⟩ | _
    · exact ih _
    · rfl
    · rfl

/-- The loop over the timestamp authorities yields the same parsed content from two states
that agree on it, whether or not the `ValidFor` fields are cleared. -/
theorem NewTrustedRootFromProtobuf_loop_clearValidFor (lib : Lib Certificate Verifier) :
    ∀ (tsas : List (Option prototrustroot.CertificateAuthority))
      (st st2 : root.TrustedRoot Certificate Verifier),
      st.tlogVerifiers = st2.tlogVerifiers → st.rootCerts = st2.rootCerts →
      st.intermediateCerts = st2.intermediateCerts →
      st.tsaCertAuthorities = st2.tsaCertAuthorities →
      parsedParts (NewTrustedRootFromProtobuf.loop lib (tsas.map clearValidForCA) st2)
        = parsedParts (NewTrustedRootFromProtobuf.loop lib tsas st) := by
  intro tsas
  induction tsas with
  | nil =>
    intro st st2 h1 h2 h3 h4
    simp [NewTrustedRootFromProtobuf.loop, parsedParts, h1, h2, h3, h4]
  | cons c rest ih =>
    intro st st2 h1 h2 h3 h4
    simp only [List.map_cons, NewTrustedRootFromProtobuf.loop,
      ParseCertificateAuthority_clearValidForCA]
    rcases ParseCertificateAuthority lib c with ⟨r, i, l, _ | e⟩ | _
    · exact ih _ _ h1 h2 h3 (by simp [h4])
    · rfl
    · rfl

/-- Clearing the `ValidFor` fields of a document does not change what is parsed from it. -/
theorem NewTrustedRootFromProtobuf_clearValidFor (lib : Lib Certificate Verifier)
    (d : Option prototrustroot.TrustedRoot) :
    parsedParts (NewTrustedRootFromProtobuf lib (clearValidFor d))
      = parsedParts (NewTrustedRootFromProtobuf lib d) := by
  cases d with
  | none => rfl
  | some doc =>
    simp only [NewTrustedRootFromProtobuf, clearValidFor, TrustedRoot.GetMediaType,
      ParseTlogVerifiers, TrustedRoot.GetTlogs, ParseTlogVerifiers_loop_clearValidFor,
      TrustedRoot.GetCertificateAuthorities, ParseCertificateAuthorities,
      ParseCertificateAuthorities_loop_clearValidFor, TrustedRoot.GetTimestampAuthorities]
    split
    · rfl
    · rcases ParseTlogVerifiers.loop lib doc.Tlogs GoMap.empty with ⟨m, _ | e⟩
      · rcases ParseCertificateAuthorities.loop lib doc.CertificateAuthorities
            (some [], some [], some []) with ⟨r, i, l, _ | e⟩ | _
        · exact NewTrustedRootFromProtobuf_loop_clearValidFor lib _ _ _ rfl rfl rfl rfl
        · rfl
        · rfl
      · rfl

/-- C15: two documents that differ only in the `ValidFor` fields of their logs' public keys,
certificate authorities or timestamp authorities get the same result from
`NewTrustedRootFromProtobuf`: the same error, or the same verifier map, root certificates,
pooled intermediates and timestamp-authority chains. -/
theorem C15_valid_for_not_read (lib : Lib Certificate Verifier)
    (d1 d2 : Option prototrustroot.TrustedRoot)
    (h : clearValidFor d1 = clearValidFor d2) :
    parsedParts (NewTrustedRootFromProtobuf lib d1)
      = parsedParts (NewTrustedRootFromProtobuf lib d2) := by
  rw [← NewTrustedRootFromProtobuf_clearValidFor lib d1,
    ← NewTrustedRootFromProtobuf_clearValidFor lib d2, h]

/-- C15 at two documents with different validity periods on a log key and on a timestamp
authority. -/
theorem C15_valid_for_not_read_witness :
    parsedParts (NewTrustedRootFromProtobuf Example.lib
      (some { MediaType := TrustedRootMediaType01,
              Tlogs := [some { BaseUrl := "", HashAlgorithm := HashAlgorithm.SHA2_256,
                               PublicKey := some ⟨some [0], PublicKeyDetails.PKIX_ECDSA_P256_SHA_256,
                                 some ⟨some 10, some 20⟩⟩,
                               LogId := some ⟨some [1]⟩ }],
              CertificateAuthorities := [Example.ca [[1], [2]]], Ctlogs := [],
              TimestampAuthorities :=
                [some { Subject := none, Uri := "", CertChain := some ⟨[Example.cert [3]]⟩,
                        ValidFor := some ⟨some 5, none⟩ }] }))
    = parsedParts (NewTrustedRootFromProtobuf Example.lib
      (Example.doc TrustedRootMediaType01 [Example.tlog (some [1]) [0]] [Example.ca [[1], [2]]]
        [Example.ca [[3]]])) :=
  C15_valid_for_not_read Example.lib _ _ (by decide)

/-! ## Keys the log loop accepts -/

/-- The body of the log loop succeeds on a log with SHA2-256, a present key ID, present raw
key bytes and `PKIX_ECDSA_P256_SHA_256` declared, whose key decodes to an ECDSA key that the
verifier library loads; the curve of the key is not looked at. -/
theorem ParseTlogVerifiers_body_complete (lib : Lib Certificate Verifier)
    (tlog : Option TransparencyLogInstance) (key : crypto.ECDSAPublicKey) (v : Verifier)
    (hhash : TransparencyLogInstance.GetHashAlgorithm tlog = HashAlgorithm.SHA2_256)
    (hkey : LogId.GetKeyId (TransparencyLogInstance.GetLogId tlog) ≠ none)
    (hraw : PublicKey.GetRawBytes (TransparencyLogInstance.GetPublicKey tlog) ≠ none)
    (hdetails : PublicKey.GetKeyDetails (TransparencyLogInstance.GetPublicKey tlog)
      = PublicKeyDetails.PKIX_ECDSA_P256_SHA_256)
    (hparse : lib.ParsePKIXPublicKey (rawKeyBytes tlog) = Except.ok (crypto.AnyPublicKey.ecdsa key))
    (hload : lib.LoadECDSAVerifier key crypto.Hash.SHA256 = Except.ok v) :
    ParseTlogVerifiers.body lib tlog = Except.ok (encodedKeyID tlog, v) := by
  have hlog : TransparencyLogInstance.GetLogId tlog ≠ none := by
    intro hn; apply hkey; rw [hn]; rfl
  have hpk : TransparencyLogInstance.GetPublicKey tlog ≠ none := by
    intro hn; apply hraw; rw [hn]; rfl
  have hv : ParseTlogVerifiers.ecdsaVerifier lib
      (Slice.elems (PublicKey.GetRawBytes (TransparencyLogInstance.GetPublicKey tlog)))
        = Except.ok v := by
    have hp : lib.ParsePKIXPublicKey
        (Slice.elems (PublicKey.GetRawBytes (TransparencyLogInstance.GetPublicKey tlog)))
          = Except.ok (crypto.AnyPublicKey.ecdsa key) := hparse
    simp [ParseTlogVerifiers.ecdsaVerifier, hp, hload]
  unfold ParseTlogVerifiers.body
  rw [if_neg (by simp [hhash]), if_neg (by simpa [Option.isNone_iff_eq_none] using hlog),
    if_neg (by simpa [Option.isNone_iff_eq_none] using hkey)]
  simp only []
  rw [if_neg (by simpa [Option.isNone_iff_eq_none] using hpk),
    if_neg (by simpa [Option.isNone_iff_eq_none] using hraw), hdetails]
  simp only [hv]
  rfl

/-- C16 (what the code does): a log that declares `PKIX_ECDSA_P256_SHA_256` is accepted
whenever its raw bytes decode to an ECDSA key that `LoadECDSAVerifier` loads, whatever the
curve of that key: the type assertion tests for `*ecdsa.PublicKey` only, and the verifier is
stored in the map. -/
theorem C16_curve_not_checked (lib : Lib Certificate Verifier)
    (tlog : Option TransparencyLogInstance) (key : crypto.ECDSAPublicKey) (v : Verifier)
    (hhash : TransparencyLogInstance.GetHashAlgorithm tlog = HashAlgorithm.SHA2_256)
    (hkey : LogId.GetKeyId (TransparencyLogInstance.GetLogId tlog) ≠ none)
    (hraw : PublicKey.GetRawBytes (TransparencyLogInstance.GetPublicKey tlog) ≠ none)
    (hdetails : PublicKey.GetKeyDetails (TransparencyLogInstance.GetPublicKey tlog)
      = PublicKeyDetails.PKIX_ECDSA_P256_SHA_256)
    (hparse : lib.ParsePKIXPublicKey (rawKeyBytes tlog) = Except.ok (crypto.AnyPublicKey.ecdsa key))
    (hload : lib.LoadECDSAVerifier key crypto.Hash.SHA256 = Except.ok v)
    (trustedRoot : prototrustroot.TrustedRoot) (htlogs : trustedRoot.Tlogs = [tlog]) :
    ParseTlogVerifiers lib (some trustedRoot)
      = (some (GoMap.empty.set (encodedKeyID tlog) v), none) := by
  have hb := ParseTlogVerifiers_body_complete lib tlog key v hhash hkey hraw hdetails hparse hload
  simp [ParseTlogVerifiers, TrustedRoot.GetTlogs, htlogs, ParseTlogVerifiers.loop, hb]

/-- C16 at a log whose key is an ECDSA key on P-384. -/
theorem C16_curve_not_checked_witness :
    Example.lib.ParsePKIXPublicKey [1, 9]
      = Except.ok (crypto.AnyPublicKey.ecdsa ⟨crypto.Curve.P384, 1, 1⟩)
    ∧ ParseTlogVerifiers Example.lib
        (Example.doc TrustedRootMediaType01 [Example.tlog (some [7]) [1, 9]] [] [])
      = (some ⟨[("07", (⟨crypto.Curve.P384, 1, 1⟩, crypto.Hash.SHA256))]⟩, none) :=
  ⟨rfl, C16_curve_not_checked Example.lib (Example.tlog (some [7]) [1, 9])
    ⟨crypto.Curve.P384, 1, 1⟩ (⟨crypto.Curve.P384, 1, 1⟩, crypto.Hash.SHA256)
    rfl (by decide) (by decide) rfl rfl rfl
    { MediaType := TrustedRootMediaType01, Tlogs := [Example.tlog (some [7]) [1, 9]],
      CertificateAuthorities := [], Ctlogs := [], TimestampAuthorities := [] } rfl⟩

/-- C7 (what the code does): the guard on the key ID tests for absence (`== nil`), not for
length. A log whose key ID is present with length 0, and which is otherwise valid (SHA2-256,
present raw key bytes, `PKIX_ECDSA_P256_SHA_256`, a key that decodes to an ECDSA key which
`LoadECDSAVerifier` loads), hex-encodes to the empty string; `ParseTlogVerifiers` returns no
error for the document holding it, and the returned map holds its verifier under `""`. -/
theorem C7_empty_key_id_accepted (lib : Lib Certificate Verifier)
    (tlog : Option TransparencyLogInstance) (key : crypto.ECDSAPublicKey) (v : Verifier)
    (hhash : TransparencyLogInstance.GetHashAlgorithm tlog = HashAlgorithm.SHA2_256)
    (hkey : LogId.GetKeyId (TransparencyLogInstance.GetLogId tlog) = some [])
    (hraw : PublicKey.GetRawBytes (TransparencyLogInstance.GetPublicKey tlog) ≠ none)
    (hdetails : PublicKey.GetKeyDetails (TransparencyLogInstance.GetPublicKey tlog)
      = PublicKeyDetails.PKIX_ECDSA_P256_SHA_256)
    (hparse : lib.ParsePKIXPublicKey (rawKeyBytes tlog) = Except.ok (crypto.AnyPublicKey.ecdsa key))
    (hload : lib.LoadECDSAVerifier key crypto.Hash.SHA256 = Except.ok v)
    (trustedRoot : prototrustroot.TrustedRoot) (htlogs : trustedRoot.Tlogs = [tlog]) :
    encodedKeyID tlog = ""
    ∧ ParseTlogVerifiers lib (some trustedRoot) = (some (GoMap.empty.set "" v), none)
    ∧ (GoMap.empty.set "" v).get? "" = some v := by
  have henc : encodedKeyID tlog = "" := by
    simp only [encodedKeyID, hkey, Slice.elems]
    rfl
  have hb := ParseTlogVerifiers_body_complete lib tlog key v hhash (by simp [hkey]) hraw
    hdetails hparse hload
  rw [henc] at hb
  refine ⟨henc, ?_, ?_⟩
  · simp [ParseTlogVerifiers, TrustedRoot.GetTlogs, htlogs, ParseTlogVerifiers.loop, hb]
  · simp [GoMap.set, GoMap.get?, GoMap.empty]

/-- C7 at a document whose one log has the key ID `[]byte{}` and a P-256 key. -/
theorem C7_empty_key_id_accepted_witness :
    LogId.GetKeyId (TransparencyLogInstance.GetLogId (Example.tlog (some []) [0])) = some []
    ∧ ParseTlogVerifiers Example.lib
        (Example.doc TrustedRootMediaType01 [Example.tlog (some []) [0]] [] [])
      = (some (GoMap.empty.set "" (⟨crypto.Curve.P256, 0, 1⟩, crypto.Hash.SHA256)), none) :=
  ⟨rfl, (C7_empty_key_id_accepted Example.lib (Example.tlog (some []) [0])
    ⟨crypto.Curve.P256, 0, 1⟩ (⟨crypto.Curve.P256, 0, 1⟩, crypto.Hash.SHA256)
    rfl rfl (by decide) rfl rfl rfl
    { MediaType := TrustedRootMediaType01, Tlogs := [Example.tlog (some []) [0]],
      CertificateAuthorities := [], Ctlogs := [], TimestampAuthorities := [] } rfl).2.1⟩

/-! ## Completeness -/

theorem ParseTlogVerifiers_loop_complete (lib : Lib Certificate Verifier) :
    ∀ (tlogs : List (Option TransparencyLogInstance)),
      (∀ t ∈ tlogs, ∃ kv, ParseTlogVerifiers.body lib t = Except.ok kv) →
      ∀ m : GoMap Verifier, ∃ m2, ParseTlogVerifiers.loop lib tlogs m = (some m2, none) := by
  intro tlogs
  induction tlogs with
  | nil => intro _ m; exact ⟨m, rfl⟩
  | cons t rest ih =>
    intro h m
    obtain ⟨kv, hkv⟩ := h t (List.mem_cons_self _ _)
    rw [ParseTlogVerifiers.loop, hkv]
    exact ih (fun u hu => h u (List.mem_cons_of_mem _ hu)) _

theorem ParseCertificateAuthority_loop_complete (lib : Lib Certificate Verifier)
    (chainLen : Nat) :
    ∀ (certs : List (Option X509Certificate)) (parsed : List Certificate),
      parsesTo lib certs parsed →
      ∀ (i : Nat) (st : Option Certificate × Slice (Option Certificate) × Option Certificate),
        ∃ r xs l, ParseCertificateAuthority.loop lib chainLen i certs st
          = Outcome.returns (r, xs, l, none) := by
  intro certs
  induction certs with
  | nil => rintro parsed _ i ⟨r, xs, l⟩; exact ⟨r, xs, l, rfl⟩
  | cons c rest ih =>
    rintro parsed hp i ⟨r, xs, l⟩
    cases parsed with
    | nil => simp [parsesTo, parseAll] at hp
    | cons p ps =>
      simp only [parsesTo, parseAll, List.map_cons, List.cons.injEq] at hp
      obtain ⟨hp0, hps⟩ := hp
      cases c with
      | none => simp at hp0
      | some c =>
        simp only [Option.map_some', Option.some.injEq] at hp0
        rw [ParseCertificateAuthority.loop]
        simp only [hp0]
        split
        · exact ih ps hps _ _
        · split
          · exact ih ps hps _ _
          · exact ih ps hps _ _

/-- An entry with a chain of at least one certificate, all of which parse, is accepted. -/
theorem ParseCertificateAuthority_complete (lib : Lib Certificate Verifier)
    (ca : Option prototrustroot.CertificateAuthority) (parsed : List Certificate)
    (hne : parsed ≠ [])
    (hp : parsesTo lib (X509CertificateChain.GetCertificates
      (CertificateAuthority.GetCertChain ca)) parsed) :
    ∃ r xs l, ParseCertificateAuthority lib ca = Outcome.returns (r, xs, l, none) := by
  have hlen : (X509CertificateChain.GetCertificates
      (CertificateAuthority.GetCertChain ca)).length = parsed.length := by
    have := congrArg List.length hp
    simpa [parseAll] using this
  have hpos : 0 < parsed.length := List.length_pos.mpr hne
  unfold ParseCertificateAuthority
  split
  · rename_i hnil
    rw [Option.isNone_iff_eq_none] at hnil
    subst hnil
    simp [CertificateAuthority.GetCertChain, X509CertificateChain.GetCertificates] at hlen
    omega
  · simp only []
    split
    · rename_i _ hnil
      rw [Option.isNone_iff_eq_none] at hnil
      rw [hnil] at hlen
      simp [X509CertificateChain.GetCertificates] at hlen
      omega
    · rw [if_neg (by omega)]
      exact ParseCertificateAuthority_loop_complete lib _ _ parsed hp _ _

theorem ParseCertificateAuthorities_loop_complete (lib : Lib Certificate Verifier) :
    ∀ (cas : List (Option prototrustroot.CertificateAuthority)),
      (∀ ca ∈ cas, ∃ r xs l, ParseCertificateAuthority lib ca
        = Outcome.returns (r, xs, l, none)) →
      ∀ (st : Slice (Option Certificate) × Slice (Option Certificate) ×
          Slice (Option Certificate)),
        ∃ r xs l, ParseCertificateAuthorities.loop lib cas st
          = Outcome.returns (r, xs, l, none) := by
  intro cas
  induction cas with
  | nil => rintro _ ⟨r, xs, l⟩; exact ⟨r, xs, l, rfl⟩
  | cons c rest ih =>
    rintro h ⟨roots, ints, leafs⟩
    obtain ⟨r, xs, l, hc⟩ := h c (List.mem_cons_self _ _)
    rw [ParseCertificateAuthorities.loop, hc]
    exact ih (fun u hu => h u (List.mem_cons_of_mem _ hu)) _

theorem NewTrustedRootFromProtobuf_loop_complete (lib : Lib Certificate Verifier) :
    ∀ (tsas : List (Option prototrustroot.CertificateAuthority)),
      (∀ ca ∈ tsas, ∃ r xs l, ParseCertificateAuthority lib ca
        = Outcome.returns (r, xs, l, none)) →
      ∀ (st : root.TrustedRoot Certificate Verifier),
        ∃ t, NewTrustedRootFromProtobuf.loop lib tsas st = Outcome.returns (some t, none) := by
  intro tsas
  induction tsas with
  | nil => intro _ st; exact ⟨st, rfl⟩
  | cons c rest ih =>
    intro h st
    obtain ⟨r, xs, l, hc⟩ := h c (List.mem_cons_self _ _)
    rw [NewTrustedRootFromProtobuf.loop, hc]
    exact ih (fun u hu => h u (List.mem_cons_of_mem _ hu)) _

/-- C18: a document with the supported media type, whose logs all have SHA2-256, a present
log ID with a present key ID, a present public key with present raw bytes,
`PKIX_ECDSA_P256_SHA_256` and raw bytes that decode to an ECDSA key (which the verifier
library loads), and whose certificate-authority and timestamp-authority entries all have a
chain of at least one certificate that all parse, is accepted; and a document with the
supported media type and no logs and no authorities yields an empty verifier map, no roots,
no intermediates and no timestamp authorities. -/
theorem C18_parser_complete (lib : Lib Certificate Verifier)
    (trustedRoot : Option prototrustroot.TrustedRoot)
    (hmedia : TrustedRoot.GetMediaType trustedRoot = TrustedRootMediaType01)
    (htlogs : ∀ tlog ∈ TrustedRoot.GetTlogs trustedRoot,
      TransparencyLogInstance.GetHashAlgorithm tlog = HashAlgorithm.SHA2_256
      ∧ TransparencyLogInstance.GetLogId tlog ≠ none
      ∧ LogId.GetKeyId (TransparencyLogInstance.GetLogId tlog) ≠ none
      ∧ TransparencyLogInstance.GetPublicKey tlog ≠ none
      ∧ PublicKey.GetRawBytes (TransparencyLogInstance.GetPublicKey tlog) ≠ none
      ∧ PublicKey.GetKeyDetails (TransparencyLogInstance.GetPublicKey tlog)
          = PublicKeyDetails.PKIX_ECDSA_P256_SHA_256
      ∧ ∃ key v, lib.ParsePKIXPublicKey (rawKeyBytes tlog)
            = Except.ok (crypto.AnyPublicKey.ecdsa key)
          ∧ lib.LoadECDSAVerifier key crypto.Hash.SHA256 = Except.ok v)
    (hcas : ∀ ca, (ca ∈ TrustedRoot.GetCertificateAuthorities trustedRoot
        ∨ ca ∈ TrustedRoot.GetTimestampAuthorities trustedRoot) →
      ∃ parsed : List Certificate, parsed ≠ []
        ∧ parsesTo lib (X509CertificateChain.GetCertificates
            (CertificateAuthority.GetCertChain ca)) parsed) :
    (∃ t, NewTrustedRootFromProtobuf lib trustedRoot = Outcome.returns (some t, none))
    ∧ ∀ ctlogs : List (Option TransparencyLogInstance),
        NewTrustedRootFromProtobuf lib
          (some { MediaType := TrustedRootMediaType01, Tlogs := [],
                  CertificateAuthorities := [], Ctlogs := ctlogs, TimestampAuthorities := [] })
        = Outcome.returns
            (some { trustedRoot :=
                      some { MediaType := TrustedRootMediaType01, Tlogs := [],
                             CertificateAuthorities := [], Ctlogs := ctlogs,
                             TimestampAuthorities := [] }
                    tlogVerifiers := some GoMap.empty
                    rootCerts := some []
                    intermediateCerts := some []
                    tsaCertAuthorities := none }, none) := by
  constructor
  · obtain ⟨m, hm⟩ := ParseTlogVerifiers_loop_complete lib
      (TrustedRoot.GetTlogs trustedRoot) (by
        intro t ht
        obtain ⟨h1, _, h3, _, h5, h6, key, v, h7, h8⟩ := htlogs t ht
        exact ⟨_, ParseTlogVerifiers_body_complete lib t key v h1 h3 h5 h6 h7 h8⟩)
      GoMap.empty
    have hca : ∀ ca, (ca ∈ TrustedRoot.GetCertificateAuthorities trustedRoot
        ∨ ca ∈ TrustedRoot.GetTimestampAuthorities trustedRoot) →
        ∃ r xs l, ParseCertificateAuthority lib ca = Outcome.returns (r, xs, l, none) := by
      intro ca hmem
      obtain ⟨parsed, hne, hp⟩ := hcas ca hmem
      exact ParseCertificateAuthority_complete lib ca parsed hne hp
    obtain ⟨r, xs, l, hc⟩ := ParseCertificateAuthorities_loop_complete lib
      (TrustedRoot.GetCertificateAuthorities trustedRoot) (fun ca h => hca ca (Or.inl h))
      (some [], some [], some [])
    have hm2 : ParseTlogVerifiers lib trustedRoot = (some m, none) := hm
    have hc2 : ParseCertificateAuthorities lib
        (TrustedRoot.GetCertificateAuthorities trustedRoot)
          = Outcome.returns (r, xs, l, none) := hc
    unfold NewTrustedRootFromProtobuf
    rw [if_neg (by simp [hmedia]), hm2, hc2]
    exact NewTrustedRootFromProtobuf_loop_complete lib _ (fun ca h => hca ca (Or.inr h)) _
  · intro ctlogs
    rfl

/-- C18 at a document with one log, one certificate authority of one certificate and one
timestamp authority of three. -/
theorem C18_parser_complete_witness :
    ∃ t, NewTrustedRootFromProtobuf Example.lib
      (Example.doc TrustedRootMediaType01 [Example.tlog (some [1]) [0, 2]] [Example.ca [[1]]]
        [Example.ca [[3], [4], [5]]]) = Outcome.returns (some t, none) :=
  (C18_parser_complete Example.lib
    (Example.doc TrustedRootMediaType01 [Example.tlog (some [1]) [0, 2]] [Example.ca [[1]]]
      [Example.ca [[3], [4], [5]]]) rfl
    (by
      intro tlog h
      have ht : tlog = Example.tlog (some [1]) [0, 2] := by
        simpa [Example.doc, TrustedRoot.GetTlogs] using h
      subst ht
      exact ⟨rfl, by decide, by decide, by decide, by decide, rfl,
        ⟨crypto.Curve.P256, 1, 1⟩, (⟨crypto.Curve.P256, 1, 1⟩, crypto.Hash.SHA256), rfl, rfl⟩)
    (by
      intro ca h
      have hc : ca = Example.ca [[1]] ∨ ca = Example.ca [[3], [4], [5]] := by
        simpa [Example.doc, TrustedRoot.GetCertificateAuthorities,
          TrustedRoot.GetTimestampAuthorities] using h
      rcases hc with hc | hc
      · subst hc; exact ⟨[[1]], by decide, rfl⟩
      · subst hc; exact ⟨[[3], [4], [5]], by decide, rfl⟩)).1

/-! ## `GetDefaultOptions` -/

theorem Heap_get_append (cells news : List Object) (k : Nat) :
    Heap.get ⟨cells ++ news⟩ (cells.length + k) = news[k]? := by
  simp [Heap.get, List.getElem?_append_right]

theorem Heap_get_append_zero (cells news : List Object) :
    Heap.get ⟨cells ++ news⟩ cells.length = news[0]? :=
  Heap_get_append cells news 0

/-- The call appends four objects and returns the address of the last one. -/
theorem GetDefaultOptions_eq (cells : List Object) :
    GetDefaultOptions ⟨cells⟩
      = (cells.length + 3,
          ⟨cells ++
            [Object.tlogOptions
                { Threshold := 1, PerformOnlineVerification := false, Disable := false },
              Object.ctlogOptions { Threshold := 1, DetachedSct := false, Disable := false },
              Object.tsaOptions { Threshold := 0, Disable := true },
              Object.options none (some cells.length) (some (cells.length + 1))
                (some (cells.length + 2))]⟩) := by
  simp [GetDefaultOptions, Heap.new]

/-- Read through the returned pointer, the four objects are the default policy, whatever the
older objects are. -/
theorem optionsAt_default (cells : List Object) (n : Nat) (hn : cells.length = n) :
    Heap.optionsAt
        ⟨cells ++
          [Object.tlogOptions
              { Threshold := 1, PerformOnlineVerification := false, Disable := false },
            Object.ctlogOptions { Threshold := 1, DetachedSct := false, Disable := false },
            Object.tsaOptions { Threshold := 0, Disable := true },
            Object.options none (some n) (some (n + 1)) (some (n + 2))]⟩ (n + 3)
      = some { Signers := none
               TlogOptions := some
                 { Threshold := 1, PerformOnlineVerification := false, Disable := false }
               CtlogOptions := some { Threshold := 1, DetachedSct := false, Disable := false }
               TsaOptions := some { Threshold := 0, Disable := true } } := by
  subst hn
  have h0 := Heap_get_append_zero cells
    [Object.tlogOptions { Threshold := 1, PerformOnlineVerification := false, Disable := false },
      Object.ctlogOptions { Threshold := 1, DetachedSct := false, Disable := false },
      Object.tsaOptions { Threshold := 0, Disable := true },
      Object.options none (some cells.length) (some (cells.length + 1))
        (some (cells.length + 2))]
  have hk := Heap_get_append cells
    [Object.tlogOptions { Threshold := 1, PerformOnlineVerification := false, Disable := false },
      Object.ctlogOptions { Threshold := 1, DetachedSct := false, Disable := false },
      Object.tsaOptions { Threshold := 0, Disable := true },
      Object.options none (some cells.length) (some (cells.length + 1))
        (some (cells.length + 2))]
  have h1 := hk 1
  have h2 := hk 2
  have h3 := hk 3
  simp only [List.getElem?_cons_succ, List.getElem?_cons_zero] at h0 h1 h2 h3
  simp only [Heap.optionsAt, h3, Heap.tlogOptionsAt, Heap.ctlogOptionsAt, Heap.tsaOptionsAt,
    h0, h1, h2]

/-- C19: whatever objects exist, `GetDefaultOptions` returns a pointer to the same policy: no
signers, transparency-log checking enabled with threshold 1 and online verification off,
CT-log checking enabled with threshold 1 and detached SCT off, timestamp-authority checking
disabled with threshold 0. The call changes no existing object, the returned pointer is new,
and a later write to any object that existed before the call (such as an options object
returned earlier) leaves what the new pointer denotes unchanged. -/
theorem C19_default_options (h : Heap) :
    (GetDefaultOptions h).2.optionsAt (GetDefaultOptions h).1
      = some { Signers := none
               TlogOptions := some
                 { Threshold := 1, PerformOnlineVerification := false, Disable := false }
               CtlogOptions := some { Threshold := 1, DetachedSct := false, Disable := false }
               TsaOptions := some { Threshold := 0, Disable := true } }
    ∧ h.cells.length ≤ (GetDefaultOptions h).1
    ∧ h.get (GetDefaultOptions h).1 = none
    ∧ (∀ a, a < h.cells.length → (GetDefaultOptions h).2.get a = h.get a)
    ∧ (∀ a o, a < h.cells.length →
        ((GetDefaultOptions h).2.put a o).optionsAt (GetDefaultOptions h).1
          = (GetDefaultOptions h).2.optionsAt (GetDefaultOptions h).1) := by
  obtain ⟨cells⟩ := h
  rw [GetDefaultOptions_eq]
  refine ⟨optionsAt_default cells _ rfl, ?_, ?_, ?_, ?_⟩
  · simp
  · simp [Heap.get]
  · intro a ha
    simp only [] at ha
    simp [Heap.get, List.getElem?_append, ha]
  · intro a o ha
    simp only [] at ha
    simp only [Heap.put]
    rw [List.set_append_left _ _ ha, optionsAt_default cells _ rfl]
    exact optionsAt_default (cells.set a o) _ (by simp)

/-! ## The runs of `main` -/

section Cli

open cmd protoverification

variable {Bundle TR SEV : Type}

theorem main_load_error (env : Env Bundle TR SEV) (flags : Flags) (args : List String)
    (err : Error) (hload : env.LoadJSONFromPath (Arg args 0) = Except.error err) :
    main env flags args
      = ⟨[Event.LoadJSONFromPath (Arg args 0), Event.Print (Output.error err)],
          Status.exit 1⟩ := by
  simp [main, hload]

theorem main_gate_fail (env : Env Bundle TR SEV) (flags : Flags) (args : List String)
    (b : Bundle) (hload : env.LoadJSONFromPath (Arg args 0) = Except.ok b)
    (hmin : flags.minBundleVersion ≠ "")
    (hfail : env.MinVersion b flags.minBundleVersion = false) :
    main env flags args
      = ⟨[Event.LoadJSONFromPath (Arg args 0), Event.MinVersion b flags.minBundleVersion,
          Event.Print (Output.notMinVersion flags.minBundleVersion)], Status.exit 1⟩ := by
  simp [main, hload, hmin, hfail]

theorem main_opts_nil (env : Env Bundle TR SEV) (flags : Flags) (args : List String)
    (b : Bundle) (hload : env.LoadJSONFromPath (Arg args 0) = Except.ok b)
    (hgate : flags.minBundleVersion = "" ∨ env.MinVersion b flags.minBundleVersion = true)
    (hopts : main.opts env flags = none) :
    main env flags args
      = ⟨Event.LoadJSONFromPath (Arg args 0) :: main.gateEvents flags b
          ++ [Event.GetDefaultOptions], Status.panic⟩ := by
  have hg : ¬ (flags.minBundleVersion ≠ "" ∧ env.MinVersion b flags.minBundleVersion = false) := by
    rintro ⟨h1, h2⟩
    rcases hgate with h | h
    · exact h1 h
    · rw [h] at h2; cases h2
  simp only [main, hload, if_neg hg, hopts]

theorem main_source_error (env : Env Bundle TR SEV) (flags : Flags) (args : List String)
    (b : Bundle) (opts : ArtifactVerificationOptions) (err : Error)
    (hload : env.LoadJSONFromPath (Arg args 0) = Except.ok b)
    (hgate : flags.minBundleVersion = "" ∨ env.MinVersion b flags.minBundleVersion = true)
    (hopts : main.opts env flags = some opts)
    (hsrc : (main.trustedrootJSON env flags).2 = Except.error err) :
    main env flags args
      = ⟨Event.LoadJSONFromPath (Arg args 0) :: main.gateEvents flags b
          ++ main.optsEvents flags ++ (main.trustedrootJSON env flags).1
          ++ [Event.Print (Output.error err)], Status.exit 1⟩ := by
  have hg : ¬ (flags.minBundleVersion ≠ "" ∧ env.MinVersion b flags.minBundleVersion = false) := by
    rintro ⟨h1, h2⟩
    rcases hgate with h | h
    · exact h1 h
    · rw [h] at h2; cases h2
  rcases hs : main.trustedrootJSON env flags with ⟨source, res⟩
  rw [hs] at hsrc
  simp only at hsrc
  subst hsrc
  simp only [main, hload, if_neg hg, hopts, hs]

theorem main_parse_error (env : Env Bundle TR SEV) (flags : Flags) (args : List String)
    (b : Bundle) (opts : ArtifactVerificationOptions) (json : GoBytes) (err : Error)
    (hload : env.LoadJSONFromPath (Arg args 0) = Except.ok b)
    (hgate : flags.minBundleVersion = "" ∨ env.MinVersion b flags.minBundleVersion = true)
    (hopts : main.opts env flags = some opts)
    (hsrc : (main.trustedrootJSON env flags).2 = Except.ok json)
    (hparse : env.NewTrustedRootFromJSON json = Except.error err) :
    main env flags args
      = ⟨Event.LoadJSONFromPath (Arg args 0) :: main.gateEvents flags b
          ++ main.optsEvents flags ++ (main.trustedrootJSON env flags).1
          ++ [Event.NewTrustedRootFromJSON json, Event.Print (Output.error err)],
          Status.exit 1⟩ := by
  have hg : ¬ (flags.minBundleVersion ≠ "" ∧ env.MinVersion b flags.minBundleVersion = false) := by
    rintro ⟨h1, h2⟩
    rcases hgate with h | h
    · exact h1 h
    · rw [h] at h2; cases h2
  rcases hs : main.trustedrootJSON env flags with ⟨source, res⟩
  rw [hs] at hsrc
  simp only at hsrc
  subst hsrc
  simp only [main, hload, if_neg hg, hopts, hs, hparse]

theorem main_verify_error (env : Env Bundle TR SEV) (flags : Flags) (args : List String)
    (b : Bundle) (opts : ArtifactVerificationOptions) (json : GoBytes) (tr : TR) (err : Error)
    (hload : env.LoadJSONFromPath (Arg args 0) = Except.ok b)
    (hgate : flags.minBundleVersion = "" ∨ env.MinVersion b flags.minBundleVersion = true)
    (hopts : main.opts env flags = some opts)
    (hsrc : (main.trustedrootJSON env flags).2 = Except.ok json)
    (hparse : env.NewTrustedRootFromJSON json = Except.ok tr)
    (hverify : env.Verify (env.NewVerifier tr opts) b = some err) :
    main env flags args
      = ⟨Event.LoadJSONFromPath (Arg args 0) :: main.gateEvents flags b
          ++ main.optsEvents flags ++ (main.trustedrootJSON env flags).1
          ++ [Event.NewTrustedRootFromJSON json, Event.NewVerifier tr opts, Event.Verify b,
              Event.Print (Output.error err)], Status.exit 1⟩ := by
  have hg : ¬ (flags.minBundleVersion ≠ "" ∧ env.MinVersion b flags.minBundleVersion = false) := by
    rintro ⟨h1, h2⟩
    rcases hgate with h | h
    · exact h1 h
    · rw [h] at h2; cases h2
  rcases hs : main.trustedrootJSON env flags with ⟨source, res⟩
  rw [hs] at hsrc
  simp only at hsrc
  subst hsrc
  simp only [main, hload, if_neg hg, hopts, hs, hparse, hverify]

theorem main_success (env : Env Bundle TR SEV) (flags : Flags) (args : List String)
    (b : Bundle) (opts : ArtifactVerificationOptions) (json : GoBytes) (tr : TR)
    (hload : env.LoadJSONFromPath (Arg args 0) = Except.ok b)
    (hgate : flags.minBundleVersion = "" ∨ env.MinVersion b flags.minBundleVersion = true)
    (hopts : main.opts env flags = some opts)
    (hsrc : (main.trustedrootJSON env flags).2 = Except.ok json)
    (hparse : env.NewTrustedRootFromJSON json = Except.ok tr)
    (hverify : env.Verify (env.NewVerifier tr opts) b = none) :
    main env flags args
      = ⟨Event.LoadJSONFromPath (Arg args 0) :: main.gateEvents flags b
          ++ main.optsEvents flags ++ (main.trustedrootJSON env flags).1
          ++ [Event.NewTrustedRootFromJSON json, Event.NewVerifier tr opts, Event.Verify b,
              Event.Print Output.success], Status.exit 0⟩ := by
  have hg : ¬ (flags.minBundleVersion ≠ "" ∧ env.MinVersion b flags.minBundleVersion = false) := by
    rintro ⟨h1, h2⟩
    rcases hgate with h | h
    · exact h1 h
    · rw [h] at h2; cases h2
  rcases hs : main.trustedrootJSON env flags with ⟨source, res⟩
  rw [hs] at hsrc
  simp only at hsrc
  subst hsrc
  simp only [main, hload, if_neg hg, hopts, hs, hparse, hverify]

/-! ### The events of each step -/

theorem mem_gateEvents (flags : Flags) (b : Bundle) (e : Event Bundle TR) :
    e ∈ main.gateEvents flags b
      ↔ flags.minBundleVersion ≠ "" ∧ e = Event.MinVersion b flags.minBundleVersion := by
  unfold main.gateEvents
  split <;> simp_all

theorem mem_optsEvents (flags : Flags) (e : Event Bundle TR) :
    e ∈ main.optsEvents flags
      ↔ e = Event.GetDefaultOptions
        ∨ (flags.expectedOIDC ≠ "" ∧ e = Event.SetExpectedOIDC flags.expectedOIDC)
        ∨ (flags.expectedSAN ≠ "" ∧ e = Event.SetExpectedSAN flags.expectedSAN) := by
  unfold main.optsEvents
  by_cases h1 : flags.expectedOIDC = "" <;> by_cases h2 : flags.expectedSAN = "" <;>
    simp [h1, h2]

theorem mem_sourceEvents (env : Env Bundle TR SEV) (flags : Flags) (e : Event Bundle TR) :
    e ∈ (main.trustedrootJSON env flags).1
      ↔ (flags.tufRootURL ≠ ""
          ∧ e = Event.GetTrustedrootJSON flags.tufRootURL flags.tufDirectory)
        ∨ (flags.tufRootURL = "" ∧ flags.trustedrootJSONpath ≠ ""
          ∧ e = Event.ReadFile flags.trustedrootJSONpath) := by
  unfold main.trustedrootJSON
  by_cases h1 : flags.tufRootURL = "" <;> by_cases h2 : flags.trustedrootJSONpath = "" <;>
    simp [h1, h2]

theorem step_gateEvents (flags : Flags) (b : Bundle) (e : Event Bundle TR)
    (he : e ∈ main.gateEvents flags b) : e.step = 2 := by
  rw [mem_gateEvents] at he
  rw [he.2]; rfl

theorem step_optsEvents (flags : Flags) (e : Event Bundle TR)
    (he : e ∈ main.optsEvents flags) : e.step = 3 := by
  rw [mem_optsEvents] at he
  rcases he with he | ⟨_, he⟩ | ⟨_, he⟩ <;> rw [he] <;> rfl

theorem step_sourceEvents (env : Env Bundle TR SEV) (flags : Flags) (e : Event Bundle TR)
    (he : e ∈ (main.trustedrootJSON env flags).1) : e.step = 4 := by
  rw [mem_sourceEvents] at he
  rcases he with ⟨_, he⟩ | ⟨_, _, he⟩ <;> rw [he] <;> rfl

/-- The events of the first four steps have step at most 4. -/
theorem step_first_four (env : Env Bundle TR SEV) (flags : Flags) (path : String) (b : Bundle)
    (e : Event Bundle TR)
    (he : e ∈ Event.LoadJSONFromPath path :: main.gateEvents flags b
      ++ main.optsEvents flags ++ (main.trustedrootJSON env flags).1) : e.step ≤ 4 := by
  simp only [List.mem_append, List.mem_cons] at he
  rcases he with ((he | he) | he) | he
  · rw [he]; simp [Event.step]
  · rw [step_gateEvents flags b e he]; omega
  · rw [step_optsEvents flags e he]; omega
  · rw [step_sourceEvents env flags e he]

/-- The bytes the selected source gives: the TUF client when `tufRootURL` is set, else the
file when `trustedrootJSONpath` is set, else the nil slice. -/
theorem source_result (env : Env Bundle TR SEV) (flags : Flags) (json : GoBytes) :
    (main.trustedrootJSON env flags).2 = Except.ok json
      ↔ (flags.tufRootURL ≠ ""
          ∧ env.GetTrustedrootJSON flags.tufRootURL flags.tufDirectory = Except.ok json)
        ∨ (flags.tufRootURL = "" ∧ flags.trustedrootJSONpath ≠ ""
          ∧ env.ReadFile flags.trustedrootJSONpath = Except.ok json)
        ∨ (flags.tufRootURL = "" ∧ flags.trustedrootJSONpath = "" ∧ json = none) := by
  unfold main.trustedrootJSON
  by_cases h1 : flags.tufRootURL = "" <;> by_cases h2 : flags.trustedrootJSONpath = "" <;>
    simp [h1, h2, eq_comm]

/-- The options are built whenever the default options have both option messages set. -/
theorem opts_of_defaults (env : Env Bundle TR SEV) (flags : Flags)
    (tsa : ArtifactVerificationOptions_TimestampAuthorityOptions)
    (tlog : ArtifactVerificationOptions_TlogOptions)
    (htsa : env.GetDefaultOptions.TsaOptions = some tsa)
    (htlog : env.GetDefaultOptions.TlogOptions = some tlog) :
    main.opts env flags
      = some
        (if flags.expectedSAN ≠ "" then
          env.SetExpectedSAN
            (if flags.expectedOIDC ≠ "" then
              env.SetExpectedOIDC
                { Signers := env.GetDefaultOptions.Signers
                  TlogOptions := some
                    { Threshold := tlog.Threshold
                      PerformOnlineVerification := flags.onlineTlog
                      Disable := !flags.requireTlog }
                  CtlogOptions := env.GetDefaultOptions.CtlogOptions
                  TsaOptions := some
                    { Threshold := tsa.Threshold, Disable := !flags.requireTSA } }
                flags.expectedOIDC
            else
              { Signers := env.GetDefaultOptions.Signers
                TlogOptions := some
                  { Threshold := tlog.Threshold
                    PerformOnlineVerification := flags.onlineTlog
                    Disable := !flags.requireTlog }
                CtlogOptions := env.GetDefaultOptions.CtlogOptions
                TsaOptions := some
                  { Threshold := tsa.Threshold, Disable := !flags.requireTSA } })
            flags.expectedSAN
        else
          (if flags.expectedOIDC ≠ "" then
            env.SetExpectedOIDC
              { Signers := env.GetDefaultOptions.Signers
                TlogOptions := some
                  { Threshold := tlog.Threshold
                    PerformOnlineVerification := flags.onlineTlog
                    Disable := !flags.requireTlog }
                CtlogOptions := env.GetDefaultOptions.CtlogOptions
                TsaOptions := some
                  { Threshold := tsa.Threshold, Disable := !flags.requireTSA } }
              flags.expectedOIDC
          else
            { Signers := env.GetDefaultOptions.Signers
              TlogOptions := some
                { Threshold := tlog.Threshold
                  PerformOnlineVerification := flags.onlineTlog
                  Disable := !flags.requireTlog }
              CtlogOptions := env.GetDefaultOptions.CtlogOptions
              TsaOptions := some
                { Threshold := tsa.Threshold, Disable := !flags.requireTSA } })) := by
  simp only [main.opts, htsa, htlog]

theorem opts_isSome_iff (env : Env Bundle TR SEV) (flags : Flags) :
    (∃ opts, main.opts env flags = some opts)
      ↔ env.GetDefaultOptions.TsaOptions ≠ none ∧ env.GetDefaultOptions.TlogOptions ≠ none := by
  constructor
  · rintro ⟨opts, h⟩
    unfold main.opts at h
    cases h1 : env.GetDefaultOptions.TsaOptions with
    | none => simp [h1] at h
    | some tsa =>
      cases h2 : env.GetDefaultOptions.TlogOptions with
      | none => simp [h1, h2] at h
      | some tlog => simp
  · rintro ⟨h1, h2⟩
    obtain ⟨tsa, htsa⟩ := Option.ne_none_iff_exists'.mp h1
    obtain ⟨tlog, htlog⟩ := Option.ne_none_iff_exists'.mp h2
    exact ⟨_, opts_of_defaults env flags tsa tlog htsa htlog⟩

/-- The seven ways a run of `main` can go. -/
theorem main_cases (env : Env Bundle TR SEV) (flags : Flags) (args : List String) :
    (∃ err, env.LoadJSONFromPath (Arg args 0) = Except.error err)
    ∨ (∃ b, env.LoadJSONFromPath (Arg args 0) = Except.ok b
        ∧ flags.minBundleVersion ≠ "" ∧ env.MinVersion b flags.minBundleVersion = false)
    ∨ (∃ b, env.LoadJSONFromPath (Arg args 0) = Except.ok b
        ∧ (flags.minBundleVersion = "" ∨ env.MinVersion b flags.minBundleVersion = true)
        ∧ (main.opts env flags = none
          ∨ ∃ opts, main.opts env flags = some opts
            ∧ ((∃ err, (main.trustedrootJSON env flags).2 = Except.error err)
              ∨ ∃ json, (main.trustedrootJSON env flags).2 = Except.ok json
                ∧ ((∃ err, env.NewTrustedRootFromJSON json = Except.error err)
                  ∨ ∃ tr, env.NewTrustedRootFromJSON json = Except.ok tr
                    ∧ ((∃ err, env.Verify (env.NewVerifier tr opts) b = some err)
                      ∨ env.Verify (env.NewVerifier tr opts) b = none))))) := by
  cases hl : env.LoadJSONFromPath (Arg args 0) with
  | error err => exact Or.inl ⟨err, rfl⟩
  | ok b =>
    right
    by_cases hmin : flags.minBundleVersion = ""
    · right
      refine ⟨b, rfl, Or.inl hmin, ?_⟩
      cases ho : main.opts env flags with
      | none => exact Or.inl rfl
      | some opts =>
        refine Or.inr ⟨opts, rfl, ?_⟩
        cases hs : (main.trustedrootJSON env flags).2 with
        | error err => exact Or.inl ⟨err, rfl⟩
        | ok json =>
          refine Or.inr ⟨json, rfl, ?_⟩
          cases hp : env.NewTrustedRootFromJSON json with
          | error err => exact Or.inl ⟨err, rfl⟩
          | ok tr =>
            refine Or.inr ⟨tr, rfl, ?_⟩
            cases hv : env.Verify (env.NewVerifier tr opts) b with
            | none => exact Or.inr rfl
            | some err => exact Or.inl ⟨err, rfl⟩
    · cases hv : env.MinVersion b flags.minBundleVersion with
      | false => exact Or.inl ⟨b, rfl, hmin, hv⟩
      | true =>
        right
        refine ⟨b, rfl, Or.inr hv, ?_⟩
        cases ho : main.opts env flags with
        | none => exact Or.inl rfl
        | some opts =>
          refine Or.inr ⟨opts, rfl, ?_⟩
          cases hs : (main.trustedrootJSON env flags).2 with
          | error err => exact Or.inl ⟨err, rfl⟩
          | ok json =>
            refine Or.inr ⟨json, rfl, ?_⟩
            cases hp : env.NewTrustedRootFromJSON json with
            | error err => exact Or.inl ⟨err, rfl⟩
            | ok tr =>
              refine Or.inr ⟨tr, rfl, ?_⟩
              cases hv2 : env.Verify (env.NewVerifier tr opts) b with
              | none => exact Or.inr rfl
              | some err => exact Or.inl ⟨err, rfl⟩

end Cli

/-! ## Claims C12, C13, C14, C17 and C20 -/

section CliClaims

open cmd protoverification

variable {Bundle TR SEV : Type}

/-- C12 (what the code does): `main` reads `flag.Arg(0)` only, so the run with the paths
`path :: others` is the run with `path` alone; with a first bundle that verifies and a
second that does not, the program prints the confirmation and exits with code 0 without
loading the second, although on the second alone it exits with code 1. -/
theorem C12_only_first_bundle_verified :
    (∀ (env : Env Bundle TR SEV) (flags : Flags) (path : String) (others : List String),
      program env flags (path :: others) = program env flags [path])
    ∧ (program Example.env Flags.defaults ["good.json", "tampered.json"]).status
        = Status.exit 0
    ∧ Event.Print Output.success
        ∈ (program Example.env Flags.defaults ["good.json", "tampered.json"]).trace
    ∧ Event.LoadJSONFromPath "tampered.json"
        ∉ (program Example.env Flags.defaults ["good.json", "tampered.json"]).trace
    ∧ Event.Verify "tampered.json"
        ∉ (program Example.env Flags.defaults ["good.json", "tampered.json"]).trace
    ∧ (program Example.env Flags.defaults ["tampered.json"]).status = Status.exit 1 := by
  refine ⟨fun env flags path others => rfl, ?_, ?_, ?_, ?_, ?_⟩ <;> decide

/-- C13: when a non-empty minimum bundle version is given and the loaded bundle does not
satisfy `MinVersion` of it, the run is: load the bundle, call `MinVersion`, print the reason,
exit with code 1; no trust root is fetched, read or parsed and no verifier is constructed or
invoked. When the minimum version is the empty string, `MinVersion` is never called. -/
theorem C13_min_version_gate (env : Env Bundle TR SEV) (flags : Flags) (args : List String)
    (b : Bundle) (hload : env.LoadJSONFromPath (Arg args 0) = Except.ok b) :
    (flags.minBundleVersion ≠ "" → env.MinVersion b flags.minBundleVersion = false →
      main env flags args
        = ⟨[Event.LoadJSONFromPath (Arg args 0), Event.MinVersion b flags.minBundleVersion,
            Event.Print (Output.notMinVersion flags.minBundleVersion)], Status.exit 1⟩
      ∧ ∀ e ∈ (main env flags args).trace, e.step ≤ 2)
    ∧ (flags.minBundleVersion = "" →
      ∀ (b2 : Bundle) (version : String),
        Event.MinVersion b2 version ∉ (main env flags args).trace) := by
  constructor
  · intro hmin hfail
    have hr := main_gate_fail env flags args b hload hmin hfail
    refine ⟨hr, ?_⟩
    rw [hr]
    intro e he
    simp only [List.mem_cons, List.mem_singleton, List.not_mem_nil, or_false] at he
    rcases he with he | he | he <;> subst he <;> simp [Event.step]
  · intro hmin b2 version
    rcases main_cases env flags args with ⟨err, h⟩ | ⟨b1, _, hne, _⟩ |
      ⟨b1, hl, hg, ho | ⟨opts, ho, ⟨err, hs⟩ | ⟨json, hs, ⟨err, hp⟩ | ⟨tr, hp, ⟨err, hv⟩ | hv⟩⟩⟩⟩
    · rw [h] at hload; cases hload
    · exact absurd hmin hne
    · rw [main_opts_nil env flags args b1 hl hg ho]
      simp [mem_gateEvents, hmin]
    · rw [main_source_error env flags args b1 opts err hl hg ho hs]
      simp [mem_gateEvents, mem_optsEvents, mem_sourceEvents, hmin]
    · rw [main_parse_error env flags args b1 opts json err hl hg ho hs hp]
      simp [mem_gateEvents, mem_optsEvents, mem_sourceEvents, hmin]
    · rw [main_verify_error env flags args b1 opts json tr err hl hg ho hs hp hv]
      simp [mem_gateEvents, mem_optsEvents, mem_sourceEvents, hmin]
    · rw [main_success env flags args b1 opts json tr hl hg ho hs hp hv]
      simp [mem_gateEvents, mem_optsEvents, mem_sourceEvents, hmin]

/-- C13 at minimum version 0.3 against a bundle of version 0.1. -/
theorem C13_min_version_gate_witness :
    main Example.env { Flags.defaults with minBundleVersion := "0.3" } ["good.json"]
      = ⟨[Event.LoadJSONFromPath "good.json", Event.MinVersion "good.json" "0.3",
          Event.Print (Output.notMinVersion "0.3")], Status.exit 1⟩ :=
  ((C13_min_version_gate Example.env { Flags.defaults with minBundleVersion := "0.3" }
    ["good.json"] "good.json" rfl).1 (by decide) rfl).1

/-- C14: with default options whose `TsaOptions` and `TlogOptions` are set, `main` ends with
exit code 0 or 1; it prints the confirmation exactly when it ends with code 0, and it ends
with code 0 exactly when loading the bundle, the minimum-version gate (when given), obtaining
the trust-root bytes, parsing the trust root and `Verify` all succeeded. When one of these
fails, the run ends with code 1, its last event is the print of that reason, and no event of
a later step occurs. -/
theorem C14_exit_status (env : Env Bundle TR SEV) (flags : Flags) (args : List String)
    (hdef : env.GetDefaultOptions.TsaOptions ≠ none
      ∧ env.GetDefaultOptions.TlogOptions ≠ none) :
    ((main env flags args).status = Status.exit 0
      ∨ (main env flags args).status = Status.exit 1)
    ∧ (Event.Print Output.success ∈ (main env flags args).trace
      ↔ (main env flags args).status = Status.exit 0)
    ∧ ((main env flags args).status = Status.exit 0
      ↔ ∃ b opts json tr, env.LoadJSONFromPath (Arg args 0) = Except.ok b
          ∧ (flags.minBundleVersion = "" ∨ env.MinVersion b flags.minBundleVersion = true)
          ∧ main.opts env flags = some opts
          ∧ (main.trustedrootJSON env flags).2 = Except.ok json
          ∧ env.NewTrustedRootFromJSON json = Except.ok tr
          ∧ env.Verify (env.NewVerifier tr opts) b = none)
    ∧ (∀ err, env.LoadJSONFromPath (Arg args 0) = Except.error err →
        (main env flags args).status = Status.exit 1
        ∧ (main env flags args).trace.getLast? = some (Event.Print (Output.error err))
        ∧ ∀ e ∈ (main env flags args).trace, e.step ≤ 1)
    ∧ (∀ b, env.LoadJSONFromPath (Arg args 0) = Except.ok b →
        flags.minBundleVersion ≠ "" → env.MinVersion b flags.minBundleVersion = false →
        (main env flags args).status = Status.exit 1
        ∧ (main env flags args).trace.getLast?
            = some (Event.Print (Output.notMinVersion flags.minBundleVersion))
        ∧ ∀ e ∈ (main env flags args).trace, e.step ≤ 2)
    ∧ (∀ b err, env.LoadJSONFromPath (Arg args 0) = Except.ok b →
        (flags.minBundleVersion = "" ∨ env.MinVersion b flags.minBundleVersion = true) →
        (main.trustedrootJSON env flags).2 = Except.error err →
        (main env flags args).status = Status.exit 1
        ∧ (main env flags args).trace.getLast? = some (Event.Print (Output.error err))
        ∧ ∀ e ∈ (main env flags args).trace, e.step ≤ 4)
    ∧ (∀ b json err, env.LoadJSONFromPath (Arg args 0) = Except.ok b →
        (flags.minBundleVersion = "" ∨ env.MinVersion b flags.minBundleVersion = true) →
        (main.trustedrootJSON env flags).2 = Except.ok json →
        env.NewTrustedRootFromJSON json = Except.error err →
        (main env flags args).status = Status.exit 1
        ∧ (main env flags args).trace.getLast? = some (Event.Print (Output.error err))
        ∧ ∀ e ∈ (main env flags args).trace, e.step ≤ 5)
    ∧ (∀ b opts json tr err, env.LoadJSONFromPath (Arg args 0) = Except.ok b →
        (flags.minBundleVersion = "" ∨ env.MinVersion b flags.minBundleVersion = true) →
        main.opts env flags = some opts →
        (main.trustedrootJSON env flags).2 = Except.ok json →
        env.NewTrustedRootFromJSON json = Except.ok tr →
        env.Verify (env.NewVerifier tr opts) b = some err →
        (main env flags args).status = Status.exit 1
        ∧ (main env flags args).trace.getLast? = some (Event.Print (Output.error err))
        ∧ Event.Print Output.success ∉ (main env flags args).trace) := by
  obtain ⟨opts0, hopts0⟩ := (opts_isSome_iff env flags).mpr hdef
  refine ⟨?_, ?_, ?_, ?_, ?_, ?_, ?_, ?_⟩
  · rcases main_cases env flags args with ⟨err, h⟩ | ⟨b1, hl, hne, hf⟩ |
      ⟨b1, hl, hg, ho | ⟨opts, ho, ⟨err, hs⟩ | ⟨json, hs, ⟨err, hp⟩ | ⟨tr, hp, ⟨err, hv⟩ | hv⟩⟩⟩⟩
    · rw [main_load_error env flags args err h]; exact Or.inr rfl
    · rw [main_gate_fail env flags args b1 hl hne hf]; exact Or.inr rfl
    · rw [ho] at hopts0; cases hopts0
    · rw [main_source_error env flags args b1 opts err hl hg ho hs]; exact Or.inr rfl
    · rw [main_parse_error env flags args b1 opts json err hl hg ho hs hp]; exact Or.inr rfl
    · rw [main_verify_error env flags args b1 opts json tr err hl hg ho hs hp hv]
      exact Or.inr rfl
    · rw [main_success env flags args b1 opts json tr hl hg ho hs hp hv]; exact Or.inl rfl
  · rcases main_cases env flags args with ⟨err, h⟩ | ⟨b1, hl, hne, hf⟩ |
      ⟨b1, hl, hg, ho | ⟨opts, ho, ⟨err, hs⟩ | ⟨json, hs, ⟨err, hp⟩ | ⟨tr, hp, ⟨err, hv⟩ | hv⟩⟩⟩⟩
    · rw [main_load_error env flags args err h]; simp
    · rw [main_gate_fail env flags args b1 hl hne hf]; simp
    · rw [ho] at hopts0; cases hopts0
    · rw [main_source_error env flags args b1 opts err hl hg ho hs]
      simp [mem_gateEvents, mem_optsEvents, mem_sourceEvents]
    · rw [main_parse_error env flags args b1 opts json err hl hg ho hs hp]
      simp [mem_gateEvents, mem_optsEvents, mem_sourceEvents]
    · rw [main_verify_error env flags args b1 opts json tr err hl hg ho hs hp hv]
      simp [mem_gateEvents, mem_optsEvents, mem_sourceEvents]
    · rw [main_success env flags args b1 opts json tr hl hg ho hs hp hv]
      simp
  · rcases main_cases env flags args with ⟨err, h⟩ | ⟨b1, hl, hne, hf⟩ |
      ⟨b1, hl, hg, ho | ⟨opts, ho, ⟨err, hs⟩ | ⟨json, hs, ⟨err, hp⟩ | ⟨tr, hp, ⟨err, hv⟩ | hv⟩⟩⟩⟩
    · rw [main_load_error env flags args err h]; simp [h]
    · rw [main_gate_fail env flags args b1 hl hne hf]
      refine ⟨fun h => by simp at h, ?_⟩
      rintro ⟨b, o, j, t, hb, hgate, _⟩
      rw [hl] at hb
      cases hb
      rcases hgate with hgate | hgate
      · exact absurd hgate hne
      · rw [hf] at hgate; cases hgate
    · rw [ho] at hopts0; cases hopts0
    · rw [main_source_error env flags args b1 opts err hl hg ho hs]
      simp [hs]
    · rw [main_parse_error env flags args b1 opts json err hl hg ho hs hp]
      refine ⟨fun h => by simp at h, ?_⟩
      rintro ⟨b, o, j, t, _, _, _, hj, hpj, _⟩
      rw [hs] at hj
      cases hj
      rw [hp] at hpj
      cases hpj
    · rw [main_verify_error env flags args b1 opts json tr err hl hg ho hs hp hv]
      refine ⟨fun h => by simp at h, ?_⟩
      rintro ⟨b, o, j, t, hb, _, ho2, hj, hpj, hvj⟩
      rw [hl] at hb; cases hb
      rw [ho] at ho2; cases ho2
      rw [hs] at hj; cases hj
      rw [hp] at hpj; cases hpj
      rw [hv] at hvj; cases hvj
    · rw [main_success env flags args b1 opts json tr hl hg ho hs hp hv]
      simp only [true_iff]
      exact ⟨b1, opts, json, tr, hl, hg, ho, hs, hp, hv⟩
  · intro err h
    rw [main_load_error env flags args err h]
    refine ⟨rfl, rfl, ?_⟩
    intro e he
    simp only [List.mem_cons, List.mem_singleton, List.not_mem_nil, or_false] at he
    rcases he with he | he <;> subst he <;> simp [Event.step]
  · intro b hl hne hf
    rw [main_gate_fail env flags args b hl hne hf]
    refine ⟨rfl, rfl, ?_⟩
    intro e he
    simp only [List.mem_cons, List.mem_singleton, List.not_mem_nil, or_false] at he
    rcases he with he | he | he <;> subst he <;> simp [Event.step]
  · intro b err hl hg hs
    rw [main_source_error env flags args b opts0 err hl hg hopts0 hs]
    refine ⟨rfl, List.getLast?_concat _, ?_⟩
    intro e he
    rcases List.mem_append.mp he with he | he
    · exact step_first_four env flags _ b e he
    · simp only [List.mem_singleton] at he
      rw [he]; simp [Event.step]
  · intro b json err hl hg hs hp
    rw [main_parse_error env flags args b opts0 json err hl hg hopts0 hs hp]
    refine ⟨rfl, List.getLast?_append_of_ne_nil _ (by simp), ?_⟩
    intro e he
    rcases List.mem_append.mp he with he | he
    · have := step_first_four env flags _ b e he
      omega
    · simp only [List.mem_cons, List.mem_singleton, List.not_mem_nil, or_false] at he
      rcases he with he | he <;> rw [he] <;> simp [Event.step]
  · intro b opts json tr err hl hg ho hs hp hv
    rw [main_verify_error env flags args b opts json tr err hl hg ho hs hp hv]
    refine ⟨rfl, List.getLast?_append_of_ne_nil _ (by simp), ?_⟩
    simp [mem_gateEvents, mem_optsEvents, mem_sourceEvents]

/-- C14 at a run that succeeds: the confirmation is printed and the exit code is 0. -/
theorem C14_exit_status_witness :
    Event.Print Output.success ∈ (main Example.env Flags.defaults ["good.json"]).trace
    ∧ (main Example.env Flags.defaults ["good.json"]).status = Status.exit 0 :=
  ⟨by decide,
    (C14_exit_status Example.env Flags.defaults ["good.json"]
      ⟨by decide, by decide⟩).2.1.mp (by decide)⟩

/-- Every `NewVerifier` event of a run carries the options `main` has built. -/
theorem newVerifier_opts (env : Env Bundle TR SEV) (flags : Flags) (args : List String)
    (tr : TR) (opts : ArtifactVerificationOptions)
    (h : Event.NewVerifier tr opts ∈ (main env flags args).trace) :
    main.opts env flags = some opts := by
  rcases main_cases env flags args with ⟨err, hl⟩ | ⟨b1, hl, hne, hf⟩ |
    ⟨b1, hl, hg, ho | ⟨o, ho, ⟨err, hs⟩ | ⟨json, hs, ⟨err, hp⟩ | ⟨t, hp, ⟨err, hv⟩ | hv⟩⟩⟩⟩
  · rw [main_load_error env flags args err hl] at h; simp at h
  · rw [main_gate_fail env flags args b1 hl hne hf] at h; simp at h
  · rw [main_opts_nil env flags args b1 hl hg ho] at h
    simp [mem_gateEvents] at h
  · rw [main_source_error env flags args b1 o err hl hg ho hs] at h
    simp [mem_gateEvents, mem_optsEvents, mem_sourceEvents] at h
  · rw [main_parse_error env flags args b1 o json err hl hg ho hs hp] at h
    simp [mem_gateEvents, mem_optsEvents, mem_sourceEvents] at h
  · rw [main_verify_error env flags args b1 o json t err hl hg ho hs hp hv] at h
    simp [mem_gateEvents, mem_optsEvents, mem_sourceEvents] at h
    rw [ho, h.2]
  · rw [main_success env flags args b1 o json t hl hg ho hs hp hv] at h
    simp [mem_gateEvents, mem_optsEvents, mem_sourceEvents] at h
    rw [ho, h.2]

/-- The setter events of a run that reaches the verifier are those of the non-empty flags. -/
theorem setter_events (env : Env Bundle TR SEV) (flags : Flags) (args : List String)
    (tr : TR) (opts : ArtifactVerificationOptions)
    (h : Event.NewVerifier tr opts ∈ (main env flags args).trace) (e : Event Bundle TR)
    (he : e.step = 3) :
    e ∈ (main env flags args).trace
      ↔ e ∈ (main.optsEvents flags : List (Event Bundle TR)) := by
  have key : ∀ (b : Bundle) (tail : List (Event Bundle TR)),
      (∀ x ∈ tail, x.step ≠ 3) →
      (e ∈ Event.LoadJSONFromPath (Arg args 0) :: main.gateEvents flags b
          ++ main.optsEvents flags ++ (main.trustedrootJSON env flags).1 ++ tail
        ↔ e ∈ (main.optsEvents flags : List (Event Bundle TR))) := by
    intro b tail htail
    simp only [List.mem_append, List.mem_cons]
    constructor
    · rintro ((((h1 | h1) | h1) | h1) | h1)
      · rw [h1] at he; simp [Event.step] at he
      · rw [step_gateEvents flags b e h1] at he; omega
      · exact h1
      · rw [step_sourceEvents env flags e h1] at he; omega
      · exact absurd he (htail e h1)
    · intro h1
      exact Or.inl (Or.inl (Or.inr h1))
  rcases main_cases env flags args with ⟨err, hl⟩ | ⟨b1, hl, hne, hf⟩ |
    ⟨b1, hl, hg, ho | ⟨o, ho, ⟨err, hs⟩ | ⟨json, hs, ⟨err, hp⟩ | ⟨t, hp, ⟨err, hv⟩ | hv⟩⟩⟩⟩
  · rw [main_load_error env flags args err hl] at h; simp at h
  · rw [main_gate_fail env flags args b1 hl hne hf] at h; simp at h
  · rw [main_opts_nil env flags args b1 hl hg ho] at h
    simp [mem_gateEvents] at h
  · rw [main_source_error env flags args b1 o err hl hg ho hs] at h
    simp [mem_gateEvents, mem_optsEvents, mem_sourceEvents] at h
  · rw [main_parse_error env flags args b1 o json err hl hg ho hs hp] at h
    simp [mem_gateEvents, mem_optsEvents, mem_sourceEvents] at h
  · rw [main_verify_error env flags args b1 o json t err hl hg ho hs hp hv]
    exact key b1 _ (by
      intro x hx
      simp only [List.mem_cons, List.mem_singleton, List.not_mem_nil, or_false] at hx
      rcases hx with hx | hx | hx | hx <;> rw [hx] <;> simp [Event.step])
  · rw [main_success env flags args b1 o json t hl hg ho hs hp hv]
    exact key b1 _ (by
      intro x hx
      simp only [List.mem_cons, List.mem_singleton, List.not_mem_nil, or_false] at hx
      rcases hx with hx | hx | hx | hx <;> rw [hx] <;> simp [Event.step])

/-- C17: the options handed to `NewVerifier` are the default options with `TsaOptions.Disable`
set to `!requireTSA`, `TlogOptions.Disable` set to `!requireTlog` and
`TlogOptions.PerformOnlineVerification` set to `onlineTlog`, on which `SetExpectedOIDC` is
then called exactly when `expectedOIDC` is not empty and `SetExpectedSAN` exactly when
`expectedSAN` is not empty; nothing else of the defaults is changed by `main`. With setters
that leave the transparency-log and timestamp options alone, those options reach the
verifier as written. -/
theorem C17_verifier_options (env : Env Bundle TR SEV) (flags : Flags) (args : List String)
    (tr : TR) (opts : ArtifactVerificationOptions)
    (h : Event.NewVerifier tr opts ∈ (main env flags args).trace) :
    ∃ tsa tlog base,
      env.GetDefaultOptions.TsaOptions = some tsa
      ∧ env.GetDefaultOptions.TlogOptions = some tlog
      ∧ base = { Signers := env.GetDefaultOptions.Signers
                 TlogOptions := some
                   { Threshold := tlog.Threshold
                     PerformOnlineVerification := flags.onlineTlog
                     Disable := !flags.requireTlog }
                 CtlogOptions := env.GetDefaultOptions.CtlogOptions
                 TsaOptions := some
                   { Threshold := tsa.Threshold, Disable := !flags.requireTSA } }
      ∧ opts
        = (if flags.expectedSAN ≠ "" then
            env.SetExpectedSAN
              (if flags.expectedOIDC ≠ "" then env.SetExpectedOIDC base flags.expectedOIDC
                else base) flags.expectedSAN
          else if flags.expectedOIDC ≠ "" then env.SetExpectedOIDC base flags.expectedOIDC
          else base)
      ∧ (∀ issuer, Event.SetExpectedOIDC issuer ∈ (main env flags args).trace
          ↔ flags.expectedOIDC ≠ "" ∧ issuer = flags.expectedOIDC)
      ∧ (∀ san, Event.SetExpectedSAN san ∈ (main env flags args).trace
          ↔ flags.expectedSAN ≠ "" ∧ san = flags.expectedSAN)
      ∧ ((∀ o s, (env.SetExpectedOIDC o s).TsaOptions = o.TsaOptions
            ∧ (env.SetExpectedOIDC o s).TlogOptions = o.TlogOptions
            ∧ (env.SetExpectedSAN o s).TsaOptions = o.TsaOptions
            ∧ (env.SetExpectedSAN o s).TlogOptions = o.TlogOptions) →
          opts.TsaOptions = some { Threshold := tsa.Threshold, Disable := !flags.requireTSA }
          ∧ opts.TlogOptions
            = some { Threshold := tlog.Threshold
                     PerformOnlineVerification := flags.onlineTlog
                     Disable := !flags.requireTlog }) := by
  have ho := newVerifier_opts env flags args tr opts h
  obtain ⟨h1, h2⟩ := (opts_isSome_iff env flags).mp ⟨opts, ho⟩
  obtain ⟨tsa, htsa⟩ := Option.ne_none_iff_exists'.mp h1
  obtain ⟨tlog, htlog⟩ := Option.ne_none_iff_exists'.mp h2
  have hopts := opts_of_defaults env flags tsa tlog htsa htlog
  rw [ho] at hopts
  have hopts2 := Option.some.inj hopts
  refine ⟨tsa, tlog, _, htsa, htlog, rfl, ?_, ?_, ?_, ?_⟩
  · exact hopts2
  · intro issuer
    rw [setter_events env flags args tr opts h (Event.SetExpectedOIDC issuer) rfl,
      mem_optsEvents]
    simp [eq_comm]
  · intro san
    rw [setter_events env flags args tr opts h (Event.SetExpectedSAN san) rfl,
      mem_optsEvents]
    simp [eq_comm]
  · intro hset
    rw [hopts2]
    by_cases c1 : flags.expectedSAN = "" <;> by_cases c2 : flags.expectedOIDC = "" <;>
      simp [c1, c2, hset]

/-- C17 at a run with `requireTSA`, `onlineTlog` and an expected issuer. -/
theorem C17_verifier_options_witness :
    Event.NewVerifier 9
        { Signers := some (Signers.CertificateIdentities [("https://issuer.example", "")])
          TlogOptions := some
            { Threshold := 1, PerformOnlineVerification := true, Disable := false }
          CtlogOptions := some { Threshold := 1, DetachedSct := false, Disable := false }
          TsaOptions := some { Threshold := 0, Disable := false } }
      ∈ (main Example.env
          { Flags.defaults with
            requireTSA := true, onlineTlog := true, expectedOIDC := "https://issuer.example" }
          ["good.json"]).trace
    ∧ ∃ tsa tlog, Example.env.GetDefaultOptions.TsaOptions = some tsa
        ∧ Example.env.GetDefaultOptions.TlogOptions = some tlog :=
  ⟨by decide,
    by
      obtain ⟨tsa, tlog, _, h1, h2, _⟩ := C17_verifier_options Example.env
        { Flags.defaults with
          requireTSA := true, onlineTlog := true, expectedOIDC := "https://issuer.example" }
        ["good.json"] 9
        { Signers := some (Signers.CertificateIdentities [("https://issuer.example", "")])
          TlogOptions := some
            { Threshold := 1, PerformOnlineVerification := true, Disable := false }
          CtlogOptions := some { Threshold := 1, DetachedSct := false, Disable := false }
          TsaOptions := some { Threshold := 0, Disable := false } }
        (by decide)
      exact ⟨tsa, tlog, h1, h2⟩⟩

/-- The events of steps 4 and 5 of a run are those of the selected source and the one call
of the parser on the bytes it gave. -/
theorem source_and_parse_events (env : Env Bundle TR SEV) (flags : Flags)
    (args : List String) (e : Event Bundle TR) (he : e.step = 4 ∨ e.step = 5)
    (hmem : e ∈ (main env flags args).trace) :
    e ∈ (main.trustedrootJSON env flags).1
    ∨ ∃ json, e = Event.NewTrustedRootFromJSON json
        ∧ (main.trustedrootJSON env flags).2 = Except.ok json := by
  have key : ∀ (b : Bundle), e ∈ Event.LoadJSONFromPath (Arg args 0) :: main.gateEvents flags b
        ++ main.optsEvents flags ++ (main.trustedrootJSON env flags).1 →
      e ∈ (main.trustedrootJSON env flags).1 := by
    intro b hx
    simp only [List.mem_append, List.mem_cons] at hx
    rcases hx with ((h1 | h1) | h1) | h1
    · rw [h1] at he; simp [Event.step] at he
    · rw [step_gateEvents flags b e h1] at he; omega
    · rw [step_optsEvents flags e h1] at he; omega
    · exact h1
  rcases main_cases env flags args with ⟨err, hl⟩ | ⟨b1, hl, hne, hf⟩ |
    ⟨b1, hl, hg, ho | ⟨o, ho, ⟨err, hs⟩ | ⟨json, hs, ⟨err, hp⟩ | ⟨t, hp, ⟨err, hv⟩ | hv⟩⟩⟩⟩
  · rw [main_load_error env flags args err hl] at hmem
    simp only [List.mem_cons, List.mem_singleton, List.not_mem_nil, or_false] at hmem
    rcases hmem with h1 | h1 <;> rw [h1] at he <;> simp [Event.step] at he
  · rw [main_gate_fail env flags args b1 hl hne hf] at hmem
    simp only [List.mem_cons, List.mem_singleton, List.not_mem_nil, or_false] at hmem
    rcases hmem with h1 | h1 | h1 <;> rw [h1] at he <;> simp [Event.step] at he
  · rw [main_opts_nil env flags args b1 hl hg ho] at hmem
    simp only [List.mem_append, List.mem_cons, List.mem_singleton, List.not_mem_nil,
      or_false] at hmem
    rcases hmem with (h1 | h1) | h1
    · rw [h1] at he; simp [Event.step] at he
    · rw [step_gateEvents flags b1 e h1] at he; omega
    · rw [h1] at he; simp [Event.step] at he
  · rw [main_source_error env flags args b1 o err hl hg ho hs] at hmem
    rcases List.mem_append.mp hmem with h1 | h1
    · exact Or.inl (key b1 h1)
    · simp only [List.mem_singleton] at h1
      rw [h1] at he; simp [Event.step] at he
  · rw [main_parse_error env flags args b1 o json err hl hg ho hs hp] at hmem
    rcases List.mem_append.mp hmem with h1 | h1
    · exact Or.inl (key b1 h1)
    · simp only [List.mem_cons, List.mem_singleton, List.not_mem_nil, or_false] at h1
      rcases h1 with h1 | h1
      · exact Or.inr ⟨json, h1, hs⟩
      · rw [h1] at he; simp [Event.step] at he
  · rw [main_verify_error env flags args b1 o json t err hl hg ho hs hp hv] at hmem
    rcases List.mem_append.mp hmem with h1 | h1
    · exact Or.inl (key b1 h1)
    · simp only [List.mem_cons, List.mem_singleton, List.not_mem_nil, or_false] at h1
      rcases h1 with h1 | h1 | h1 | h1
      · exact Or.inr ⟨json, h1, hs⟩
      · rw [h1] at he; simp [Event.step] at he
      · rw [h1] at he; simp [Event.step] at he
      · rw [h1] at he; simp [Event.step] at he
  · rw [main_success env flags args b1 o json t hl hg ho hs hp hv] at hmem
    rcases List.mem_append.mp hmem with h1 | h1
    · exact Or.inl (key b1 h1)
    · simp only [List.mem_cons, List.mem_singleton, List.not_mem_nil, or_false] at h1
      rcases h1 with h1 | h1 | h1 | h1
      · exact Or.inr ⟨json, h1, hs⟩
      · rw [h1] at he; simp [Event.step] at he
      · rw [h1] at he; simp [Event.step] at he
      · rw [h1] at he; simp [Event.step] at he

/-- A run that gets past the gate with options built and bytes obtained calls the parser on
those bytes. -/
theorem parser_called (env : Env Bundle TR SEV) (flags : Flags) (args : List String)
    (b : Bundle) (opts : ArtifactVerificationOptions) (json : GoBytes)
    (hl : env.LoadJSONFromPath (Arg args 0) = Except.ok b)
    (hg : flags.minBundleVersion = "" ∨ env.MinVersion b flags.minBundleVersion = true)
    (ho : main.opts env flags = some opts)
    (hs : (main.trustedrootJSON env flags).2 = Except.ok json) :
    Event.NewTrustedRootFromJSON json ∈ (main env flags args).trace := by
  cases hp : env.NewTrustedRootFromJSON json with
  | error err =>
    rw [main_parse_error env flags args b opts json err hl hg ho hs hp]
    simp
  | ok t =>
    cases hv : env.Verify (env.NewVerifier t opts) b with
    | some err =>
      rw [main_verify_error env flags args b opts json t err hl hg ho hs hp hv]
      simp
    | none =>
      rw [main_success env flags args b opts json t hl hg ho hs hp hv]
      simp

/-- C20: with `tufRootURL` set, the local file is never read and the parser is only ever
called on the bytes the TUF client returned; with `tufRootURL` empty and
`trustedrootJSONpath` set, the TUF client is never called and the parser is only ever called
on the contents of that file; with both empty, neither source is read and the parser is only
ever called on the nil slice. In each case, a run that loads the bundle, passes the gate and
obtains the bytes calls `NewTrustedRootFromJSON` on them. -/
theorem C20_trust_root_source (env : Env Bundle TR SEV) (flags : Flags) (args : List String) :
    (flags.tufRootURL ≠ "" →
      ∀ path, Event.ReadFile path ∉ (main env flags args).trace)
    ∧ (flags.tufRootURL = "" →
      ∀ url dir, Event.GetTrustedrootJSON url dir ∉ (main env flags args).trace)
    ∧ (flags.tufRootURL = "" → flags.trustedrootJSONpath = "" →
      ∀ path, Event.ReadFile path ∉ (main env flags args).trace)
    ∧ (flags.tufRootURL = "" → flags.trustedrootJSONpath ≠ "" →
      ∀ path, Event.ReadFile path ∈ (main env flags args).trace →
        path = flags.trustedrootJSONpath)
    ∧ (∀ json, Event.NewTrustedRootFromJSON json ∈ (main env flags args).trace →
        (flags.tufRootURL ≠ ""
          ∧ env.GetTrustedrootJSON flags.tufRootURL flags.tufDirectory = Except.ok json)
        ∨ (flags.tufRootURL = "" ∧ flags.trustedrootJSONpath ≠ ""
          ∧ env.ReadFile flags.trustedrootJSONpath = Except.ok json)
        ∨ (flags.tufRootURL = "" ∧ flags.trustedrootJSONpath = "" ∧ json = none))
    ∧ (∀ b json, env.LoadJSONFromPath (Arg args 0) = Except.ok b →
        (flags.minBundleVersion = "" ∨ env.MinVersion b flags.minBundleVersion = true) →
        (∃ opts, main.opts env flags = some opts) →
        ((flags.tufRootURL ≠ ""
            ∧ env.GetTrustedrootJSON flags.tufRootURL flags.tufDirectory = Except.ok json)
          ∨ (flags.tufRootURL = "" ∧ flags.trustedrootJSONpath ≠ ""
            ∧ env.ReadFile flags.trustedrootJSONpath = Except.ok json)
          ∨ (flags.tufRootURL = "" ∧ flags.trustedrootJSONpath = "" ∧ json = none)) →
        Event.NewTrustedRootFromJSON json ∈ (main env flags args).trace) := by
  refine ⟨?_, ?_, ?_, ?_, ?_, ?_⟩
  · intro htuf path hmem
    rcases source_and_parse_events env flags args (Event.ReadFile path) (Or.inl rfl) hmem
      with h | ⟨j, h, _⟩
    · rw [mem_sourceEvents] at h
      rcases h with ⟨_, h⟩ | ⟨h0, _⟩
      · cases h
      · exact htuf h0
    · cases h
  · intro htuf url dir hmem
    rcases source_and_parse_events env flags args (Event.GetTrustedrootJSON url dir)
      (Or.inl rfl) hmem with h | ⟨j, h, _⟩
    · rw [mem_sourceEvents] at h
      rcases h with ⟨h0, _⟩ | ⟨_, _, h⟩
      · exact h0 htuf
      · cases h
    · cases h
  · intro htuf hpath path hmem
    rcases source_and_parse_events env flags args (Event.ReadFile path) (Or.inl rfl) hmem
      with h | ⟨j, h, _⟩
    · rw [mem_sourceEvents] at h
      rcases h with ⟨h0, _⟩ | ⟨_, h0, _⟩
      · exact h0 htuf
      · exact h0 hpath
    · cases h
  · intro htuf _ path hmem
    rcases source_and_parse_events env flags args (Event.ReadFile path) (Or.inl rfl) hmem
      with h | ⟨j, h, _⟩
    · rw [mem_sourceEvents] at h
      rcases h with ⟨h0, _⟩ | ⟨_, _, h⟩
      · exact absurd htuf h0
      · cases h; rfl
    · cases h
  · intro json hmem
    rcases source_and_parse_events env flags args (Event.NewTrustedRootFromJSON json)
      (Or.inr rfl) hmem with h | ⟨j, h, hs⟩
    · rw [mem_sourceEvents] at h
      rcases h with ⟨_, h⟩ | ⟨_, _, h⟩ <;> cases h
    · cases h
      exact (source_result env flags json).mp hs
  · rintro b json hl hg ⟨opts, ho⟩ hsrc
    exact parser_called env flags args b opts json hl hg ho
      ((source_result env flags json).mpr hsrc)

/-- C20 at a run with both `tufRootURL` and the default path set: the parser gets the bytes
of the TUF client and the file is not read. -/
theorem C20_trust_root_source_witness :
    Event.NewTrustedRootFromJSON (some [7])
      ∈ (main Example.env { Flags.defaults with tufRootURL := "https://tuf.example" }
          ["good.json"]).trace
    ∧ ∀ path, Event.ReadFile path
      ∉ (main Example.env { Flags.defaults with tufRootURL := "https://tuf.example" }
          ["good.json"]).trace :=
  ⟨(C20_trust_root_source Example.env
      { Flags.defaults with tufRootURL := "https://tuf.example" } ["good.json"]).2.2.2.2.2
      "good.json" (some [7]) rfl (Or.inl rfl) ⟨_, rfl⟩ (Or.inl ⟨by decide, rfl⟩),
    (C20_trust_root_source Example.env
      { Flags.defaults with tufRootURL := "https://tuf.example" } ["good.json"]).1
      (by decide)⟩

end CliClaims

end Sigstore
